import Mathlib

/-!
Shallow embedding of `src/plugins/block-dynamic-connection/src/dynamic_if.ts`
(the `DYNAMIC_IF_MIXIN` for the `dynamic_if` Blockly block).

Modelling conventions:
* An `Input` models a `Blockly.Input` on the block: its name, whether it is a
  value input or a statement input, the identity of its connection object
  (`cid`, a natural number standing for JS object identity), and
  `connection.targetConnection` as an `Option Target`.
* A `Target` models an external target connection (the attachment of a
  sub-block). `isMarker` models
  `targetConnection.getSourceBlock().isInsertionMarker()`.
* Slot names are structural: the source only ever builds names as
  `'IF' + d`, `'DO' + d` and `'ELSE'`, and compares them for equality,
  so `SlotName` with the discriminator string `d` is a faithful encoding
  (`'IF' + a = 'IF' + b` iff `a = b`; the three shapes never collide).
* Numeric ids are stringified with `decimalStr`, the usual base-10
  representation, matching JS number-to-string conversion for naturals.
* `Blockly.Block` host methods used by the mixin (`appendValueInput`,
  `appendStatementInput`, `getInput`, `removeInput`, `moveInputBefore`,
  `connection.connect`) are modelled on `Block` below.  `moveInputBefore`
  is a no-op when moving an input before itself, and moves the first input
  carrying the given name before the first input carrying the reference
  name, as in Blockly's `Block.moveInputBefore`/`moveNumberedInputBefore`.
  Blockly throws when the reference input is missing; at every call site in
  this file the reference exists or the call is the final mutation of the
  entry point, so modelling that case as a no-op is observationally
  equivalent for the block state.
* `connection.connect(target)` first detaches `target` from whatever input
  held it (a connection can be connected to at most one other), then
  attaches it to the connection identified by `cid`.
* Fields, checks, tooltips and messages are irrelevant to the block shape
  and are not modelled.
-/

/-- An external target connection (the attachment of a sub-block); `isMarker`
models `getSourceBlock().isInsertionMarker()`. -/
structure Target where
  tid : Nat
  isMarker : Bool
deriving DecidableEq, Repr

/-- A slot name: the source builds names only as `'IF' + d`, `'DO' + d`,
`'ELSE'`. -/
inductive SlotName where
  | ifName (d : String)
  | doName (d : String)
  | elseName
deriving DecidableEq, Repr

/-- Value input (`appendValueInput`) or statement input
(`appendStatementInput`). -/
inductive InputKind where
  | value
  | statement
deriving DecidableEq, Repr

/-- A `Blockly.Input` on the block, with the identity of its connection
object (`cid`) and its `connection.targetConnection`. -/
structure Input where
  name : SlotName
  kind : InputKind
  cid : Nat
  target : Option Target
deriving DecidableEq, Repr

/-- The mutable state of one `dynamic_if` block: `this.inputList`,
`this.elseifCount`, `this.elseCount`.  `nextCid` is the supply of fresh
connection identities for newly created inputs. -/
structure Block where
  inputList : List Input
  elseifCount : Int
  elseCount : Int
  nextCid : Nat
deriving DecidableEq, Repr

/-- A connection on this block, as passed to `onPendingConnection`:
either some input's connection (identified by the connection identity) or
the block's own next/previous statement connection. -/
inductive Conn where
  | inputConn (cid : Nat)
  | next
  | prev
deriving DecidableEq, Repr

/-- `Blockly.INPUT_VALUE`, `Blockly.NEXT_STATEMENT`,
`Blockly.PREVIOUS_STATEMENT` (statement inputs carry `NEXT_STATEMENT`
connections). -/
inductive ConnType where
  | inputValue
  | nextStatement
  | previousStatement
deriving DecidableEq, Repr

/-- The attributes of the `<mutation>` XML element read and written by the
mixin: `inputs` (legacy), `elseif`, `else` (here `elseAttr`, since `else` is
a Lean keyword). `none` models an absent attribute. -/
structure MutationDom where
  inputs : Option String
  elseif : Option String
  elseAttr : Option String
deriving DecidableEq, Repr

/-! ### Decimal representation of numbers (JS number-to-string) -/

/-- The character of a decimal digit. -/
def digitCh (n : Nat) : Char := Char.ofNat (48 + n)

/-- Base-10 digit list of `n`, with structural fuel so that it reduces in
the kernel. -/
def decDigitsAux : Nat → Nat → List Char
  | 0, _ => []
  | fuel + 1, n => if n < 10 then [digitCh n] else decDigitsAux fuel (n / 10) ++ [digitCh (n % 10)]

/-- The usual decimal string of a natural number, as JS stringifies a
nonnegative integer. -/
def decimalStr (n : Nat) : String := ⟨decDigitsAux (n + 1) n⟩

/-- JS stringification of an integer. -/
def intStr : Int → String
  | .ofNat n => decimalStr n
  | .negSucc n => "-" ++ decimalStr (n + 1)

/-! ### `String.prototype.includes('IF')` -/

/-- Whether a character list starts with `IF`. -/
def startsWithIF : List Char → Bool
  | 'I' :: 'F' :: _ => true
  | _ => false

/-- Whether a character list contains `IF` as a contiguous substring. -/
def hasIFAux : List Char → Bool
  | [] => false
  | c :: rest => startsWithIF (c :: rest) || hasIFAux rest

/-- `s.includes('IF')` for a JS string `s`. -/
def strHasIF (s : String) : Bool := hasIFAux s.data

/-- `input.name.includes('IF')`: an `'IF' + d` name always contains `IF`; a
`'DO' + d` name contains `IF` iff the discriminator does (`'DO'` contributes
no `I`); `'ELSE'` does not contain `IF`. -/
def includesIF : SlotName → Bool
  | .ifName _ => true
  | .doName d => strHasIF d
  | .elseName => false

/-! ### Host (Blockly.Block) primitives -/

/-- `appendValueInput` / `appendStatementInput`: appends a fresh input with
an unconnected connection at the end of `inputList`. -/
def appendInput (b : Block) (n : SlotName) (k : InputKind) : Block :=
  { b with
    inputList := b.inputList ++ [{ name := n, kind := k, cid := b.nextCid, target := none }]
    nextCid := b.nextCid + 1 }

/-- `this.getInput(name)`: the first input with the given name. -/
def getInput (b : Block) (n : SlotName) : Option Input :=
  b.inputList.find? (fun i => i.name = n)

/-- `this.removeInput(name)`: removes the first input with the given name
(disposing it disconnects whatever was attached). -/
def removeInput (b : Block) (n : SlotName) : Block :=
  { b with inputList := b.inputList.eraseP (fun i => i.name = n) }

/-- Inserts `x` immediately before the first element named `ref`
(at the end if no element is named `ref`). -/
def insertBeforeName : List Input → SlotName → Input → List Input
  | [], _, x => [x]
  | a :: rest, ref, x =>
    if a.name = ref then x :: a :: rest else a :: insertBeforeName rest ref x

/-- `this.moveInputBefore(name, refName)`: no-op when `name = refName`;
otherwise moves the first input named `name` before the first input named
`refName` (no-op when either is missing — Blockly throws there, see the
module comment). -/
def moveInputBefore (b : Block) (n ref : SlotName) : Block :=
  if n = ref then b
  else
    match b.inputList.find? (fun i => i.name = n) with
    | none => b
    | some inp =>
      if (b.inputList.find? (fun i => i.name = ref)).isSome then
        { b with inputList := insertBeforeName (b.inputList.eraseP (fun i => i.name = n)) ref inp }
      else b

/-- The per-input effect of `connection.connect(target)`: the input whose
connection is identified by `cid` receives `target`; any input that held
`target` is disconnected from it; all others are untouched. -/
def connectFun (cid : Nat) (t : Target) (i : Input) : Input :=
  if i.cid = cid then { i with target := some t }
  else if i.target = some t then { i with target := none }
  else i

/-- `connection.connect(target)` where `connection` is the connection of
the input identified by `cid`: detaches `target` from any input holding it,
then attaches it to that input. -/
def connectTarget (b : Block) (cid : Nat) (t : Target) : Block :=
  { b with inputList := b.inputList.map (connectFun cid t) }

/-! ### The mixin: `src/plugins/block-dynamic-connection/src/dynamic_if.ts` -/

/-- `init`: a fresh block has exactly the inputs `IF0` (value) and `DO0`
(statement); `elseifCount = 0`, `elseCount = 0`. -/
def initBlock : Block :=
  appendInput
    (appendInput { inputList := [], elseifCount := 0, elseCount := 0, nextCid := 0 }
      (.ifName "0") .value)
    (.doName "0") .statement

/-- `connection.type` for a connection on this block: value inputs carry
`INPUT_VALUE` connections, statement inputs carry `NEXT_STATEMENT`
connections; the block's own next/previous connections carry
`NEXT_STATEMENT`/`PREVIOUS_STATEMENT`. -/
def connType (b : Block) : Conn → ConnType
  | .inputConn cid =>
    match b.inputList.find? (fun i => i.cid = cid) with
    | some i =>
      match i.kind with
      | .value => .inputValue
      | .statement => .nextStatement
    | none => .inputValue
  | .next => .nextStatement
  | .prev => .previousStatement

/-- `connection.targetConnection` for a connection on this block (only ever
read on input connections in the source). -/
def connTargetConnection (b : Block) : Conn → Option Target
  | .inputConn cid => (b.inputList.find? (fun i => i.cid = cid)).bind (fun i => i.target)
  | .next => none
  | .prev => none

/-- `findInputIndexForConnection`: the index in `inputList` of the input
whose connection is the given connection, or `null`. -/
def findInputIndexForConnection (b : Block) : Conn → Option Nat
  | .inputConn cid => b.inputList.findIdx? (fun i => i.cid = cid)
  | .next => none
  | .prev => none

/-- `insertElseIf(index, id)`: appends a value input `IF<id>` and a
statement input `DO<id>`, then moves them before the inputs currently at
`index` and `index + 1`.  The two fresh inputs get connection identities
`b.nextCid` and `b.nextCid + 1`. -/
def insertElseIf (b : Block) (index : Nat) (id : String) : Block :=
  let b2 := appendInput (appendInput b (.ifName id) .value) (.doName id) .statement
  let b3 :=
    match b2.inputList.get? index with
    | some ref => moveInputBefore b2 (.ifName id) ref.name
    | none => b2
  match b3.inputList.get? (index + 1) with
  | some ref => moveInputBefore b3 (.doName id) ref.name
  | none => b3

/-- `onPendingConnection(connection)` with `uid` the value produced by
`Blockly.utils.idGenerator.genUid()` for this call. -/
def onPendingConnection (b : Block) (conn : Conn) (uid : String) : Block :=
  let b1 :=
    if connType b conn = .nextStatement ∧ getInput b .elseName = none then
      appendInput b .elseName .statement
    else b
  match findInputIndexForConnection b1 conn with
  | none => b1
  | some inputIndex =>
    match b1.inputList.get? inputIndex with
    | none => b1
    | some input =>
      if (connTargetConnection b1 conn).isSome ∧ includesIF input.name then
        match b1.inputList.get? (inputIndex + 2) with
        | none => insertElseIf b1 (inputIndex + 2) uid
        | some nextIfInput =>
          if nextIfInput.name = .elseName then
            insertElseIf b1 (inputIndex + 2) uid
          else
            match nextIfInput.target with
            | some nextIfConnection =>
              if ¬nextIfConnection.isMarker then
                insertElseIf b1 (inputIndex + 2) uid
              else b1
            | none => b1
      else b1

/-- `collectTargetCaseConns` body: walks `inputList` pairwise
(`i`, `i + 1` for `i = 0, 2, 4, …` while `i < length - 1`), skipping pairs
where neither side has an attachment. -/
def collectAux : List Input → List (Option Target × Option Target)
  | a :: c :: rest =>
    (if a.target = none ∧ c.target = none then [] else [(a.target, c.target)]) ++ collectAux rest
  | _ => []

/-- `collectTargetCaseConns()`. -/
def collectTargetCaseConns (b : Block) : List (Option Target × Option Target) :=
  collectAux b.inputList

/-- The loop of `deleteDynamicInputs`: for `i` from `inputList.length - 1`
down to `2`, remove the input currently named `inputList[i].name`. -/
def deleteDynLoop : Nat → Block → Block
  | 0, b => b
  | 1, b => b
  | i + 2, b =>
    let b' :=
      match b.inputList.get? (i + 2) with
      | some inp => removeInput b inp.name
      | none => b
    deleteDynLoop (i + 1) b'

/-- `deleteDynamicInputs()`: deletes every input except the first two. -/
def deleteDynamicInputs (b : Block) : Block :=
  deleteDynLoop (b.inputList.length - 1) b

/-- One iteration of the `addCaseInputs` loop at index `i`: reuse inputs
`IF<i>`/`DO<i>` when both exist, otherwise create them with
`insertElseIf(i * 2, i)` (the fresh inputs then carry connection
identities `b.nextCid` and `b.nextCid + 1`), then connect the recorded
target connections. -/
def addCaseStep (b : Block) (i : Nat) (p : Option Target × Option Target) : Block :=
  let setup : Block × Nat × Nat :=
    match getInput b (.ifName (decimalStr i)), getInput b (.doName (decimalStr i)) with
    | some ifI, some doI => (b, ifI.cid, doI.cid)
    | _, _ => (insertElseIf b (i * 2) (decimalStr i), b.nextCid, b.nextCid + 1)
  let b2 :=
    match p.1 with
    | some t => connectTarget setup.1 setup.2.1 t
    | none => setup.1
  match p.2 with
  | some t => connectTarget b2 setup.2.2 t
  | none => b2

/-- The `addCaseInputs` loop from index `i` on. -/
def addCaseInputsFrom (b : Block) (i : Nat) : List (Option Target × Option Target) → Block
  | [] => b
  | p :: rest => addCaseInputsFrom (addCaseStep b i p) (i + 1) rest

/-- `addCaseInputs(targetConns)`. -/
def addCaseInputs (b : Block) (conns : List (Option Target × Option Target)) : Block :=
  addCaseInputsFrom b 0 conns

/-- `addElseInput(targetElseConn)`: appends an `ELSE` statement input and
connects the given target connection to it. -/
def addElseInput (b : Block) (t : Target) : Block :=
  connectTarget (appendInput b .elseName .statement) b.nextCid t

/-- `finalizeConnections()`. -/
def finalizeConnections (b : Block) : Block :=
  let targetCaseConns := collectTargetCaseConns b
  let targetElseConn := (getInput b .elseName).bind (fun i => i.target)
  let b1 := deleteDynamicInputs b
  let b2 := addCaseInputs b1 targetCaseConns
  let b3 :=
    match targetElseConn with
    | some t => addElseInput b2 t
    | none => b2
  { b3 with
    elseifCount := max ((targetCaseConns.length : Int) - 1) 0
    elseCount := if targetElseConn.isSome then 1 else 0 }

/-! ### Persistence -/

/-- JS whitespace accepted by `parseInt` before the number. -/
def isJsSpace (c : Char) : Bool := c = ' ' ∨ c = '\t' ∨ c = '\n' ∨ c = '\r'

/-- Numeric value of a decimal digit character. -/
def digVal (c : Char) : Nat := c.toNat - 48

/-- `parseInt(s, 10)`: skip leading whitespace, read an optional sign, then
the longest prefix of decimal digits; `NaN` (here `none`) when there is no
digit.  (With radix 10 a `0x` prefix is not special: parsing stops at the
`x`.) -/
def parseIntJS (s : String) : Option Int :=
  let cs := s.data.dropWhile isJsSpace
  let sign : Int := if cs.head? = some '-' then -1 else 1
  let rest := if cs.head? = some '-' ∨ cs.head? = some '+' then cs.tail else cs
  let ds := rest.takeWhile Char.isDigit
  if ds.isEmpty then none
  else some (sign * ((ds.foldl (fun a c => 10 * a + digVal c) 0 : Nat) : Int))

/-- `deserializeCounts(xmlElement)`: `parseInt(attr ?? '0', 10) || 0`
coerces `NaN` to `0` (and `0` to itself); then one `IF<i>`/`DO<i>` pair is
appended for `i = 1 .. elseifCount`, and an `ELSE` input when `elseCount`
is truthy. -/
def deserializeCounts (b : Block) (xml : MutationDom) : Block :=
  let eif : Int := (parseIntJS (xml.elseif.getD "0")).getD 0
  let els : Int := (parseIntJS (xml.elseAttr.getD "0")).getD 0
  let b1 := { b with elseifCount := eif, elseCount := els }
  let b2 := (List.range eif.toNat).foldl
    (fun acc j =>
      appendInput (appendInput acc (.ifName (decimalStr (j + 1))) .value)
        (.doName (decimalStr (j + 1))) .statement)
    b1
  if els ≠ 0 then appendInput b2 .elseName .statement else b2

/-- `inputs.split(',')` of JS: splits at every comma, keeping empty
fragments. -/
def splitOnCommaAux : List Char → List Char → List String
  | [], acc => [String.mk acc.reverse]
  | c :: rest, acc =>
    if c = ',' then String.mk acc.reverse :: splitOnCommaAux rest []
    else splitOnCommaAux rest (c :: acc)

/-- See `splitOnCommaAux`. -/
def splitOnComma (s : String) : List String := splitOnCommaAux s.data []

/-- `deserializeInputs(xmlElement)` (legacy `inputs` attribute): removes
`IF0`/`DO0` when present, appends an `IF`/`DO` pair for every
comma-separated id, and an `ELSE` input when the `else` attribute is
literally `"true"`. -/
def deserializeInputs (b : Block) (xml : MutationDom) : Block :=
  let b1 :=
    match xml.inputs with
    | some s =>
      if s ≠ "" then
        let inputNumbers := splitOnComma s
        let bA := if (getInput b (.ifName "0")).isSome then removeInput b (.ifName "0") else b
        let bB := if (getInput bA (.doName "0")).isSome then removeInput bA (.doName "0") else bA
        let first := inputNumbers.headD ""
        let bC := appendInput (appendInput bB (.ifName first) .value) (.doName first) .statement
        (inputNumbers.drop 1).foldl
          (fun acc m => appendInput (appendInput acc (.ifName m) .value) (.doName m) .statement)
          bC
      else b
    | none => b
  if xml.elseAttr = some "true" then appendInput b1 .elseName .statement else b1

/-- `domToMutation(xmlElement)`: the legacy `inputs` attribute takes
precedence when present (and truthy, i.e. a non-empty string). -/
def domToMutation (b : Block) (xml : MutationDom) : Block :=
  match xml.inputs with
  | some s => if s ≠ "" then deserializeInputs b xml else deserializeCounts b xml
  | none => deserializeCounts b xml

/-- `mutationToDom()`: first runs `finalizeConnections` (events disabled —
event flow not modelled), then returns `null` when both counts are zero,
otherwise a `<mutation>` element with `elseif` (when nonzero) and
`else="1"` (when nonzero).  The mutated block is returned alongside. -/
def mutationToDom (b : Block) : Block × Option MutationDom :=
  let b' := finalizeConnections b
  if b'.elseifCount = 0 ∧ b'.elseCount = 0 then (b', none)
  else
    (b', some
      { inputs := none
        elseif := if b'.elseifCount ≠ 0 then some (intStr b'.elseifCount) else none
        elseAttr := if b'.elseCount ≠ 0 then some "1" else none })

/-! ### Observables -/

/-- The list of slot names of a block, in order. -/
def inputNames (b : Block) : List SlotName := b.inputList.map (fun i => i.name)

/-- The observable shape of a block: names, kinds and attachments in
order. -/
def shapeOf (b : Block) : List (SlotName × InputKind × Option Target) :=
  b.inputList.map (fun i => (i.name, i.kind, i.target))

/-- The number of Condition (`IF…`) slots of a block. -/
def caseCountOf (b : Block) : Nat :=
  (b.inputList.filter (fun i =>
    match i.name with
    | .ifName _ => true
    | _ => false)).length

/-- Whether an `ELSE` slot exists. -/
def hasElseOf (b : Block) : Bool := (getInput b .elseName).isSome

/-! ### Staged view of `onPendingConnection` (for the proofs below) -/

/-- Step 1 of `onPendingConnection`: the speculative Else append. -/
def pendStage1 (b : Block) (conn : Conn) : Block :=
  if connType b conn = ConnType.nextStatement ∧ getInput b SlotName.elseName = none then
    appendInput b SlotName.elseName InputKind.statement
  else b

/-- Steps 2-3 of `onPendingConnection`, run on the block produced by
`pendStage1`. -/
def pendRest (b1 : Block) (conn : Conn) (uid : String) : Block :=
  match findInputIndexForConnection b1 conn with
  | none => b1
  | some inputIndex =>
    match b1.inputList.get? inputIndex with
    | none => b1
    | some input =>
      if (connTargetConnection b1 conn).isSome ∧ includesIF input.name then
        match b1.inputList.get? (inputIndex + 2) with
        | none => insertElseIf b1 (inputIndex + 2) uid
        | some nextIfInput =>
          if nextIfInput.name = SlotName.elseName then
            insertElseIf b1 (inputIndex + 2) uid
          else
            match nextIfInput.target with
            | some nextIfConnection =>
              if ¬nextIfConnection.isMarker then
                insertElseIf b1 (inputIndex + 2) uid
              else b1
            | none => b1
      else b1

/-- A concrete four-slot hover scenario: `IF0` holds a real attachment, the
following Condition slot `IF1` holds an attachment whose source block is an
insertion marker iff `mk`. -/
def hoverBlock (mk : Bool) : Block :=
  { inputList := [
      { name := SlotName.ifName "0", kind := InputKind.value, cid := 0,
        target := some { tid := 10, isMarker := false } },
      { name := SlotName.doName "0", kind := InputKind.statement, cid := 1, target := none },
      { name := SlotName.ifName "1", kind := InputKind.value, cid := 2,
        target := some { tid := 11, isMarker := mk } },
      { name := SlotName.doName "1", kind := InputKind.statement, cid := 3, target := none }],
    elseifCount := 1, elseCount := 0, nextCid := 4 }


/-! ### Abstract case representation, for stating the finalize theorems -/

/-- One Condition/Branch slot pair: discriminator, the two connection
identities, and the two attachments. -/
structure CaseData where
  d : String
  ifCid : Nat
  doCid : Nat
  ifT : Option Target
  doT : Option Target
deriving DecidableEq, Repr

/-- The two inputs of a case pair. -/
def caseInputs (c : CaseData) : List Input :=
  [Input.mk (.ifName c.d) .value c.ifCid c.ifT,
   Input.mk (.doName c.d) .statement c.doCid c.doT]

/-- The Else slot data: its connection identity and attachment. -/
structure ElseData where
  cid : Nat
  t : Option Target
deriving DecidableEq, Repr

/-- The (zero or one) Else inputs. -/
def elseInputs : Option ElseData → List Input
  | none => []
  | some e => [Input.mk .elseName .statement e.cid e.t]

/-- The input list of a block made of case pairs followed by an optional
Else slot. -/
def casesToInputs (cs : List CaseData) (e : Option ElseData) : List Input :=
  (cs.map caseInputs).flatten ++ elseInputs e

/-- The attachment pairs of the populated cases, in order (mirrors what
`collectTargetCaseConns` records). -/
def populatedOf (cs : List CaseData) : List (Option Target × Option Target) :=
  (cs.filter (fun c => ¬(c.ifT = none ∧ c.doT = none))).map (fun c => (c.ifT, c.doT))

/-- All attachments occurring in a list of pairs, in order. -/
def pairTargets (C : List (Option Target × Option Target)) : List Target :=
  C.flatMap (fun p => p.1.toList ++ p.2.toList)

/-- The shape of the canonical case pairs numbered from `k`, carrying the
given attachment pairs. -/
def canonShapeFrom : Nat → List (Option Target × Option Target) →
    List (SlotName × InputKind × Option Target)
  | _, [] => []
  | k, p :: rest =>
    (.ifName (decimalStr k), .value, p.1) :: (.doName (decimalStr k), .statement, p.2) ::
      canonShapeFrom (k + 1) rest

/-- The shape of the Else slot rebuilt by finalize for a recorded else
attachment. -/
def elseTShape : Option Target → List (SlotName × InputKind × Option Target)
  | none => []
  | some t => [(.elseName, .statement, some t)]

/-- Whether `d` is the decimal of some index in `[k, k + n)`. -/
def dInRangeK (d : String) (k n : Nat) : Bool :=
  (List.range n).any (fun j => d = decimalStr (k + j))

/-- The leftover shape of the pre-rebuild first pair when its discriminator
is not among the rebuilt case numbers. -/
def remnantShape (d : String) (n : Nat) : List (SlotName × InputKind × Option Target) :=
  if dInRangeK d 0 n then []
  else [(.ifName d, .value, (none : Option Target)), (.doName d, .statement, (none : Option Target))]

/-- A well-formed block state: the input list is a nonempty sequence of
case pairs followed by an optional Else slot, with distinct discriminators,
distinct attachments (a target connection is connected to at most one
input), and distinct connection identities below the fresh-identity
supply.  Every state reachable through this mixin's operations has this,
up to uid uniqueness of `genUid`. -/
structure WfBlock (b : Block) (cs : List CaseData) (e : Option ElseData) : Prop where
  hList : b.inputList = casesToInputs cs e
  hNe : cs ≠ []
  hD : (cs.map (fun c => c.d)).Nodup
  hT : (b.inputList.filterMap (fun i => i.target)).Nodup
  hC : (b.inputList.map (fun i => i.cid)).Nodup
  hLt : ∀ i ∈ b.inputList, i.cid < b.nextCid

/-- The inputs of an optional leftover (pre-rebuild first) pair. -/
def leftoverInputs : Option CaseData → List Input
  | none => []
  | some c => caseInputs c

/-- What remains of the leftover pair after the `addCaseInputs` loop from
index `k` over `n` recorded pairs: nothing when its discriminator is one of
the rebuilt case numbers (the pair is reused), the pair itself otherwise. -/
def leftoverOut (k n : Nat) : Option CaseData → List Input
  | none => []
  | some c => if dInRangeK c.d k n then [] else caseInputs c

/-- A fully populated canonical block with `k` else-if cases (so `k + 1`
case pairs, numbered `0..k`, each with both sides attached to distinct
targets) and, when `eb`, an Else slot with an attached target. -/
def mkCanonPairs (k : Nat) : List Input :=
  (List.range (k + 1)).flatMap (fun j =>
    [Input.mk (.ifName (decimalStr j)) .value (2 * j) (some (Target.mk (2 * j) false)),
     Input.mk (.doName (decimalStr j)) .statement (2 * j + 1) (some (Target.mk (2 * j + 1) false))])

/-- See `mkCanonPairs`. -/
def mkCanon (k : Nat) (eb : Bool) : Block :=
  Block.mk
    (mkCanonPairs k
      ++ (if eb then [Input.mk .elseName .statement (2 * k + 2) (some (Target.mk 999 false))]
          else []))
    (k : Int) (if eb then 1 else 0) (2 * k + 4)

/-! ### Decimal string facts -/

/-- Digit-list value, the reading of a digit string as a number. -/
def valDs (l : List Char) : Nat := l.foldl (fun a c => 10 * a + digVal c) 0

theorem digitCh_toNat {n : Nat} (h : n < 10) : (digitCh n).toNat = 48 + n := by
  have hv : Nat.isValidChar (48 + n) := Or.inl (by omega)
  simp [digitCh, Char.ofNat, hv, Char.ofNatAux, Char.toNat, UInt32.toNat, BitVec.toNat_ofNatLt]

theorem isDigit_iff (c : Char) : c.isDigit = true ↔ (48 ≤ c.toNat ∧ c.toNat ≤ 57) := by
  simp only [Char.isDigit, Char.le_def, Char.toNat, Bool.and_eq_true, decide_eq_true_eq]
  constructor
  · rintro ⟨h1, h2⟩
    exact ⟨h1, h2⟩
  · rintro ⟨h1, h2⟩
    exact ⟨h1, h2⟩

theorem digitCh_isDigit {n : Nat} (h : n < 10) : (digitCh n).isDigit = true := by
  rw [isDigit_iff, digitCh_toNat h]
  omega

theorem digVal_digitCh {n : Nat} (h : n < 10) : digVal (digitCh n) = n := by
  simp [digVal, digitCh_toNat h]

theorem valDs_concat (l : List Char) (c : Char) :
    valDs (l ++ [c]) = 10 * valDs l + digVal c := by
  simp [valDs, List.foldl_append]

theorem decDigitsAux_fuel (n : Nat) : ∀ f g, n < f → n < g → decDigitsAux f n = decDigitsAux g n := by
  induction n using Nat.strong_induction_on with
  | _ n ih =>
    intro f g hf hg
    match f, g with
    | f' + 1, g' + 1 =>
      by_cases h10 : n < 10
      · simp [decDigitsAux, h10]
      · have hn0 : 0 < n := by omega
        have hdiv : n / 10 < n := Nat.div_lt_self hn0 (by omega)
        simp only [decDigitsAux, h10, if_false]
        rw [ih (n / 10) hdiv f' g' (by omega) (by omega)]

theorem decDigitsAux_spec (n : Nat) :
    ∀ f, n < f →
      (∀ c ∈ decDigitsAux f n, c.isDigit = true) ∧
        valDs (decDigitsAux f n) = n ∧ decDigitsAux f n ≠ [] := by
  induction n using Nat.strong_induction_on with
  | _ n ih =>
    intro f hf
    match f with
    | f' + 1 =>
      by_cases h10 : n < 10
      · refine ⟨?_, ?_, ?_⟩ <;> simp [decDigitsAux, h10, valDs, digVal_digitCh h10, digitCh_isDigit h10]
      · have hn0 : 0 < n := by omega
        have hdiv : n / 10 < n := Nat.div_lt_self hn0 (by omega)
        have hmod : n % 10 < 10 := Nat.mod_lt _ (by omega)
        obtain ⟨ihd, ihv, ihne⟩ := ih (n / 10) hdiv f' (by omega)
        simp only [decDigitsAux, h10, if_false]
        refine ⟨?_, ?_, by simp⟩
        · intro c hc
          rcases List.mem_append.mp hc with h | h
          · exact ihd c h
          · simp at h
            subst h
            exact digitCh_isDigit hmod
        · rw [valDs_concat, ihv, digVal_digitCh hmod]
          omega

theorem valDs_decimal (n : Nat) : valDs (decimalStr n).data = n :=
  (decDigitsAux_spec n (n + 1) (Nat.lt_succ_self n)).2.1

theorem decimalStr_inj {m n : Nat} (h : decimalStr m = decimalStr n) : m = n := by
  have hd : (decimalStr m).data = (decimalStr n).data := by rw [h]
  have hm := valDs_decimal m
  rw [hd, valDs_decimal n] at hm
  exact hm.symm

theorem decimalStr_digits (n : Nat) : ∀ c ∈ (decimalStr n).data, c.isDigit = true :=
  (decDigitsAux_spec n (n + 1) (Nat.lt_succ_self n)).1

theorem decimalStr_ne_nil (n : Nat) : (decimalStr n).data ≠ [] :=
  (decDigitsAux_spec n (n + 1) (Nat.lt_succ_self n)).2.2

theorem isJsSpace_eq_false_of_digit {c : Char} (hc : c.isDigit = true) : isJsSpace c = false := by
  obtain ⟨h48, _⟩ := (isDigit_iff c).mp hc
  simp only [isJsSpace, decide_eq_false_iff_not, not_or]
  refine ⟨?_, ?_, ?_, ?_⟩ <;> rintro rfl <;> exact absurd h48 (by decide)

theorem digit_ne_minus {c : Char} (hc : c.isDigit = true) : c ≠ '-' := by
  obtain ⟨h48, _⟩ := (isDigit_iff c).mp hc
  rintro rfl
  exact absurd h48 (by decide)

theorem digit_ne_plus {c : Char} (hc : c.isDigit = true) : c ≠ '+' := by
  obtain ⟨h48, _⟩ := (isDigit_iff c).mp hc
  rintro rfl
  exact absurd h48 (by decide)

theorem parseIntJS_decimalStr (n : Nat) : parseIntJS (decimalStr n) = some (n : Int) := by
  obtain ⟨c, l, hcl⟩ : ∃ c l, (decimalStr n).data = c :: l := by
    cases h : (decimalStr n).data with
    | nil => exact absurd h (decimalStr_ne_nil n)
    | cons c l => exact ⟨c, l, rfl⟩
  have hdig : ∀ x ∈ c :: l, x.isDigit = true := by
    rw [← hcl]
    exact decimalStr_digits n
  have hc : c.isDigit = true := hdig c (List.mem_cons_self c l)
  have hdrop : (decimalStr n).data.dropWhile isJsSpace = c :: l := by
    rw [hcl, List.dropWhile_cons, isJsSpace_eq_false_of_digit hc]
    simp
  have hhead : (c :: l).head? = some c := rfl
  have hnm : ¬((c :: l).head? = some '-') := by
    simp [hhead, digit_ne_minus hc]
  have hnp : ¬((c :: l).head? = some '+') := by
    simp [hhead, digit_ne_plus hc]
  have htake : (c :: l).takeWhile Char.isDigit = c :: l :=
    List.takeWhile_eq_self_iff.mpr hdig
  have hval : valDs (c :: l) = n := by
    rw [← hcl]
    exact valDs_decimal n
  simp only [parseIntJS, hdrop, hnm, hnp, if_false, or_self, ite_false, htake]
  simp only [List.isEmpty_cons, ite_false, Bool.false_eq_true]
  rw [show (c :: l).foldl (fun a ch => 10 * a + digVal ch) 0 = valDs (c :: l) from rfl, hval]
  simp

/-! ### Basic facts about the host primitives -/

theorem appendInput_inputList (b : Block) (n : SlotName) (k : InputKind) :
    (appendInput b n k).inputList
      = b.inputList ++ [{ name := n, kind := k, cid := b.nextCid, target := none }] := rfl

theorem appendInput_nextCid (b : Block) (n : SlotName) (k : InputKind) :
    (appendInput b n k).nextCid = b.nextCid + 1 := rfl

theorem appendInput_elseifCount (b : Block) (n : SlotName) (k : InputKind) :
    (appendInput b n k).elseifCount = b.elseifCount := rfl

theorem appendInput_elseCount (b : Block) (n : SlotName) (k : InputKind) :
    (appendInput b n k).elseCount = b.elseCount := rfl

theorem connectTarget_inputList (b : Block) (cid : Nat) (t : Target) :
    (connectTarget b cid t).inputList = b.inputList.map (connectFun cid t) := rfl

theorem connectTarget_nextCid (b : Block) (cid : Nat) (t : Target) :
    (connectTarget b cid t).nextCid = b.nextCid := rfl

theorem connectTarget_elseifCount (b : Block) (cid : Nat) (t : Target) :
    (connectTarget b cid t).elseifCount = b.elseifCount := rfl

theorem connectTarget_elseCount (b : Block) (cid : Nat) (t : Target) :
    (connectTarget b cid t).elseCount = b.elseCount := rfl

theorem moveInputBefore_nextCid (b : Block) (n ref : SlotName) :
    (moveInputBefore b n ref).nextCid = b.nextCid := by
  unfold moveInputBefore
  split
  · rfl
  · split
    · rfl
    · split <;> rfl

theorem moveInputBefore_elseifCount (b : Block) (n ref : SlotName) :
    (moveInputBefore b n ref).elseifCount = b.elseifCount := by
  unfold moveInputBefore
  split
  · rfl
  · split
    · rfl
    · split <;> rfl

theorem moveInputBefore_elseCount (b : Block) (n ref : SlotName) :
    (moveInputBefore b n ref).elseCount = b.elseCount := by
  unfold moveInputBefore
  split
  · rfl
  · split
    · rfl
    · split <;> rfl

theorem insertBeforeName_length (l : List Input) (ref : SlotName) (x : Input) :
    (insertBeforeName l ref x).length = l.length + 1 := by
  induction l with
  | nil => rfl
  | cons a rest ih =>
    simp only [insertBeforeName]
    split
    · simp
    · simp [ih]

theorem moveInputBefore_length (b : Block) (n ref : SlotName) :
    (moveInputBefore b n ref).inputList.length = b.inputList.length := by
  unfold moveInputBefore
  split
  · rfl
  · cases hf : b.inputList.find? (fun i => i.name = n) with
    | none => rfl
    | some inp =>
      simp only
      split
      · have hmem := List.mem_of_find?_eq_some hf
        have hp := List.find?_some hf
        have hlen := @List.length_eraseP_add_one Input (fun i => i.name = n) b.inputList inp hmem hp
        simp only [insertBeforeName_length]
        omega
      · rfl

theorem insertElseIf_elseifCount (b : Block) (idx : Nat) (u : String) :
    (insertElseIf b idx u).elseifCount = b.elseifCount := by
  simp only [insertElseIf]
  split <;> split <;>
    simp [moveInputBefore_elseifCount, appendInput_elseifCount]

theorem insertElseIf_elseCount (b : Block) (idx : Nat) (u : String) :
    (insertElseIf b idx u).elseCount = b.elseCount := by
  simp only [insertElseIf]
  split <;> split <;>
    simp [moveInputBefore_elseCount, appendInput_elseCount]

theorem insertElseIf_nextCid (b : Block) (idx : Nat) (u : String) :
    (insertElseIf b idx u).nextCid = b.nextCid + 2 := by
  simp only [insertElseIf]
  split <;> split <;>
    simp [moveInputBefore_nextCid, appendInput_nextCid]

theorem insertElseIf_length (b : Block) (idx : Nat) (u : String) :
    (insertElseIf b idx u).inputList.length = b.inputList.length + 2 := by
  simp only [insertElseIf]
  split <;> split <;>
    simp [moveInputBefore_length, appendInput_inputList]

theorem find?_split {α : Type} {p : α → Bool} :
    ∀ {l : List α} {a : α}, l.find? p = some a →
      ∃ L R, l = L ++ a :: R ∧ (∀ x ∈ L, ¬p x = true) ∧ l.eraseP p = L ++ R := by
  intro l
  induction l with
  | nil =>
    intro a h
    simp at h
  | cons x rest ih =>
    intro a h
    by_cases hp : p x = true
    · simp only [List.find?_cons, hp] at h
      obtain rfl : x = a := by injection h
      exact ⟨[], rest, by simp, by simp, by simp [List.eraseP_cons_of_pos hp]⟩
    · have hp' : p x = false := by simpa using hp
      simp only [List.find?_cons, hp'] at h
      obtain ⟨L, R, h1, h2, h3⟩ := ih h
      refine ⟨x :: L, R, by simp [h1], ?_, ?_⟩
      · intro y hy
        rcases List.mem_cons.mp hy with rfl | hy
        · exact hp
        · exact h2 y hy
      · rw [List.eraseP_cons_of_neg (by simpa using hp), h3]
        simp

theorem insertBeforeName_append_right (L R : List Input) (ref : SlotName) (x : Input)
    (h : ∀ a ∈ L, a.name ≠ ref) :
    insertBeforeName (L ++ R) ref x = L ++ insertBeforeName R ref x := by
  induction L with
  | nil => rfl
  | cons a rest ih =>
    simp only [List.cons_append, insertBeforeName]
    rw [if_neg (h a (List.mem_cons_self a rest))]
    exact congrArg (List.cons a) (ih (fun y hy => h y (List.mem_cons_of_mem a hy)))

theorem insertBeforeName_cons_pos {a : Input} {ref : SlotName} (rest : List Input) (x : Input)
    (h : a.name = ref) :
    insertBeforeName (a :: rest) ref x = x :: a :: rest := by
  simp [insertBeforeName, h]

theorem moveInputBefore_eq (b : Block) (n ref : SlotName) (hne : n ≠ ref) (inp : Input)
    (hf : b.inputList.find? (fun i => i.name = n) = some inp)
    (hr : (b.inputList.find? (fun i => i.name = ref)).isSome = true) :
    moveInputBefore b n ref =
      { b with inputList := insertBeforeName (b.inputList.eraseP (fun i => i.name = n)) ref inp } := by
  unfold moveInputBefore
  rw [if_neg hne, hf]
  simp only [hr, if_true]

theorem insertBeforeName_cons_neg {a : Input} {ref : SlotName} (rest : List Input) (x : Input)
    (h : a.name ≠ ref) :
    insertBeforeName (a :: rest) ref x = a :: insertBeforeName rest ref x := by
  simp [insertBeforeName, h]

theorem moveInputBefore_self (b : Block) (n : SlotName) : moveInputBefore b n n = b := by
  simp [moveInputBefore]

theorem insertElseIf_split (b : Block) (u : String) (L R : List Input)
    (hsplit : b.inputList = L ++ R)
    (hIF : ∀ x ∈ b.inputList, x.name ≠ SlotName.ifName u)
    (hDO : ∀ x ∈ b.inputList, x.name ≠ SlotName.doName u)
    (hfirst : ∀ r ∈ R.head?, ∀ x ∈ L, x.name ≠ r.name) :
    insertElseIf b L.length u =
      { inputList := L ++
          { name := SlotName.ifName u, kind := InputKind.value, cid := b.nextCid, target := none } ::
            { name := SlotName.doName u, kind := InputKind.statement, cid := b.nextCid + 1, target := none } :: R,
        elseifCount := b.elseifCount, elseCount := b.elseCount,
        nextCid := b.nextCid + 2 } := by
  have hb2 : appendInput (appendInput b (SlotName.ifName u) InputKind.value) (SlotName.doName u) InputKind.statement
      = { inputList := (L ++ R) ++
            [{ name := SlotName.ifName u, kind := InputKind.value, cid := b.nextCid, target := none },
             { name := SlotName.doName u, kind := InputKind.statement, cid := b.nextCid + 1, target := none }],
          elseifCount := b.elseifCount, elseCount := b.elseCount, nextCid := b.nextCid + 2 } := by
    simp [appendInput, hsplit]
  simp only [insertElseIf]
  cases R with
  | nil =>
    have g1 : (appendInput (appendInput b (SlotName.ifName u) InputKind.value) (SlotName.doName u) InputKind.statement).inputList.get? L.length
        = some { name := SlotName.ifName u, kind := InputKind.value, cid := b.nextCid, target := none } := by
      rw [hb2]
      dsimp only
      rw [List.get?_eq_getElem?, List.append_assoc, List.getElem?_append_right (Nat.le_refl _)]
      simp
    simp only [g1, moveInputBefore_self]
    have g2 : (appendInput (appendInput b (SlotName.ifName u) InputKind.value) (SlotName.doName u) InputKind.statement).inputList.get? (L.length + 1)
        = some { name := SlotName.doName u, kind := InputKind.statement, cid := b.nextCid + 1, target := none } := by
      rw [hb2]
      dsimp only
      rw [List.get?_eq_getElem?, List.append_assoc, List.getElem?_append_right (by omega)]
      simp
    simp only [g2, moveInputBefore_self]
    rw [hb2]
    simp
  | cons r R' =>
    have hrmem : r ∈ b.inputList := by
      rw [hsplit]
      exact List.mem_append_right L (List.mem_cons_self r R')
    have hrIF : r.name ≠ SlotName.ifName u := hIF r hrmem
    have hrDO : r.name ≠ SlotName.doName u := hDO r hrmem
    have hLr : ∀ x ∈ L, x.name ≠ r.name := hfirst r rfl
    have hLRIF : ∀ x ∈ L ++ r :: R', x.name ≠ SlotName.ifName u := by
      rw [← hsplit]
      exact hIF
    have hLRDO : ∀ x ∈ L ++ r :: R', x.name ≠ SlotName.doName u := by
      rw [← hsplit]
      exact hDO
    have hfr : (L ++ r :: R').find? (fun i => i.name = r.name) = some r := by
      rw [List.find?_append, List.find?_eq_none.mpr (fun x hx => by simpa using hLr x hx)]
      simp [List.find?_cons]
    have g1 : (appendInput (appendInput b (SlotName.ifName u) InputKind.value) (SlotName.doName u) InputKind.statement).inputList.get? L.length
        = some r := by
      rw [hb2]
      dsimp only
      rw [List.get?_eq_getElem?, List.append_assoc, List.getElem?_append_right (Nat.le_refl _)]
      simp
    simp only [g1]
    have herase1 : List.eraseP (fun i => i.name = SlotName.ifName u)
        ([{ name := SlotName.ifName u, kind := InputKind.value, cid := b.nextCid, target := none },
          { name := SlotName.doName u, kind := InputKind.statement, cid := b.nextCid + 1, target := none }] : List Input)
        = [{ name := SlotName.doName u, kind := InputKind.statement, cid := b.nextCid + 1, target := none }] := by
      rw [List.eraseP_cons_of_pos (by simp)]
    have hmove1 : moveInputBefore
        (appendInput (appendInput b (SlotName.ifName u) InputKind.value) (SlotName.doName u) InputKind.statement)
        (SlotName.ifName u) r.name
        = { inputList := (L ++
              { name := SlotName.ifName u, kind := InputKind.value, cid := b.nextCid, target := none } ::
                r :: R') ++
              [{ name := SlotName.doName u, kind := InputKind.statement, cid := b.nextCid + 1, target := none }],
            elseifCount := b.elseifCount, elseCount := b.elseCount, nextCid := b.nextCid + 2 } := by
      rw [hb2]
      rw [moveInputBefore_eq _ _ _ (fun h => hrIF h.symm)
        { name := SlotName.ifName u, kind := InputKind.value, cid := b.nextCid, target := none }
        ?hf ?hr]
      case hf =>
        dsimp only
        rw [List.find?_append, List.find?_eq_none.mpr (fun x hx => by simpa using hLRIF x hx)]
        simp [List.find?_cons]
      case hr =>
        dsimp only
        rw [List.find?_append, hfr]
        simp
      congr 1
      dsimp only
      rw [List.eraseP_append_right _ (fun x hx => by simpa using hLRIF x hx), herase1]
      rw [List.append_assoc, List.cons_append]
      rw [insertBeforeName_append_right _ _ _ _ hLr]
      rw [insertBeforeName_cons_pos _ _ rfl]
      simp
    simp only [hmove1]
    have g2 : (((L ++
          { name := SlotName.ifName u, kind := InputKind.value, cid := b.nextCid, target := none } ::
            r :: R') ++
          [{ name := SlotName.doName u, kind := InputKind.statement, cid := b.nextCid + 1, target := none }] : List Input)).get? (L.length + 1)
        = some r := by
      rw [List.get?_eq_getElem?, List.append_assoc, List.getElem?_append_right (by omega)]
      simp [List.cons_append, show L.length + 1 - L.length = 1 from by omega]
    simp only [g2]
    have hpre2 : ∀ x ∈ L ++
        { name := SlotName.ifName u, kind := InputKind.value, cid := b.nextCid, target := none } ::
          r :: R', x.name ≠ SlotName.doName u := by
      intro x hx
      rcases List.mem_append.mp hx with hL | hC
      · exact hLRDO x (List.mem_append_left _ hL)
      · rcases List.mem_cons.mp hC with rfl | hC'
        · simp
        · exact hLRDO x (List.mem_append_right _ hC')
    have hfr2 : (L ++
        { name := SlotName.ifName u, kind := InputKind.value, cid := b.nextCid, target := none } ::
          r :: R').find? (fun i => i.name = r.name) = some r := by
      rw [List.find?_append, List.find?_eq_none.mpr (fun x hx => by simpa using hLr x hx)]
      rw [List.find?_cons_of_neg _ (by simpa using fun h => hrIF h.symm)]
      simp [List.find?_cons]
    have hmove2 : moveInputBefore
        ({ inputList := (L ++
              { name := SlotName.ifName u, kind := InputKind.value, cid := b.nextCid, target := none } ::
                r :: R') ++
              [{ name := SlotName.doName u, kind := InputKind.statement, cid := b.nextCid + 1, target := none }],
            elseifCount := b.elseifCount, elseCount := b.elseCount, nextCid := b.nextCid + 2 } : Block)
        (SlotName.doName u) r.name
        = { inputList := L ++
              { name := SlotName.ifName u, kind := InputKind.value, cid := b.nextCid, target := none } ::
                { name := SlotName.doName u, kind := InputKind.statement, cid := b.nextCid + 1, target := none } ::
                r :: R',
            elseifCount := b.elseifCount, elseCount := b.elseCount, nextCid := b.nextCid + 2 } := by
      rw [moveInputBefore_eq _ _ _ (fun h => hrDO h.symm)
        { name := SlotName.doName u, kind := InputKind.statement, cid := b.nextCid + 1, target := none }
        ?hf ?hr]
      case hf =>
        dsimp only
        rw [List.find?_append, List.find?_eq_none.mpr (fun x hx => by simpa using hpre2 x hx)]
        simp [List.find?_cons]
      case hr =>
        dsimp only
        rw [List.find?_append, hfr2]
        simp
      congr 1
      dsimp only
      rw [List.eraseP_append_right _ (fun x hx => by simpa using hpre2 x hx)]
      rw [show List.eraseP (fun i => i.name = SlotName.doName u)
            ([{ name := SlotName.doName u, kind := InputKind.statement, cid := b.nextCid + 1, target := none }] : List Input)
          = [] from List.eraseP_cons_of_pos (by simp)]
      rw [List.append_nil]
      rw [insertBeforeName_append_right _ _ _ _ hLr]
      rw [insertBeforeName_cons_neg _ _ (fun h => hrIF h.symm)]
      rw [insertBeforeName_cons_pos _ _ rfl]
    simp only [hmove2]

theorem find?_of_findIdx? {α : Type} {p : α → Bool} {l : List α} :
    ∀ {i : Nat} {a : α}, l.findIdx? p = some i → l.get? i = some a →
      l.find? p = some a ∧ p a = true := by
  induction l with
  | nil =>
    intro i a h1 _
    simp at h1
  | cons x rest ih =>
    intro i a h1 h2
    rw [List.findIdx?_cons] at h1
    by_cases hp : p x = true
    · rw [if_pos hp] at h1
      injection h1 with h1
      subst h1
      simp only [List.get?] at h2
      injection h2 with h2
      subst h2
      exact ⟨List.find?_cons_of_pos _ hp, hp⟩
    · rw [if_neg hp, List.findIdx?_succ] at h1
      obtain ⟨j, hj, rfl⟩ : ∃ j, rest.findIdx? p = some j ∧ j + 1 = i := by
        cases hf : rest.findIdx? p with
        | none =>
          rw [hf] at h1
          simp at h1
        | some j =>
          rw [hf] at h1
          simp at h1
          exact ⟨j, rfl, h1⟩
      simp only [List.get?] at h2
      obtain ⟨hfind, hpa⟩ := ih hj h2
      refine ⟨?_, hpa⟩
      rw [List.find?_cons_of_neg _ hp]
      exact hfind

/-- C1, counterexample: hovering the attached `IF0` while the following
Condition slot `IF1` is attached to an insertion-preview block does *not*
insert a new case pair (the call is a no-op), and hovering while `IF1` is
attached to a real block *does* insert one — the opposite of the claim on
both halves. -/
theorem c1_counterexample :
    onPendingConnection (hoverBlock true) (Conn.inputConn 0) "u" = hoverBlock true ∧
      (onPendingConnection (hoverBlock false) (Conn.inputConn 0) "u").inputList.length
        = (hoverBlock false).inputList.length + 2 := by
  constructor
  · decide
  · decide

/-- C1, amended: in the pending-connection heuristic, when the hovered
Condition slot already has an attachment and the slot two ahead exists and
is not the Else slot and is attached: if that attachment's source is a
*real* block, `onPendingConnection` inserts a new case pair (two new
slots); if it is an insertion-preview block, the call makes no change. -/
theorem c1_amended_insertion_rule (b : Block) (cid : Nat) (u : String) (i : Nat)
    (hov nxt : Input) (d : String) (t : Target)
    (hfind : findInputIndexForConnection b (Conn.inputConn cid) = some i)
    (hin : b.inputList.get? i = some hov)
    (hkind : hov.kind = InputKind.value)
    (hname : hov.name = SlotName.ifName d)
    (htv : hov.target.isSome = true)
    (hnext : b.inputList.get? (i + 2) = some nxt)
    (hne : nxt.name ≠ SlotName.elseName)
    (hnt : nxt.target = some t) :
    (t.isMarker = true → onPendingConnection b (Conn.inputConn cid) u = b) ∧
      (t.isMarker = false →
        (onPendingConnection b (Conn.inputConn cid) u).inputList.length
          = b.inputList.length + 2) := by
  have hfd : b.inputList.find? (fun x => x.cid = cid) = some hov ∧ (hov.cid = cid) := by
    have h := find?_of_findIdx? (by simpa [findInputIndexForConnection] using hfind) hin
    exact ⟨h.1, by simpa using h.2⟩
  have hct : connType b (Conn.inputConn cid) = ConnType.inputValue := by
    simp [connType, hfd.1, hkind]
  have hcond : ¬(connType b (Conn.inputConn cid) = ConnType.nextStatement ∧
      getInput b SlotName.elseName = none) := by
    rw [hct]
    rintro ⟨h, -⟩
    exact ConnType.noConfusion h
  have htc : connTargetConnection b (Conn.inputConn cid) = hov.target := by
    simp [connTargetConnection, hfd.1]
  have hguard : ((connTargetConnection b (Conn.inputConn cid)).isSome ∧
      includesIF hov.name = true) := by
    rw [htc, hname]
    exact ⟨htv, rfl⟩
  simp only [onPendingConnection, if_neg hcond]
  rw [hfind]
  simp only [hin]
  rw [if_pos hguard]
  simp only [hnext]
  rw [if_neg hne]
  simp only [hnt]
  constructor
  · intro hm
    simp [hm]
  · intro hm
    simp [hm, insertElseIf_length]

/-- C1, witness: the amended rule applied to the concrete hover scenario
with a real attachment two slots ahead. -/
theorem c1_amended_witness :
    (onPendingConnection (hoverBlock false) (Conn.inputConn 0) "u").inputList.length
      = (hoverBlock false).inputList.length + 2 :=
  (c1_amended_insertion_rule (hoverBlock false) 0 "u" 0
      { name := SlotName.ifName "0", kind := InputKind.value, cid := 0,
        target := some { tid := 10, isMarker := false } }
      { name := SlotName.ifName "1", kind := InputKind.value, cid := 2,
        target := some { tid := 11, isMarker := false } }
      "0" { tid := 11, isMarker := false }
      (by decide) (by decide) (by decide) (by decide) (by decide) (by decide)
      (by decide) (by decide)).2 rfl

/-- C6, counterexample: a negative persisted count is *not* coerced to 0:
`elseif="-2"` stores `elseifCount = -2`. -/
theorem c6_counterexample :
    (deserializeCounts initBlock
        { inputs := none, elseif := some "-2", elseAttr := none }).elseifCount = -2 ∧
      ((-2 : Int) ≠ 0) := by
  constructor
  · decide
  · decide

/-- C6, amended: a *non-numeric* `elseif` or `else` attribute parses to
`NaN` and is coerced to 0 by `|| 0`, so `deserializeCounts` stores both
counts as 0 and appends no inputs; negative numeric values, by contrast,
are stored as parsed. -/
theorem c6_amended_nonnumeric_coerced (b : Block) (xml : MutationDom)
    (h1 : parseIntJS (xml.elseif.getD "0") = none)
    (h2 : parseIntJS (xml.elseAttr.getD "0") = none) :
    deserializeCounts b xml = { b with elseifCount := 0, elseCount := 0 } := by
  simp [deserializeCounts, h1, h2]

/-- C6, witness: decoding `elseif="abc" else="zz"` leaves both counts 0 and
the input list untouched. -/
theorem c6_amended_witness :
    parseIntJS ((some "abc").getD "0") = none ∧
      parseIntJS ((some "zz").getD "0") = none ∧
      deserializeCounts initBlock { inputs := none, elseif := some "abc", elseAttr := some "zz" }
        = { initBlock with elseifCount := 0, elseCount := 0 } :=
  ⟨by decide, by decide,
    c6_amended_nonnumeric_coerced initBlock
      { inputs := none, elseif := some "abc", elseAttr := some "zz" } (by decide) (by decide)⟩

/-- C7, counterexample: hovering the block's own next-statement connection
(which matches no slot: `findInputIndexForConnection` returns `none`) is
*not* a no-op on a fresh block — an `ELSE` slot is appended before the
early return. -/
theorem c7_counterexample :
    findInputIndexForConnection initBlock Conn.next = none ∧
      onPendingConnection initBlock Conn.next "u" ≠ initBlock := by
  constructor
  · decide
  · decide

/-- C7, amended: when `findInputIndexForConnection` (run after the
speculative Else append) finds no matching slot, `onPendingConnection`
returns without inserting any case pair; the only possible mutation is the
Else append of step 1, performed when the hovered connection is
statement-type and no Else slot exists yet. -/
theorem c7_amended_not_found_no_insert (b : Block) (conn : Conn) (u : String)
    (h : findInputIndexForConnection
        (if connType b conn = ConnType.nextStatement ∧ getInput b SlotName.elseName = none
         then appendInput b SlotName.elseName InputKind.statement else b) conn = none) :
    onPendingConnection b conn u =
      (if connType b conn = ConnType.nextStatement ∧ getInput b SlotName.elseName = none
       then appendInput b SlotName.elseName InputKind.statement else b) := by
  simp only [onPendingConnection, h]

/-- C7, witness: the amended statement applied to the block's own
next-statement connection on a fresh block. -/
theorem c7_amended_witness :
    findInputIndexForConnection
        (if connType initBlock Conn.next = ConnType.nextStatement ∧
            getInput initBlock SlotName.elseName = none
         then appendInput initBlock SlotName.elseName InputKind.statement else initBlock)
        Conn.next = none ∧
      onPendingConnection initBlock Conn.next "u" =
        (if connType initBlock Conn.next = ConnType.nextStatement ∧
            getInput initBlock SlotName.elseName = none
         then appendInput initBlock SlotName.elseName InputKind.statement else initBlock) :=
  ⟨by decide, c7_amended_not_found_no_insert initBlock Conn.next "u" (by decide)⟩

theorem connectTarget_names (b : Block) (cid : Nat) (t : Target) :
    (connectTarget b cid t).inputList.map (fun i => i.name)
      = b.inputList.map (fun i => i.name) := by
  simp only [connectTarget, List.map_map]
  apply List.map_congr_left
  intro x _
  simp only [Function.comp, connectFun]
  split
  · rfl
  · split <;> rfl

theorem getInput_isSome_iff (b : Block) (n : SlotName) :
    (getInput b n).isSome = true ↔ ∃ x ∈ b.inputList, x.name = n := by
  simp [getInput, List.find?_isSome]

theorem mem_names_of_connectTarget (b : Block) (cid : Nat) (t : Target) (n : SlotName)
    (h : ∃ x ∈ b.inputList, x.name = n) :
    ∃ x ∈ (connectTarget b cid t).inputList, x.name = n := by
  obtain ⟨x, hx, hn⟩ := h
  have hmem : x.name ∈ (connectTarget b cid t).inputList.map (fun i => i.name) := by
    rw [connectTarget_names]
    exact List.mem_map_of_mem _ hx
  obtain ⟨y, hy, hyn⟩ := List.mem_map.mp hmem
  exact ⟨y, hy, by rw [hyn, hn]⟩

theorem hasElse_finalize_of_elseCount (b : Block)
    (h : (finalizeConnections b).elseCount ≠ 0) :
    hasElseOf (finalizeConnections b) = true := by
  cases hE : (getInput b SlotName.elseName).bind (fun i => i.target) with
  | none =>
    exfalso
    apply h
    simp [finalizeConnections, hE]
  | some t =>
    have hmem : ∃ x ∈ (addElseInput (addCaseInputs (deleteDynamicInputs b)
        (collectTargetCaseConns b)) t).inputList, x.name = SlotName.elseName := by
      simp only [addElseInput]
      apply mem_names_of_connectTarget
      refine ⟨{ name := SlotName.elseName, kind := InputKind.statement,
                cid := (addCaseInputs (deleteDynamicInputs b) (collectTargetCaseConns b)).nextCid,
                target := none }, ?_, rfl⟩
      simp [appendInput]
    simp only [finalizeConnections, hE, hasElseOf]
    rw [getInput_isSome_iff]
    exact hmem

/-- C8: `mutationToDom` first runs the finalize rebuild and returns the
finalized block; it returns no element exactly when the finalized counts
are both zero (the default one-case, no-else shape); otherwise it emits
only the canonical attributes — `elseif` omitted when its count is 0, and
`else` emitted as `"1"` precisely when the finalized else count is nonzero,
in which case an Else slot does exist on the finalized block. -/
theorem c8_export_contract (b : Block) :
    (mutationToDom b).1 = finalizeConnections b ∧
      ((mutationToDom b).2 = none ↔
        (finalizeConnections b).elseifCount = 0 ∧ (finalizeConnections b).elseCount = 0) ∧
      (∀ m, (mutationToDom b).2 = some m →
        m.inputs = none ∧
          m.elseif = (if (finalizeConnections b).elseifCount ≠ 0
            then some (intStr (finalizeConnections b).elseifCount) else none) ∧
          m.elseAttr = (if (finalizeConnections b).elseCount ≠ 0 then some "1" else none) ∧
          (m.elseAttr = some "1" → hasElseOf (finalizeConnections b) = true)) := by
  by_cases hc : (finalizeConnections b).elseifCount = 0 ∧ (finalizeConnections b).elseCount = 0
  · refine ⟨?_, ?_, ?_⟩
    · simp [mutationToDom, hc]
    · simp [mutationToDom, hc]
    · intro m hm
      simp [mutationToDom, hc] at hm
  · refine ⟨?_, ?_, ?_⟩
    · simp [mutationToDom, hc]
    · simp [mutationToDom, hc]
    · intro m hm
      simp only [mutationToDom, if_neg hc] at hm
      injection hm with hm
      subst hm
      refine ⟨rfl, rfl, rfl, ?_⟩
      intro h1
      dsimp only at h1
      by_cases hz : (finalizeConnections b).elseCount = 0
      · rw [if_neg (by simpa using hz)] at h1
        exact absurd h1 (by simp)
      · exact hasElse_finalize_of_elseCount b hz

theorem findIdx?_spec {α : Type} {p : α → Bool} {l : List α} :
    ∀ {i : Nat}, l.findIdx? p = some i →
      ∃ a, l.get? i = some a ∧ p a = true ∧
        ∀ j, j < i → ∀ x, l.get? j = some x → ¬p x = true := by
  induction l with
  | nil =>
    intro i h
    simp at h
  | cons x rest ih =>
    intro i h
    rw [List.findIdx?_cons] at h
    by_cases hp : p x = true
    · rw [if_pos hp] at h
      injection h with h
      subst h
      exact ⟨x, rfl, hp, fun j hj => absurd hj (Nat.not_lt_zero j)⟩
    · rw [if_neg hp, List.findIdx?_succ] at h
      obtain ⟨j0, hj0, rfl⟩ : ∃ j0, rest.findIdx? p = some j0 ∧ j0 + 1 = i := by
        cases hf : rest.findIdx? p with
        | none =>
          rw [hf] at h
          simp at h
        | some j0 =>
          rw [hf] at h
          simp at h
          exact ⟨j0, rfl, h⟩
      obtain ⟨a, ha, hpa, hbef⟩ := ih hj0
      refine ⟨a, ha, hpa, ?_⟩
      intro j hj y hy
      cases j with
      | zero =>
        simp only [List.get?] at hy
        injection hy with hy
        subst hy
        exact hp
      | succ k =>
        simp only [List.get?] at hy
        exact hbef k (by omega) y hy

theorem findIdx?_of_spec {α : Type} {p : α → Bool} {l : List α} :
    ∀ {i : Nat} {a : α}, l.get? i = some a → p a = true →
      (∀ j, j < i → ∀ x, l.get? j = some x → ¬p x = true) →
      l.findIdx? p = some i := by
  induction l with
  | nil =>
    intro i a h
    simp [List.get?] at h
  | cons x rest ih =>
    intro i a hget hpa hbef
    rw [List.findIdx?_cons]
    cases i with
    | zero =>
      simp only [List.get?] at hget
      injection hget with hget
      subst hget
      rw [if_pos hpa]
    | succ j =>
      have hx : ¬p x = true := hbef 0 (Nat.succ_pos j) x rfl
      rw [if_neg hx, List.findIdx?_succ]
      simp only [List.get?] at hget
      rw [ih hget hpa (fun k hk y hy => hbef (k + 1) (by omega) y (by simpa [List.get?] using hy))]
      rfl

theorem nodup_map_get?_ne {α β : Type} {f : α → β} {l : List α} (h : (l.map f).Nodup)
    {i j : Nat} {x y : α} (hij : i ≠ j) (hx : l.get? i = some x) (hy : l.get? j = some y) :
    f x ≠ f y := by
  have hx' : (l.map f).get? i = some (f x) := by
    rw [List.get?_eq_getElem?] at hx ⊢
    simpa [List.getElem?_map] using congrArg (Option.map f) hx
  have hy' : (l.map f).get? j = some (f y) := by
    rw [List.get?_eq_getElem?] at hy ⊢
    simpa [List.getElem?_map] using congrArg (Option.map f) hy
  intro hEq
  apply hij
  have : (l.map f).get? i = (l.map f).get? j := by rw [hx', hy', hEq]
  exact List.get?_inj (by
    rw [List.get?_eq_getElem?, List.getElem?_map] at hx'
    have := List.getElem?_eq_some_iff.mp (by
      rw [List.get?_eq_getElem?] at hx
      exact hx)
    simpa [List.length_map] using this.1) h this

theorem insertElseIf_atEnd (b : Block) (u : String) (idx : Nat)
    (hIF : ∀ x ∈ b.inputList, x.name ≠ SlotName.ifName u)
    (hDO : ∀ x ∈ b.inputList, x.name ≠ SlotName.doName u)
    (hidx : b.inputList.length ≤ idx) :
    insertElseIf b idx u =
      Block.mk
        (b.inputList ++
          [Input.mk (SlotName.ifName u) InputKind.value b.nextCid none,
           Input.mk (SlotName.doName u) InputKind.statement (b.nextCid + 1) none])
        b.elseifCount b.elseCount (b.nextCid + 2) := by
  have hb2 : appendInput (appendInput b (SlotName.ifName u) InputKind.value) (SlotName.doName u) InputKind.statement
      = Block.mk
          (b.inputList ++
            [Input.mk (SlotName.ifName u) InputKind.value b.nextCid none,
             Input.mk (SlotName.doName u) InputKind.statement (b.nextCid + 1) none])
          b.elseifCount b.elseCount (b.nextCid + 2) := by
    simp [appendInput]
  rcases Nat.lt_or_ge idx (b.inputList.length + 2) with hlt | hge
  · rcases Nat.lt_or_ge idx (b.inputList.length + 1) with hlt1 | hge1
    · have hidx' : idx = b.inputList.length := by omega
      subst hidx'
      have h := insertElseIf_split b u b.inputList [] (by simp) hIF hDO (by simp)
      rw [h]
    · have hidx' : idx = b.inputList.length + 1 := by omega
      subst hidx'
      simp only [insertElseIf, hb2]
      have g1 : ((b.inputList ++
          [Input.mk (SlotName.ifName u) InputKind.value b.nextCid none,
           Input.mk (SlotName.doName u) InputKind.statement (b.nextCid + 1) none])).get? (b.inputList.length + 1)
          = some (Input.mk (SlotName.doName u) InputKind.statement (b.nextCid + 1) none) := by
        rw [List.get?_eq_getElem?, List.getElem?_append_right (by omega)]
        simp [show b.inputList.length + 1 - b.inputList.length = 1 from by omega]
      simp only [g1]
      have hmv : moveInputBefore
          (Block.mk
            (b.inputList ++
              [Input.mk (SlotName.ifName u) InputKind.value b.nextCid none,
               Input.mk (SlotName.doName u) InputKind.statement (b.nextCid + 1) none])
            b.elseifCount b.elseCount (b.nextCid + 2))
          (SlotName.ifName u) (SlotName.doName u)
          = Block.mk
              (b.inputList ++
                [Input.mk (SlotName.ifName u) InputKind.value b.nextCid none,
                 Input.mk (SlotName.doName u) InputKind.statement (b.nextCid + 1) none])
              b.elseifCount b.elseCount (b.nextCid + 2) := by
        rw [moveInputBefore_eq _ _ _ (by simp)
          (Input.mk (SlotName.ifName u) InputKind.value b.nextCid none) ?hf ?hr]
        case hf =>
          dsimp only
          rw [List.find?_append, List.find?_eq_none.mpr (fun x hx => by simpa using hIF x hx)]
          simp [List.find?_cons]
        case hr =>
          dsimp only
          rw [List.find?_append, List.find?_eq_none.mpr (fun x hx => by simpa using hDO x hx)]
          simp [List.find?_cons]
        congr 1
        dsimp only
        rw [List.eraseP_append_right _ (fun x hx => by simpa using hIF x hx)]
        rw [show List.eraseP (fun i => i.name = SlotName.ifName u)
              [Input.mk (SlotName.ifName u) InputKind.value b.nextCid none,
               Input.mk (SlotName.doName u) InputKind.statement (b.nextCid + 1) none]
            = [Input.mk (SlotName.doName u) InputKind.statement (b.nextCid + 1) none] from by
          rw [List.eraseP_cons_of_pos (by simp)]]
        rw [insertBeforeName_append_right _ _ _ _ (fun x hx => hDO x hx)]
        rw [insertBeforeName_cons_pos _ _ rfl]
      simp only [hmv]
      have g2 : ((b.inputList ++
          [Input.mk (SlotName.ifName u) InputKind.value b.nextCid none,
           Input.mk (SlotName.doName u) InputKind.statement (b.nextCid + 1) none])).get? (b.inputList.length + 1 + 1)
          = none := by
        rw [List.get?_eq_getElem?]
        apply List.getElem?_eq_none
        simp
      simp only [g2]
  · simp only [insertElseIf, hb2]
    have g1 : ((b.inputList ++
        [Input.mk (SlotName.ifName u) InputKind.value b.nextCid none,
         Input.mk (SlotName.doName u) InputKind.statement (b.nextCid + 1) none])).get? idx = none := by
      rw [List.get?_eq_getElem?]
      apply List.getElem?_eq_none
      simp
      omega
    have g2 : ((b.inputList ++
        [Input.mk (SlotName.ifName u) InputKind.value b.nextCid none,
         Input.mk (SlotName.doName u) InputKind.statement (b.nextCid + 1) none])).get? (idx + 1) = none := by
      rw [List.get?_eq_getElem?]
      apply List.getElem?_eq_none
      simp
      omega
    simp only [g1, g2]

theorem onPendingConnection_stages (b : Block) (conn : Conn) (u : String) :
    onPendingConnection b conn u = pendRest (pendStage1 b conn) conn u := rfl

theorem pendRest_not_found {b1 : Block} {conn : Conn} (u : String)
    (h : findInputIndexForConnection b1 conn = none) :
    pendRest b1 conn u = b1 := by
  simp only [pendRest, h]

theorem pendRest_guard_false {b1 : Block} {conn : Conn} (u : String) {i : Nat} {hov : Input}
    (h1 : findInputIndexForConnection b1 conn = some i)
    (h2 : b1.inputList.get? i = some hov)
    (h3 : ¬((connTargetConnection b1 conn).isSome = true ∧ includesIF hov.name = true)) :
    pendRest b1 conn u = b1 := by
  simp only [pendRest, h1, h2]
  rw [if_neg h3]

theorem pendRest_nxt_unattached {b1 : Block} {conn : Conn} (u : String) {i : Nat} {hov nxt : Input}
    (h1 : findInputIndexForConnection b1 conn = some i)
    (h2 : b1.inputList.get? i = some hov)
    (h3 : (connTargetConnection b1 conn).isSome = true ∧ includesIF hov.name = true)
    (h4 : b1.inputList.get? (i + 2) = some nxt)
    (h5 : nxt.name ≠ SlotName.elseName)
    (h6 : nxt.target = none) :
    pendRest b1 conn u = b1 := by
  simp only [pendRest, h1, h2]
  rw [if_pos h3]
  simp only [h4]
  rw [if_neg h5]
  simp only [h6]

theorem pendRest_nxt_marker {b1 : Block} {conn : Conn} (u : String) {i : Nat} {hov nxt : Input} {t : Target}
    (h1 : findInputIndexForConnection b1 conn = some i)
    (h2 : b1.inputList.get? i = some hov)
    (h3 : (connTargetConnection b1 conn).isSome = true ∧ includesIF hov.name = true)
    (h4 : b1.inputList.get? (i + 2) = some nxt)
    (h5 : nxt.name ≠ SlotName.elseName)
    (h6 : nxt.target = some t)
    (h7 : t.isMarker = true) :
    pendRest b1 conn u = b1 := by
  simp only [pendRest, h1, h2]
  rw [if_pos h3]
  simp only [h4]
  rw [if_neg h5]
  simp only [h6]
  rw [if_neg (by simp [h7])]

theorem pendRest_insert_missing {b1 : Block} {conn : Conn} (u : String) {i : Nat} {hov : Input}
    (h1 : findInputIndexForConnection b1 conn = some i)
    (h2 : b1.inputList.get? i = some hov)
    (h3 : (connTargetConnection b1 conn).isSome = true ∧ includesIF hov.name = true)
    (h4 : b1.inputList.get? (i + 2) = none) :
    pendRest b1 conn u = insertElseIf b1 (i + 2) u := by
  simp only [pendRest, h1, h2]
  rw [if_pos h3]
  simp only [h4]

theorem pendRest_insert_else {b1 : Block} {conn : Conn} (u : String) {i : Nat} {hov nxt : Input}
    (h1 : findInputIndexForConnection b1 conn = some i)
    (h2 : b1.inputList.get? i = some hov)
    (h3 : (connTargetConnection b1 conn).isSome = true ∧ includesIF hov.name = true)
    (h4 : b1.inputList.get? (i + 2) = some nxt)
    (h5 : nxt.name = SlotName.elseName) :
    pendRest b1 conn u = insertElseIf b1 (i + 2) u := by
  simp only [pendRest, h1, h2]
  rw [if_pos h3]
  simp only [h4]
  rw [if_pos h5]

theorem pendRest_insert_real {b1 : Block} {conn : Conn} (u : String) {i : Nat} {hov nxt : Input} {t : Target}
    (h1 : findInputIndexForConnection b1 conn = some i)
    (h2 : b1.inputList.get? i = some hov)
    (h3 : (connTargetConnection b1 conn).isSome = true ∧ includesIF hov.name = true)
    (h4 : b1.inputList.get? (i + 2) = some nxt)
    (h5 : nxt.name ≠ SlotName.elseName)
    (h6 : nxt.target = some t)
    (h7 : t.isMarker = false) :
    pendRest b1 conn u = insertElseIf b1 (i + 2) u := by
  simp only [pendRest, h1, h2]
  rw [if_pos h3]
  simp only [h4]
  rw [if_neg h5]
  simp only [h6]
  rw [if_pos (by simp [h7])]

theorem getInput_eq_none_iff (b : Block) (n : SlotName) :
    getInput b n = none ↔ ∀ x ∈ b.inputList, x.name ≠ n := by
  simp [getInput, List.find?_eq_none]

theorem getInput_ne_none_of_mem {b : Block} {n : SlotName} (h : ∃ x ∈ b.inputList, x.name = n) :
    ¬getInput b n = none := by
  rw [getInput_eq_none_iff]
  intro hall
  obtain ⟨x, hx, hn⟩ := h
  exact hall x hx hn

theorem find?_eq_of_get? {α : Type} {p : α → Bool} {l : List α} {i : Nat} {a : α}
    (hget : l.get? i = some a) (hpa : p a = true)
    (hbef : ∀ j, j < i → ∀ x, l.get? j = some x → ¬p x = true) :
    l.find? p = some a :=
  (find?_of_findIdx? (findIdx?_of_spec hget hpa hbef) hget).1

/-- C5: invoking `onPendingConnection` twice in a row with the same
connection and no intervening state change leaves the same number of slots
as invoking it once; repeated hovers never accumulate extra case pairs or
Else slots.  Stated for block states with distinct slot names, distinct
connection identities below the fresh-identity supply (as every reachable
block state has), and a freshly generated uid for the first call. -/
theorem c5_hover_idempotent (b : Block) (conn : Conn) (u1 u2 : String)
    (hnames : (b.inputList.map (fun i => i.name)).Nodup)
    (hcids : (b.inputList.map (fun i => i.cid)).Nodup)
    (hlt : ∀ x ∈ b.inputList, x.cid < b.nextCid)
    (hu1 : ∀ x ∈ b.inputList, x.name ≠ SlotName.ifName u1 ∧ x.name ≠ SlotName.doName u1) :
    (onPendingConnection (onPendingConnection b conn u1) conn u2).inputList.length
      = (onPendingConnection b conn u1).inputList.length := by
  cases conn with
  | prev =>
    have h1 : ∀ u, onPendingConnection b Conn.prev u = b := by
      intro u
      rw [onPendingConnection_stages]
      have hS : pendStage1 b Conn.prev = b := by
        simp [pendStage1, connType]
      rw [hS, pendRest_not_found u (show findInputIndexForConnection b Conn.prev = none from rfl)]
    rw [h1, h1]
  | next =>
    have hr : ∀ (c : Block) u, onPendingConnection c Conn.next u = pendStage1 c Conn.next := by
      intro c u
      rw [onPendingConnection_stages,
        pendRest_not_found u (show findInputIndexForConnection (pendStage1 c Conn.next) Conn.next = none from rfl)]
    have hs : ∀ (c : Block), pendStage1 c Conn.next =
        if getInput c SlotName.elseName = none
        then appendInput c SlotName.elseName InputKind.statement else c := by
      intro c
      simp [pendStage1, connType]
    simp only [hr, hs]
    by_cases h : getInput b SlotName.elseName = none
    · rw [if_pos h, if_neg ?_]
      apply getInput_ne_none_of_mem
      refine ⟨Input.mk SlotName.elseName InputKind.statement b.nextCid none, ?_, rfl⟩
      simp [appendInput]
    · rw [if_neg h, if_neg h]
  | inputConn cid =>
    cases hF : b.inputList.find? (fun i => i.cid = cid) with
    | none =>
      have hT : connType b (Conn.inputConn cid) = ConnType.inputValue := by
        simp [connType, hF]
      have hS : pendStage1 b (Conn.inputConn cid) = b := by
        simp [pendStage1, hT]
      have hIdx : findInputIndexForConnection b (Conn.inputConn cid) = none := by
        simp only [findInputIndexForConnection]
        rw [List.findIdx?_eq_none_iff]
        intro x hx
        simpa using List.find?_eq_none.mp hF x hx
      have h1 : ∀ u, onPendingConnection b (Conn.inputConn cid) u = b := by
        intro u
        rw [onPendingConnection_stages, hS, pendRest_not_found u hIdx]
      rw [h1, h1]
    | some hov =>
      have hovmem : hov ∈ b.inputList := List.mem_of_find?_eq_some hF
      have hovcid : hov.cid = cid := by simpa using List.find?_some hF
      have hcidlt2 : cid < b.nextCid := hovcid ▸ hlt hov hovmem
      set bE := pendStage1 b (Conn.inputConn cid) with hbEdef
      obtain ⟨X, hXlist, hXnc, hXcase, hXelse⟩ :
          ∃ X, bE.inputList = b.inputList ++ X ∧
            bE.nextCid = b.nextCid + X.length ∧
            (X = [] ∨ (X = [Input.mk SlotName.elseName InputKind.statement b.nextCid none] ∧
              getInput b SlotName.elseName = none)) ∧
            (connType b (Conn.inputConn cid) = ConnType.nextStatement →
              ∃ y ∈ bE.inputList, y.name = SlotName.elseName) := by
        by_cases hc : connType b (Conn.inputConn cid) = ConnType.nextStatement ∧
            getInput b SlotName.elseName = none
        · refine ⟨[Input.mk SlotName.elseName InputKind.statement b.nextCid none],
            ?_, ?_, Or.inr ⟨rfl, hc.2⟩, ?_⟩
          · simp [hbEdef, pendStage1, if_pos hc, appendInput]
          · simp [hbEdef, pendStage1, if_pos hc, appendInput]
          · intro _
            refine ⟨Input.mk SlotName.elseName InputKind.statement b.nextCid none, ?_, rfl⟩
            simp [hbEdef, pendStage1, if_pos hc, appendInput]
        · refine ⟨[], ?_, ?_, Or.inl rfl, ?_⟩
          · simp [hbEdef, pendStage1, if_neg hc]
          · simp [hbEdef, pendStage1, if_neg hc]
          · intro ht
            have hne : ¬getInput b SlotName.elseName = none := fun hno => hc ⟨ht, hno⟩
            obtain ⟨y, hy⟩ := Option.ne_none_iff_exists'.mp hne
            refine ⟨y, ?_, ?_⟩
            · have hmem := List.mem_of_find?_eq_some hy
              simp [hbEdef, pendStage1, if_neg hc]
              exact hmem
            · simpa using List.find?_some hy
      have hbEb : ∀ x ∈ b.inputList, x ∈ bE.inputList := by
        intro x hx
        rw [hXlist]
        exact List.mem_append_left _ hx
      have hXprops : ∀ x ∈ X, x.name = SlotName.elseName ∧ x.cid = b.nextCid := by
        rcases hXcase with rfl | ⟨rfl, -⟩
        · intro x hx
          simp at hx
        · intro x hx
          simp at hx
          subst hx
          exact ⟨rfl, rfl⟩
      have hbENames : (bE.inputList.map (fun i => i.name)).Nodup := by
        rw [hXlist]
        rcases hXcase with rfl | ⟨rfl, hnone⟩
        · simpa using hnames
        · rw [List.map_append, List.nodup_append]
          refine ⟨hnames, by simp, ?_⟩
          intro n hn hn2
          simp at hn2
          obtain ⟨x, hx, hxn⟩ := List.mem_map.mp hn
          rw [getInput_eq_none_iff] at hnone
          exact hnone x hx (by rw [hxn, hn2])
      have hbECids : (bE.inputList.map (fun i => i.cid)).Nodup := by
        rw [hXlist]
        rcases hXcase with rfl | ⟨rfl, hnone⟩
        · simpa using hcids
        · rw [List.map_append, List.nodup_append]
          refine ⟨hcids, by simp, ?_⟩
          intro n hn hn2
          simp at hn2
          obtain ⟨x, hx, hxn⟩ := List.mem_map.mp hn
          have := hlt x hx
          omega
      have hbELt : ∀ x ∈ bE.inputList, x.cid < bE.nextCid := by
        intro x hx
        rw [hXlist] at hx
        rw [hXnc]
        rcases List.mem_append.mp hx with hx | hx
        · have := hlt x hx
          omega
        · have := (hXprops x hx).2
          rcases hXcase with rfl | ⟨rfl, -⟩
          · simp at hx
          · simp
            omega
      have hbEfresh : ∀ x ∈ bE.inputList,
          x.name ≠ SlotName.ifName u1 ∧ x.name ≠ SlotName.doName u1 := by
        intro x hx
        rw [hXlist] at hx
        rcases List.mem_append.mp hx with hx | hx
        · exact hu1 x hx
        · rw [(hXprops x hx).1]
          exact ⟨fun h => SlotName.noConfusion h, fun h => SlotName.noConfusion h⟩
      have hfindE : bE.inputList.find? (fun i => i.cid = cid) = some hov := by
        rw [hXlist, List.find?_append, hF]
        rfl
      have hKsame : connType bE (Conn.inputConn cid) = connType b (Conn.inputConn cid) := by
        simp [connType, hfindE, hF]
      have hSE : pendStage1 bE (Conn.inputConn cid) = bE := by
        by_cases hk : connType b (Conn.inputConn cid) = ConnType.nextStatement
        · have hmem := hXelse hk
          simp only [pendStage1]
          rw [if_neg]
          rintro ⟨-, hno⟩
          exact getInput_ne_none_of_mem hmem hno
        · simp only [pendStage1]
          rw [if_neg]
          rintro ⟨hk2, -⟩
          rw [hKsame] at hk2
          exact hk hk2
      obtain ⟨i, hIdxE⟩ : ∃ i, findInputIndexForConnection bE (Conn.inputConn cid) = some i := by
        have h := List.findIdx?_eq_some_of_exists
          ⟨hov, List.mem_of_find?_eq_some hfindE, List.find?_some hfindE⟩
        exact ⟨_, by simp only [findInputIndexForConnection]; exact h⟩
      obtain ⟨a0, hget0, hpa0, hbef0⟩ := findIdx?_spec
        (by simpa [findInputIndexForConnection] using hIdxE)
      have ha0 : a0 = hov := by
        apply List.inj_on_of_nodup_map hbECids (List.get?_mem hget0)
          (List.mem_of_find?_eq_some hfindE)
        have h1 : a0.cid = cid := by simpa using hpa0
        rw [h1, hovcid]
      rw [ha0] at hget0
      have hct : connTargetConnection bE (Conn.inputConn cid) = hov.target := by
        simp [connTargetConnection, hfindE]
      have hcall1 : ∀ u, onPendingConnection b (Conn.inputConn cid) u
          = pendRest bE (Conn.inputConn cid) u := by
        intro u
        rw [onPendingConnection_stages]
      by_cases hg : (hov.target).isSome = true ∧ includesIF hov.name = true
      · -- guard true: if an insert happens, the second call sees the fresh
        -- unattached pair two slots ahead and does nothing
        have hpost : (onPendingConnection (insertElseIf bE (i + 2) u1)
              (Conn.inputConn cid) u2).inputList.length
            = (insertElseIf bE (i + 2) u1).inputList.length := by
          have hfreshIF : ∀ x ∈ bE.inputList, x.name ≠ SlotName.ifName u1 :=
            fun x hx => (hbEfresh x hx).1
          have hfreshDO : ∀ x ∈ bE.inputList, x.name ≠ SlotName.doName u1 :=
            fun x hx => (hbEfresh x hx).2
          have hile : i < bE.inputList.length := by
            rw [List.get?_eq_getElem?] at hget0
            exact (List.getElem?_eq_some_iff.mp hget0).1
          rcases le_or_lt (i + 2) bE.inputList.length with hA | hB
          · -- the insert lands at position i + 2
            have hLlen : (bE.inputList.take (i + 2)).length = i + 2 := by
              rw [List.length_take]
              omega
            have hfirst : ∀ r ∈ (bE.inputList.drop (i + 2)).head?,
                ∀ x ∈ bE.inputList.take (i + 2), x.name ≠ r.name := by
              intro r hr x hx
              have hrget : bE.inputList.get? (i + 2) = some r := by
                rw [List.get?_eq_getElem?]
                have hdg := List.getElem?_drop bE.inputList (i + 2) 0
                rw [Nat.add_zero] at hdg
                rw [← hdg]
                cases hd : bE.inputList.drop (i + 2) with
                | nil =>
                  rw [hd] at hr
                  simp at hr
                | cons z zs =>
                  rw [hd] at hr
                  simp at hr
                  subst hr
                  simp
              obtain ⟨j, hj⟩ := List.mem_iff_getElem?.mp hx
              have hjlt : j < i + 2 := by
                have hlen2 := (List.getElem?_eq_some_iff.mp hj).1
                rw [List.length_take] at hlen2
                omega
              have hjget : bE.inputList.get? j = some x := by
                rw [List.get?_eq_getElem?, ← List.getElem?_take_of_lt hjlt]
                exact hj
              exact nodup_map_get?_ne hbENames (by omega) hjget hrget
            have hb' := insertElseIf_split bE u1 (bE.inputList.take (i + 2))
              (bE.inputList.drop (i + 2)) (List.take_append_drop _ _).symm
              hfreshIF hfreshDO hfirst
            rw [hLlen] at hb'
            rw [hb']
            have hget'i : ((bE.inputList.take (i + 2) ++
                { name := SlotName.ifName u1, kind := InputKind.value, cid := bE.nextCid, target := none } ::
                  { name := SlotName.doName u1, kind := InputKind.statement, cid := bE.nextCid + 1, target := none } ::
                  bE.inputList.drop (i + 2))).get? i = some hov := by
              rw [List.get?_eq_getElem?, List.getElem?_append_left (by omega),
                List.getElem?_take_of_lt (by omega)]
              rw [List.get?_eq_getElem?] at hget0
              exact hget0
            have hbef' : ∀ j, j < i → ∀ x, ((bE.inputList.take (i + 2) ++
                { name := SlotName.ifName u1, kind := InputKind.value, cid := bE.nextCid, target := none } ::
                  { name := SlotName.doName u1, kind := InputKind.statement, cid := bE.nextCid + 1, target := none } ::
                  bE.inputList.drop (i + 2))).get? j = some x →
                ¬(decide (x.cid = cid)) = true := by
              intro j hj x hx
              rw [List.get?_eq_getElem?, List.getElem?_append_left (by omega),
                List.getElem?_take_of_lt (by omega), ← List.get?_eq_getElem?] at hx
              exact hbef0 j (by omega) x hx
            have hget'iB : (Block.mk (bE.inputList.take (i + 2) ++
                { name := SlotName.ifName u1, kind := InputKind.value, cid := bE.nextCid, target := none } ::
                  { name := SlotName.doName u1, kind := InputKind.statement, cid := bE.nextCid + 1, target := none } ::
                  bE.inputList.drop (i + 2)) bE.elseifCount bE.elseCount (bE.nextCid + 2)).inputList.get? i
                = some hov := hget'i
            have hIdx' : findInputIndexForConnection
                (Block.mk (bE.inputList.take (i + 2) ++
                  { name := SlotName.ifName u1, kind := InputKind.value, cid := bE.nextCid, target := none } ::
                    { name := SlotName.doName u1, kind := InputKind.statement, cid := bE.nextCid + 1, target := none } ::
                    bE.inputList.drop (i + 2)) bE.elseifCount bE.elseCount (bE.nextCid + 2))
                (Conn.inputConn cid) = some i := by
              simp only [findInputIndexForConnection]
              exact findIdx?_of_spec hget'i (by simpa using hovcid) hbef'
            have hfind' : (Block.mk (bE.inputList.take (i + 2) ++
                  { name := SlotName.ifName u1, kind := InputKind.value, cid := bE.nextCid, target := none } ::
                    { name := SlotName.doName u1, kind := InputKind.statement, cid := bE.nextCid + 1, target := none } ::
                    bE.inputList.drop (i + 2)) bE.elseifCount bE.elseCount (bE.nextCid + 2)).inputList.find?
                (fun x => x.cid = cid) = some hov :=
              find?_eq_of_get? hget'i (by simpa using hovcid) hbef'
            have hnxt' : ((bE.inputList.take (i + 2) ++
                { name := SlotName.ifName u1, kind := InputKind.value, cid := bE.nextCid, target := none } ::
                  { name := SlotName.doName u1, kind := InputKind.statement, cid := bE.nextCid + 1, target := none } ::
                  bE.inputList.drop (i + 2))).get? (i + 2)
                = some { name := SlotName.ifName u1, kind := InputKind.value, cid := bE.nextCid, target := none } := by
              rw [List.get?_eq_getElem?, List.getElem?_append_right (by omega)]
              simp [hLlen]
            have hS' : pendStage1
                (Block.mk (bE.inputList.take (i + 2) ++
                  { name := SlotName.ifName u1, kind := InputKind.value, cid := bE.nextCid, target := none } ::
                    { name := SlotName.doName u1, kind := InputKind.statement, cid := bE.nextCid + 1, target := none } ::
                    bE.inputList.drop (i + 2)) bE.elseifCount bE.elseCount (bE.nextCid + 2))
                (Conn.inputConn cid) = Block.mk (bE.inputList.take (i + 2) ++
                  { name := SlotName.ifName u1, kind := InputKind.value, cid := bE.nextCid, target := none } ::
                    { name := SlotName.doName u1, kind := InputKind.statement, cid := bE.nextCid + 1, target := none } ::
                    bE.inputList.drop (i + 2)) bE.elseifCount bE.elseCount (bE.nextCid + 2) := by
              simp only [pendStage1]
              rw [if_neg]
              rintro ⟨hk2, hno⟩
              have hk2' : connType b (Conn.inputConn cid) = ConnType.nextStatement := by
                rw [← hKsame]
                simp only [connType, hfindE]
                simp only [connType, hfind'] at hk2
                exact hk2
              obtain ⟨y, hy, hyn⟩ := hXelse hk2'
              apply getInput_ne_none_of_mem _ hno
              refine ⟨y, ?_, hyn⟩
              rw [← List.take_append_drop (i + 2) bE.inputList] at hy
              rcases List.mem_append.mp hy with hy | hy
              · exact List.mem_append_left _ hy
              · apply List.mem_append_right
                simp [hy]
            rw [onPendingConnection_stages, hS']
            rw [pendRest_nxt_unattached u2 hIdx' hget'iB ?_ hnxt' (by simp) rfl]
            constructor
            · simp only [connTargetConnection, hfind']
              simp [hg.1]
            · exact hg.2
          · -- the hovered slot is last: the pair is appended at the end
            have hlen : bE.inputList.length = i + 1 := by omega
            have hb' := insertElseIf_atEnd bE u1 (i + 2) hfreshIF hfreshDO (by omega)
            rw [hb']
            have hget'i : ((bE.inputList ++
                [Input.mk (SlotName.ifName u1) InputKind.value bE.nextCid none,
                 Input.mk (SlotName.doName u1) InputKind.statement (bE.nextCid + 1) none])).get? i
                = some hov := by
              rw [List.get?_eq_getElem?, List.getElem?_append_left (by omega), ← List.get?_eq_getElem?]
              exact hget0
            have hbef' : ∀ j, j < i → ∀ x, ((bE.inputList ++
                [Input.mk (SlotName.ifName u1) InputKind.value bE.nextCid none,
                 Input.mk (SlotName.doName u1) InputKind.statement (bE.nextCid + 1) none])).get? j = some x →
                ¬(decide (x.cid = cid)) = true := by
              intro j hj x hx
              rw [List.get?_eq_getElem?, List.getElem?_append_left (by omega), ← List.get?_eq_getElem?] at hx
              exact hbef0 j (by omega) x hx
            have hget'iB : (Block.mk (bE.inputList ++
                  [Input.mk (SlotName.ifName u1) InputKind.value bE.nextCid none,
                   Input.mk (SlotName.doName u1) InputKind.statement (bE.nextCid + 1) none])
                  bE.elseifCount bE.elseCount (bE.nextCid + 2)).inputList.get? i = some hov := hget'i
            have hIdx' : findInputIndexForConnection
                (Block.mk (bE.inputList ++
                  [Input.mk (SlotName.ifName u1) InputKind.value bE.nextCid none,
                   Input.mk (SlotName.doName u1) InputKind.statement (bE.nextCid + 1) none])
                  bE.elseifCount bE.elseCount (bE.nextCid + 2))
                (Conn.inputConn cid) = some i := by
              simp only [findInputIndexForConnection]
              exact findIdx?_of_spec hget'i (by simpa using hovcid) hbef'
            have hfind' : (Block.mk (bE.inputList ++
                  [Input.mk (SlotName.ifName u1) InputKind.value bE.nextCid none,
                   Input.mk (SlotName.doName u1) InputKind.statement (bE.nextCid + 1) none])
                  bE.elseifCount bE.elseCount (bE.nextCid + 2)).inputList.find?
                (fun x => x.cid = cid) = some hov :=
              find?_eq_of_get? hget'i (by simpa using hovcid) hbef'
            have hnxt' : ((bE.inputList ++
                [Input.mk (SlotName.ifName u1) InputKind.value bE.nextCid none,
                 Input.mk (SlotName.doName u1) InputKind.statement (bE.nextCid + 1) none])).get? (i + 2)
                = some (Input.mk (SlotName.doName u1) InputKind.statement (bE.nextCid + 1) none) := by
              rw [List.get?_eq_getElem?, List.getElem?_append_right (by omega)]
              simp [hlen, show i + 2 - (i + 1) = 1 from by omega]
            have hS' : pendStage1
                (Block.mk (bE.inputList ++
                  [Input.mk (SlotName.ifName u1) InputKind.value bE.nextCid none,
                   Input.mk (SlotName.doName u1) InputKind.statement (bE.nextCid + 1) none])
                  bE.elseifCount bE.elseCount (bE.nextCid + 2))
                (Conn.inputConn cid)
                = Block.mk (bE.inputList ++
                  [Input.mk (SlotName.ifName u1) InputKind.value bE.nextCid none,
                   Input.mk (SlotName.doName u1) InputKind.statement (bE.nextCid + 1) none])
                  bE.elseifCount bE.elseCount (bE.nextCid + 2) := by
              simp only [pendStage1]
              rw [if_neg]
              rintro ⟨hk2, hno⟩
              have hk2' : connType b (Conn.inputConn cid) = ConnType.nextStatement := by
                rw [← hKsame]
                simp only [connType, hfindE]
                simp only [connType, hfind'] at hk2
                exact hk2
              obtain ⟨y, hy, hyn⟩ := hXelse hk2'
              exact getInput_ne_none_of_mem ⟨y, List.mem_append_left _ hy, hyn⟩ hno
            rw [onPendingConnection_stages, hS']
            rw [pendRest_nxt_unattached u2 hIdx' hget'iB ?_ hnxt' (by simp) rfl]
            constructor
            · simp only [connTargetConnection, hfind']
              simp [hg.1]
            · exact hg.2
        rcases hnx : bE.inputList.get? (i + 2) with _ | nxt
        · rw [hcall1 u1, pendRest_insert_missing u1 hIdxE hget0 (by rw [hct]; exact hg) hnx]
          exact hpost
        · by_cases hnE : nxt.name = SlotName.elseName
          · rw [hcall1 u1, pendRest_insert_else u1 hIdxE hget0 (by rw [hct]; exact hg) hnx hnE]
            exact hpost
          · rcases hnt : nxt.target with _ | t
            · have h1 : onPendingConnection b (Conn.inputConn cid) u1 = bE := by
                rw [hcall1 u1,
                  pendRest_nxt_unattached u1 hIdxE hget0 (by rw [hct]; exact hg) hnx hnE hnt]
              have h2 : onPendingConnection bE (Conn.inputConn cid) u2 = bE := by
                rw [onPendingConnection_stages, hSE,
                  pendRest_nxt_unattached u2 hIdxE hget0 (by rw [hct]; exact hg) hnx hnE hnt]
              rw [h1, h2]
            · by_cases hm : t.isMarker = true
              · have h1 : onPendingConnection b (Conn.inputConn cid) u1 = bE := by
                  rw [hcall1 u1,
                    pendRest_nxt_marker u1 hIdxE hget0 (by rw [hct]; exact hg) hnx hnE hnt hm]
                have h2 : onPendingConnection bE (Conn.inputConn cid) u2 = bE := by
                  rw [onPendingConnection_stages, hSE,
                    pendRest_nxt_marker u2 hIdxE hget0 (by rw [hct]; exact hg) hnx hnE hnt hm]
                rw [h1, h2]
              · rw [hcall1 u1,
                  pendRest_insert_real u1 hIdxE hget0 (by rw [hct]; exact hg) hnx hnE hnt
                    (by simpa using hm)]
                exact hpost
      · have h1 : onPendingConnection b (Conn.inputConn cid) u1 = bE := by
          rw [hcall1 u1, pendRest_guard_false u1 hIdxE hget0 (by rw [hct]; exact hg)]
        have h2 : onPendingConnection bE (Conn.inputConn cid) u2 = bE := by
          rw [onPendingConnection_stages, hSE,
            pendRest_guard_false u2 hIdxE hget0 (by rw [hct]; exact hg)]
        rw [h1, h2]

/-- C5, witness: the double hover over the attached `IF0` of the concrete
scenario block inserts on the first call only. -/
theorem c5_witness :
    (onPendingConnection (onPendingConnection (hoverBlock false) (Conn.inputConn 0) "u")
        (Conn.inputConn 0) "v").inputList.length
      = (onPendingConnection (hoverBlock false) (Conn.inputConn 0) "u").inputList.length :=
  c5_hover_idempotent (hoverBlock false) (Conn.inputConn 0) "u" "v"
    (by decide) (by decide) (by decide) (by decide)

theorem map_id_of_eq {α : Type} (f : α → α) (l : List α) (h : ∀ x ∈ l, f x = x) :
    l.map f = l := by
  induction l with
  | nil => rfl
  | cons a rest ih =>
    rw [List.map_cons, h a (List.mem_cons_self a rest),
      ih (fun x hx => h x (List.mem_cons_of_mem a hx))]

theorem connectFun_id {cid : Nat} {t : Target} {i : Input}
    (h1 : i.cid ≠ cid) (h2 : i.target ≠ some t) :
    connectFun cid t i = i := by
  simp [connectFun, h1, h2]

theorem connectFun_hit {cid : Nat} {t : Target} {i : Input} (h : i.cid = cid) :
    connectFun cid t i = { i with target := some t } := by
  simp [connectFun, h]

theorem map_connectFun_split (cid : Nat) (t : Target) (A B : List Input) (x : Input)
    (hx : x.cid = cid)
    (hA : ∀ y ∈ A, y.cid ≠ cid ∧ y.target ≠ some t)
    (hB : ∀ y ∈ B, y.cid ≠ cid ∧ y.target ≠ some t) :
    (A ++ x :: B).map (connectFun cid t) = A ++ { x with target := some t } :: B := by
  rw [List.map_append, List.map_cons, connectFun_hit hx,
    map_id_of_eq _ A (fun y hy => connectFun_id (hA y hy).1 (hA y hy).2),
    map_id_of_eq _ B (fun y hy => connectFun_id (hB y hy).1 (hB y hy).2)]

theorem casesToInputs_cons (c : CaseData) (cs : List CaseData) (e : Option ElseData) :
    casesToInputs (c :: cs) e
      = Input.mk (.ifName c.d) .value c.ifCid c.ifT ::
          Input.mk (.doName c.d) .statement c.doCid c.doT :: casesToInputs cs e := by
  simp [casesToInputs, caseInputs]

theorem collectAux_elseInputs (e : Option ElseData) : collectAux (elseInputs e) = [] := by
  cases e <;> rfl

theorem collect_cases (cs : List CaseData) (e : Option ElseData) :
    collectAux (casesToInputs cs e) = populatedOf cs := by
  induction cs with
  | nil =>
    rw [show casesToInputs [] e = elseInputs e from by simp [casesToInputs]]
    rw [collectAux_elseInputs]
    rfl
  | cons c rest ih =>
    rw [casesToInputs_cons]
    simp only [collectAux]
    rw [ih]
    by_cases hp : c.ifT = none ∧ c.doT = none
    · simp [populatedOf, List.filter_cons, hp]
    · rw [if_neg hp]
      show (c.ifT, c.doT) :: populatedOf rest = populatedOf (c :: rest)
      simp only [populatedOf, List.filter_cons]
      rw [if_pos (by simp only [decide_eq_true_eq]; exact hp)]
      simp

theorem mem_flatten_caseInputs {cs : List CaseData} {x : Input}
    (hx : x ∈ (cs.map caseInputs).flatten) :
    ∃ c ∈ cs, x = Input.mk (.ifName c.d) .value c.ifCid c.ifT ∨
      x = Input.mk (.doName c.d) .statement c.doCid c.doT := by
  obtain ⟨l, hl, hxl⟩ := List.mem_flatten.mp hx
  obtain ⟨c, hc, rfl⟩ := List.mem_map.mp hl
  refine ⟨c, hc, ?_⟩
  rcases List.mem_cons.mp hxl with rfl | h2
  · exact Or.inl rfl
  · rcases List.mem_cons.mp h2 with rfl | h3
    · exact Or.inr rfl
    · simp at h3

theorem getInput_else_cases (b : Block) (cs : List CaseData) (e : Option ElseData)
    (h : b.inputList = casesToInputs cs e) :
    (getInput b SlotName.elseName).bind (fun i => i.target) = e.bind (fun ed => ed.t) := by
  rw [getInput, h, casesToInputs, List.find?_append]
  have h1 : ((cs.map caseInputs).flatten).find? (fun i => i.name = SlotName.elseName) = none := by
    rw [List.find?_eq_none]
    intro x hx
    obtain ⟨c, -, hc⟩ := mem_flatten_caseInputs hx
    rcases hc with rfl | rfl <;> simp
  rw [h1]
  cases e with
  | none => rfl
  | some ed => simp [elseInputs, List.find?_cons]

theorem names_mem_casesToInputs {cs : List CaseData} {e : Option ElseData} {x : Input}
    (hx : x ∈ casesToInputs cs e) :
    (∃ c ∈ cs, x.name = .ifName c.d ∨ x.name = .doName c.d) ∨ x.name = .elseName := by
  rcases List.mem_append.mp hx with h | h
  · obtain ⟨c, hc, hcc⟩ := mem_flatten_caseInputs h
    rcases hcc with rfl | rfl
    · exact Or.inl ⟨c, hc, Or.inl rfl⟩
    · exact Or.inl ⟨c, hc, Or.inr rfl⟩
  · cases e with
    | none => simp [elseInputs] at h
    | some ed =>
      simp [elseInputs] at h
      subst h
      exact Or.inr rfl

theorem names_nodup_cases (cs : List CaseData) (e : Option ElseData)
    (hD : (cs.map (fun c => c.d)).Nodup) :
    ((casesToInputs cs e).map (fun i => i.name)).Nodup := by
  induction cs with
  | nil =>
    cases e <;> simp [casesToInputs, elseInputs]
  | cons c rest ih =>
    rw [casesToInputs_cons]
    simp only [List.map_cons]
    rw [List.nodup_cons, List.nodup_cons]
    have hd0 : c.d ∉ rest.map (fun c => c.d) := (List.nodup_cons.mp hD).1
    have hD' := (List.nodup_cons.mp hD).2
    refine ⟨?_, ?_, ih hD'⟩
    · intro hmem
      rcases List.mem_cons.mp hmem with h | h
      · exact SlotName.noConfusion h
      · obtain ⟨y, hy, hyname⟩ := List.mem_map.mp h
        rcases names_mem_casesToInputs hy with ⟨c2, hc2, hcc⟩ | hE
        · rcases hcc with h2 | h2
          · rw [hyname] at h2
            injection h2 with h2
            exact hd0 (h2 ▸ List.mem_map_of_mem (fun c => c.d) hc2)
          · rw [hyname] at h2
            exact SlotName.noConfusion h2
        · rw [hyname] at hE
          exact SlotName.noConfusion hE
    · intro hmem
      obtain ⟨y, hy, hyname⟩ := List.mem_map.mp hmem
      rcases names_mem_casesToInputs hy with ⟨c2, hc2, hcc⟩ | hE
      · rcases hcc with h2 | h2
        · rw [hyname] at h2
          exact SlotName.noConfusion h2
        · rw [hyname] at h2
          injection h2 with h2
          exact hd0 (h2 ▸ List.mem_map_of_mem (fun c => c.d) hc2)
      · rw [hyname] at hE
        exact SlotName.noConfusion hE

theorem len_casesToInputs (cs : List CaseData) (e : Option ElseData) :
    (casesToInputs cs e).length = 2 * cs.length + (elseInputs e).length := by
  induction cs with
  | nil => simp [casesToInputs]
  | cons c rest ih =>
    rw [casesToInputs_cons]
    simp only [List.length_cons]
    rw [show (casesToInputs rest e).length = 2 * rest.length + (elseInputs e).length from ih]
    omega

theorem take2_casesToInputs (c : CaseData) (rest : List CaseData) (e : Option ElseData) :
    (casesToInputs (c :: rest) e).take 2 = caseInputs c := by
  rw [casesToInputs_cons]
  rfl

theorem deleteDynLoop_spec (i : Nat) : ∀ (b : Block), b.inputList.length = i + 1 →
    ((b.inputList.map (fun x => x.name)).Nodup) →
    deleteDynLoop i b = { b with inputList := b.inputList.take 2 } := by
  induction i using Nat.strong_induction_on with
  | _ i ih =>
    intro b hlen hnd
    match i, hlen with
    | 0, hlen =>
      simp only [deleteDynLoop]
      rw [List.take_of_length_le (by omega)]
    | 1, hlen =>
      simp only [deleteDynLoop]
      rw [List.take_of_length_le (by omega)]
    | (k + 2), hlen =>
      simp only [deleteDynLoop]
      have hk2 : k + 2 < b.inputList.length := by omega
      obtain ⟨last, hlast⟩ : ∃ last, b.inputList.get? (k + 2) = some last := by
        rw [List.get?_eq_getElem?]
        exact ⟨_, List.getElem?_eq_getElem hk2⟩
      rw [hlast]
      have hdropc : b.inputList.drop (k + 2) = [last] := by
        rw [List.drop_eq_getElem_cons hk2]
        have h1 : b.inputList.drop (k + 3) = [] := List.drop_eq_nil_of_le (by omega)
        rw [show k + 2 + 1 = k + 3 from rfl, h1]
        rw [List.get?_eq_getElem?, List.getElem?_eq_getElem hk2] at hlast
        injection hlast with hlast
        rw [hlast]
      have hsplit : b.inputList = b.inputList.take (k + 2) ++ [last] := by
        conv_lhs => rw [← List.take_append_drop (k + 2) b.inputList]
        rw [hdropc]
      have hnotin : ∀ x ∈ b.inputList.take (k + 2), ¬(decide (x.name = last.name)) = true := by
        intro x hx
        simp only [decide_eq_true_eq]
        have hmapsplit : b.inputList.map (fun x => x.name)
            = (b.inputList.take (k + 2)).map (fun x => x.name) ++ [last.name] := by
          conv_lhs => rw [hsplit]
          simp
        rw [hmapsplit] at hnd
        have := List.disjoint_of_nodup_append hnd
        intro hEq
        exact this (List.mem_map_of_mem (fun x => x.name) hx) (by simp [hEq])
      have herase : (removeInput b last.name).inputList = b.inputList.take (k + 2) := by
        simp only [removeInput]
        conv_lhs => rw [hsplit]
        rw [List.eraseP_append_right _ hnotin]
        rw [List.eraseP_cons_of_pos (by simp)]
        simp
      have hlen' : (removeInput b last.name).inputList.length = (k + 1) + 1 := by
        rw [herase, List.length_take]
        omega
      have hnd' : ((removeInput b last.name).inputList.map (fun x => x.name)).Nodup := by
        rw [herase]
        apply List.Nodup.sublist _ hnd
        exact (List.take_sublist _ _).map _
      rw [ih (k + 1) (by omega) _ hlen' hnd']
      have htt : (removeInput b last.name).inputList.take 2 = b.inputList.take 2 := by
        rw [herase, List.take_take]
        congr 1
        exact Nat.min_eq_left (by omega)
      simp only [removeInput] at htt ⊢
      rw [htt]

theorem deleteDynamicInputs_spec (b : Block)
    (hlen : 2 ≤ b.inputList.length)
    (hnd : (b.inputList.map (fun x => x.name)).Nodup) :
    deleteDynamicInputs b = { b with inputList := b.inputList.take 2 } := by
  rw [deleteDynamicInputs]
  apply deleteDynLoop_spec
  · omega
  · exact hnd

theorem dInRangeK_iff (d : String) (k n : Nat) :
    dInRangeK d k n = true ↔ ∃ j, k ≤ j ∧ j < k + n ∧ d = decimalStr j := by
  simp only [dInRangeK, List.any_eq_true, List.mem_range, decide_eq_true_eq]
  constructor
  · rintro ⟨j, hj, heq⟩
    exact ⟨k + j, Nat.le_add_right k j, by omega, heq⟩
  · rintro ⟨j, hk, hkn, heq⟩
    exact ⟨j - k, by omega, by rw [show k + (j - k) = j from by omega]; exact heq⟩

theorem dInRangeK_zero (d : String) (k : Nat) : dInRangeK d k 0 = false := rfl

theorem dInRangeK_succ (d : String) (k n : Nat) (h : d ≠ decimalStr k) :
    dInRangeK d k (n + 1) = dInRangeK d (k + 1) n := by
  cases h1 : dInRangeK d k (n + 1) with
  | true =>
    obtain ⟨j, hk, hkn, heq⟩ := (dInRangeK_iff d k (n + 1)).mp h1
    have hjk : j ≠ k := fun hjk => h (hjk ▸ heq)
    symm
    rw [dInRangeK_iff]
    exact ⟨j, by omega, by omega, heq⟩
  | false =>
    symm
    rw [← Bool.not_eq_true] at h1 ⊢
    intro h2
    apply h1
    obtain ⟨j, hk, hkn, heq⟩ := (dInRangeK_iff d (k + 1) n).mp h2
    rw [dInRangeK_iff]
    exact ⟨j, by omega, by omega, heq⟩

theorem dInRangeK_head (k n : Nat) : dInRangeK (decimalStr k) k (n + 1) = true := by
  rw [dInRangeK_iff]
  exact ⟨k, Nat.le_refl k, by omega, rfl⟩

theorem range_map_decimal_succ (k n : Nat) :
    (List.range (n + 1)).map (fun j => decimalStr (k + j))
      = decimalStr k :: (List.range n).map (fun j => decimalStr (k + 1 + j)) := by
  rw [List.range_succ_eq_map]
  simp only [List.map_cons, List.map_map, Nat.add_zero]
  congr 1
  apply List.map_congr_left
  intro j _
  simp only [Function.comp, Nat.succ_eq_add_one]
  congr 1
  omega

theorem connectFun_clear {cid : Nat} {t : Target} {i : Input}
    (h1 : i.cid ≠ cid) (h2 : i.target = some t) :
    connectFun cid t i = { i with target := none } := by
  simp [connectFun, h1, h2]

theorem getInput_pre_rest_none (b : Block) (pre rest : List Input) (n : SlotName)
    (hsplit : b.inputList = pre ++ rest)
    (hpre : ∀ x ∈ pre, x.name ≠ n) (hrest : ∀ x ∈ rest, x.name ≠ n) :
    getInput b n = none := by
  rw [getInput, hsplit, List.find?_append,
    List.find?_eq_none.mpr (fun x hx => by simpa using hpre x hx),
    List.find?_eq_none.mpr (fun x hx => by simpa using hrest x hx)]
  rfl

theorem connect_two_targets (b : Block) (p : Option Target × Option Target)
    (pre post : List Input) (ifI doI : Input)
    (hsplit : b.inputList = pre ++ ifI :: doI :: post)
    (hIfDo : ifI.cid ≠ doI.cid)
    (hpreC : ∀ x ∈ pre, x.cid ≠ ifI.cid ∧ x.cid ≠ doI.cid)
    (hpostC : ∀ x ∈ post, x.cid ≠ ifI.cid ∧ x.cid ≠ doI.cid)
    (hpreT : ∀ t, p.1 = some t ∨ p.2 = some t → ∀ x ∈ pre, x.target ≠ some t)
    (hpostT : ∀ t, p.1 = some t ∨ p.2 = some t → ∀ x ∈ post, x.target ≠ some t)
    (hIfT : p.1 = none → ifI.target = none)
    (hDoT : p.2 = none → doI.target = none)
    (hDoNotP1 : ∀ t, p.1 = some t → doI.target ≠ some t)
    (hIfNotP2 : ∀ t, p.2 = some t → { ifI with target := p.1 }.target ≠ some t) :
    (match p.2 with
      | some t => connectTarget (match p.1 with
          | some t1 => connectTarget b ifI.cid t1
          | none => b) doI.cid t
      | none => (match p.1 with
          | some t1 => connectTarget b ifI.cid t1
          | none => b)).inputList
      = pre ++ { ifI with target := p.1 } :: { doI with target := p.2 } :: post := by
  have hstep1 : (match p.1 with
      | some t1 => connectTarget b ifI.cid t1
      | none => b).inputList = pre ++ { ifI with target := p.1 } :: doI :: post := by
    cases hp1 : p.1 with
    | none =>
      rw [hsplit]
      congr 2
      cases ifI
      simp_all
    | some t1 =>
      rw [connectTarget_inputList, hsplit,
        show (pre ++ ifI :: doI :: post) = pre ++ ifI :: (doI :: post) from rfl,
        map_connectFun_split ifI.cid t1 pre (doI :: post) ifI rfl
          (fun y hy => ⟨(hpreC y hy).1, hpreT t1 (Or.inl hp1) y hy⟩)
          (fun y hy => by
            rcases List.mem_cons.mp hy with rfl | hy2
            · exact ⟨fun h => hIfDo h.symm, hDoNotP1 t1 hp1⟩
            · exact ⟨(hpostC y hy2).1, hpostT t1 (Or.inl hp1) y hy2⟩)]
  cases hp2 : p.2 with
  | none =>
    rw [hstep1]
    congr 3
    cases doI
    simp_all
  | some t2 =>
    have hA : ∀ y ∈ pre ++ [Input.mk ifI.name ifI.kind ifI.cid p.1],
        y.cid ≠ doI.cid ∧ y.target ≠ some t2 := by
      intro y hy
      rcases List.mem_append.mp hy with hy1 | hy2
      · exact ⟨(hpreC y hy1).2, hpreT t2 (Or.inr hp2) y hy1⟩
      · simp at hy2
        subst hy2
        exact ⟨hIfDo, hIfNotP2 t2 hp2⟩
    have hB : ∀ y ∈ post, y.cid ≠ doI.cid ∧ y.target ≠ some t2 :=
      fun y hy => ⟨(hpostC y hy).2, hpostT t2 (Or.inr hp2) y hy⟩
    have hmap := map_connectFun_split doI.cid t2
      (pre ++ [Input.mk ifI.name ifI.kind ifI.cid p.1]) post doI rfl hA hB
    have hsplit2 : (pre ++ ({ ifI with target := p.1 } : Input) :: doI :: post : List Input)
        = (pre ++ [Input.mk ifI.name ifI.kind ifI.cid p.1]) ++ doI :: post := by simp
    rw [connectTarget_inputList, hstep1, hsplit2, hmap]
    simp

theorem block_eq_of_parts (bb : Block) (L : List Input) (a e : Int) (n : Nat)
    (h1 : bb.inputList = L) (h2 : bb.elseifCount = a) (h3 : bb.elseCount = e)
    (h4 : bb.nextCid = n) : bb = Block.mk L a e n := by
  cases bb
  simp_all

theorem connect_two_targets_block (b : Block) (p : Option Target × Option Target)
    (pre post : List Input) (ifI doI : Input)
    (hsplit : b.inputList = pre ++ ifI :: doI :: post)
    (hIfDo : ifI.cid ≠ doI.cid)
    (hpreC : ∀ x ∈ pre, x.cid ≠ ifI.cid ∧ x.cid ≠ doI.cid)
    (hpostC : ∀ x ∈ post, x.cid ≠ ifI.cid ∧ x.cid ≠ doI.cid)
    (hpreT : ∀ t, p.1 = some t ∨ p.2 = some t → ∀ x ∈ pre, x.target ≠ some t)
    (hpostT : ∀ t, p.1 = some t ∨ p.2 = some t → ∀ x ∈ post, x.target ≠ some t)
    (hIfT : p.1 = none → ifI.target = none)
    (hDoT : p.2 = none → doI.target = none)
    (hDoNotP1 : ∀ t, p.1 = some t → doI.target ≠ some t)
    (hIfNotP2 : ∀ t, p.2 = some t → { ifI with target := p.1 }.target ≠ some t) :
    (match p.2 with
      | some t => connectTarget (match p.1 with
          | some t1 => connectTarget b ifI.cid t1
          | none => b) doI.cid t
      | none => (match p.1 with
          | some t1 => connectTarget b ifI.cid t1
          | none => b))
      = Block.mk (pre ++ { ifI with target := p.1 } :: { doI with target := p.2 } :: post)
          b.elseifCount b.elseCount b.nextCid := by
  refine block_eq_of_parts _ _ _ _ _
    (connect_two_targets b p pre post ifI doI hsplit hIfDo hpreC hpostC hpreT hpostT
      hIfT hDoT hDoNotP1 hIfNotP2) ?_ ?_ ?_ <;>
    rcases p with ⟨p1, p2⟩ <;> cases p1 <;> cases p2 <;> rfl

theorem addElseInput_eq (b : Block) (t : Target)
    (hcidLt : ∀ x ∈ b.inputList, x.cid < b.nextCid)
    (ht : ∀ x ∈ b.inputList, x.target ≠ some t) :
    addElseInput b t
      = Block.mk (b.inputList ++ [Input.mk .elseName .statement b.nextCid (some t)])
          b.elseifCount b.elseCount (b.nextCid + 1) := by
  have h1 := map_connectFun_split b.nextCid t b.inputList []
    (Input.mk .elseName .statement b.nextCid none) rfl
    (fun y hy => ⟨by have := hcidLt y hy; omega, ht y hy⟩)
    (fun y hy => by simp at hy)
  refine block_eq_of_parts _ _ _ _ _ ?_ rfl rfl rfl
  exact h1.trans (by simp)

theorem addCaseStep_reuse (b : Block) (k : Nat) (p : Option Target × Option Target)
    (pre post : List Input) (c : CaseData)
    (hsplit : b.inputList = pre ++ caseInputs c ++ post)
    (hcd : c.d = decimalStr k)
    (hpreN : ∀ x ∈ pre, x.name ≠ SlotName.ifName (decimalStr k)
      ∧ x.name ≠ SlotName.doName (decimalStr k))
    (hIfDo : c.ifCid ≠ c.doCid)
    (hpreC : ∀ x ∈ pre, x.cid ≠ c.ifCid ∧ x.cid ≠ c.doCid)
    (hpostC : ∀ x ∈ post, x.cid ≠ c.ifCid ∧ x.cid ≠ c.doCid)
    (hpreT : ∀ t, p.1 = some t ∨ p.2 = some t → ∀ x ∈ pre, x.target ≠ some t)
    (hpostT : ∀ t, p.1 = some t ∨ p.2 = some t → ∀ x ∈ post, x.target ≠ some t)
    (hcT : (c.ifT = none ∧ c.doT = none) ∨ (c.ifT = p.1 ∧ c.doT = p.2))
    (hp12 : ∀ t, p.1 = some t → p.2 ≠ some t) :
    addCaseStep b k p
      = Block.mk (pre ++ caseInputs (CaseData.mk (decimalStr k) c.ifCid c.doCid p.1 p.2) ++ post)
          b.elseifCount b.elseCount b.nextCid := by
  have hsplit' : b.inputList
      = pre ++ Input.mk (.ifName c.d) .value c.ifCid c.ifT
          :: Input.mk (.doName c.d) .statement c.doCid c.doT :: post := by
    rw [hsplit]
    simp [caseInputs]
  have hgIf : getInput b (.ifName (decimalStr k))
      = some (Input.mk (.ifName c.d) .value c.ifCid c.ifT) := by
    rw [getInput, hsplit', List.find?_append,
      List.find?_eq_none.mpr (fun x hx => by simpa using (hpreN x hx).1)]
    simp [hcd]
  have hgDo : getInput b (.doName (decimalStr k))
      = some (Input.mk (.doName c.d) .statement c.doCid c.doT) := by
    rw [getInput, hsplit', List.find?_append,
      List.find?_eq_none.mpr (fun x hx => by simpa using (hpreN x hx).2)]
    simp [hcd]
  have hIfT' : p.1 = none → (Input.mk (.ifName c.d) .value c.ifCid c.ifT : Input).target = none := by
    intro h
    rcases hcT with ⟨h1, _⟩ | ⟨h1, _⟩
    · exact h1
    · rw [show (Input.mk (.ifName c.d) .value c.ifCid c.ifT : Input).target = c.ifT from rfl, h1, h]
  have hDoT' : p.2 = none → (Input.mk (.doName c.d) .statement c.doCid c.doT : Input).target = none := by
    intro h
    rcases hcT with ⟨_, h1⟩ | ⟨_, h1⟩
    · exact h1
    · rw [show (Input.mk (.doName c.d) .statement c.doCid c.doT : Input).target = c.doT from rfl, h1, h]
  have hDoNotP1' : ∀ t, p.1 = some t →
      (Input.mk (.doName c.d) .statement c.doCid c.doT : Input).target ≠ some t := by
    intro t h1
    rcases hcT with ⟨_, h2⟩ | ⟨_, h2⟩
    · simp [h2]
    · show c.doT ≠ some t
      rw [h2]
      exact hp12 t h1
  have hIfNotP2' : ∀ t, p.2 = some t →
      ({ Input.mk (.ifName c.d) .value c.ifCid c.ifT with target := p.1 } : Input).target ≠ some t := by
    intro t h2 hcontra
    exact hp12 t hcontra h2
  have hmain := connect_two_targets_block b p pre post
      (Input.mk (.ifName c.d) .value c.ifCid c.ifT)
      (Input.mk (.doName c.d) .statement c.doCid c.doT)
      hsplit' hIfDo hpreC hpostC hpreT hpostT hIfT' hDoT' hDoNotP1' hIfNotP2'
  have hRHS : Block.mk
        (pre ++ ({ Input.mk (.ifName c.d) .value c.ifCid c.ifT with target := p.1 } : Input)
          :: ({ Input.mk (.doName c.d) .statement c.doCid c.doT with target := p.2 } : Input) :: post)
        b.elseifCount b.elseCount b.nextCid
      = Block.mk (pre ++ caseInputs (CaseData.mk (decimalStr k) c.ifCid c.doCid p.1 p.2) ++ post)
          b.elseifCount b.elseCount b.nextCid := by
    simp [caseInputs, hcd]
  simp only [addCaseStep, hgIf, hgDo]
  exact hmain.trans hRHS

theorem addCaseStep_insert (b : Block) (k : Nat) (p : Option Target × Option Target)
    (pre rest : List Input)
    (hsplit : b.inputList = pre ++ rest)
    (hlen : pre.length = 2 * k)
    (hIF : ∀ x ∈ b.inputList, x.name ≠ SlotName.ifName (decimalStr k))
    (hDO : ∀ x ∈ b.inputList, x.name ≠ SlotName.doName (decimalStr k))
    (hfirst : ∀ r ∈ rest.head?, ∀ x ∈ pre, x.name ≠ r.name)
    (hcidLt : ∀ x ∈ b.inputList, x.cid < b.nextCid)
    (hpreT : ∀ t, p.1 = some t ∨ p.2 = some t → ∀ x ∈ pre, x.target ≠ some t)
    (hrestT : ∀ t, p.1 = some t ∨ p.2 = some t → ∀ x ∈ rest, x.target ≠ some t)
    (hp12 : ∀ t, p.1 = some t → p.2 ≠ some t) :
    addCaseStep b k p
      = Block.mk
          (pre ++ caseInputs (CaseData.mk (decimalStr k) b.nextCid (b.nextCid + 1) p.1 p.2) ++ rest)
          b.elseifCount b.elseCount (b.nextCid + 2) := by
  have hgIf : getInput b (.ifName (decimalStr k)) = none :=
    List.find?_eq_none.mpr (fun x hx => by simpa using hIF x hx)
  have hgDo : getInput b (.doName (decimalStr k)) = none :=
    List.find?_eq_none.mpr (fun x hx => by simpa using hDO x hx)
  have hk2 : k * 2 = pre.length := by omega
  have hins := insertElseIf_split b (decimalStr k) pre rest hsplit hIF hDO hfirst
  have hB : insertElseIf b (k * 2) (decimalStr k)
      = Block.mk
          (pre ++ Input.mk (.ifName (decimalStr k)) .value b.nextCid none
            :: Input.mk (.doName (decimalStr k)) .statement (b.nextCid + 1) none :: rest)
          b.elseifCount b.elseCount (b.nextCid + 2) := by
    rw [hk2, hins]
  have hmain := connect_two_targets_block
      (Block.mk
        (pre ++ Input.mk (.ifName (decimalStr k)) .value b.nextCid none
          :: Input.mk (.doName (decimalStr k)) .statement (b.nextCid + 1) none :: rest)
        b.elseifCount b.elseCount (b.nextCid + 2))
      p pre rest
      (Input.mk (.ifName (decimalStr k)) .value b.nextCid none)
      (Input.mk (.doName (decimalStr k)) .statement (b.nextCid + 1) none)
      rfl
      (by simp)
      (fun x hx => by
        have := hcidLt x (by rw [hsplit]; exact List.mem_append_left _ hx)
        refine ⟨?_, ?_⟩ <;> · dsimp only; omega)
      (fun x hx => by
        have := hcidLt x (by rw [hsplit]; exact List.mem_append_right _ hx)
        refine ⟨?_, ?_⟩ <;> · dsimp only; omega)
      hpreT hrestT
      (fun _ => rfl)
      (fun _ => rfl)
      (fun t _ => by simp)
      (fun t h2 hcontra => hp12 t hcontra h2)
  have hRHS : Block.mk
        (pre ++ ({ Input.mk (.ifName (decimalStr k)) .value b.nextCid none with target := p.1 } : Input)
          :: ({ Input.mk (.doName (decimalStr k)) .statement (b.nextCid + 1) none with target := p.2 } : Input) :: rest)
        b.elseifCount b.elseCount (b.nextCid + 2)
      = Block.mk
          (pre ++ caseInputs (CaseData.mk (decimalStr k) b.nextCid (b.nextCid + 1) p.1 p.2) ++ rest)
          b.elseifCount b.elseCount (b.nextCid + 2) := by
    simp [caseInputs]
  simp only [addCaseStep, hgIf, hgDo, hB]
  exact hmain.trans hRHS

theorem addCaseStep_insert_steal (b : Block) (c : CaseData)
    (hsplit : b.inputList = caseInputs c)
    (hcd : c.d ≠ decimalStr 0)
    (hcidLt : ∀ x ∈ b.inputList, x.cid < b.nextCid)
    (hT : (b.inputList.filterMap (fun i => i.target)).Nodup) :
    addCaseStep b 0 (c.ifT, c.doT)
      = Block.mk
          (caseInputs (CaseData.mk (decimalStr 0) b.nextCid (b.nextCid + 1) c.ifT c.doT)
            ++ caseInputs (CaseData.mk c.d c.ifCid c.doCid none none))
          b.elseifCount b.elseCount (b.nextCid + 2) := by
  have hci : c.ifCid < b.nextCid :=
    hcidLt (Input.mk (.ifName c.d) .value c.ifCid c.ifT) (by rw [hsplit]; simp [caseInputs])
  have hcdo : c.doCid < b.nextCid :=
    hcidLt (Input.mk (.doName c.d) .statement c.doCid c.doT) (by rw [hsplit]; simp [caseInputs])
  have hTT : ∀ t, c.ifT = some t → c.doT ≠ some t := by
    intro t h1 h2
    rw [hsplit] at hT
    simp [caseInputs, h1, h2] at hT
  have hIFb : ∀ x ∈ b.inputList, x.name ≠ SlotName.ifName (decimalStr 0) := by
    intro x hx
    rw [hsplit] at hx
    simp [caseInputs] at hx
    rcases hx with rfl | rfl <;> simp [hcd]
  have hDOb : ∀ x ∈ b.inputList, x.name ≠ SlotName.doName (decimalStr 0) := by
    intro x hx
    rw [hsplit] at hx
    simp [caseInputs] at hx
    rcases hx with rfl | rfl <;> simp [hcd]
  have hgIf : getInput b (.ifName (decimalStr 0)) = none :=
    List.find?_eq_none.mpr (fun x hx => by simpa using hIFb x hx)
  have hgDo : getInput b (.doName (decimalStr 0)) = none :=
    List.find?_eq_none.mpr (fun x hx => by simpa using hDOb x hx)
  have hins := insertElseIf_split b (decimalStr 0) [] (caseInputs c)
    (by simpa using hsplit) hIFb hDOb (fun r hr x hx => by simp at hx)
  have hins0 : insertElseIf b (0 * 2) (decimalStr 0)
      = Block.mk
          (Input.mk (.ifName (decimalStr 0)) .value b.nextCid none
            :: Input.mk (.doName (decimalStr 0)) .statement (b.nextCid + 1) none
            :: caseInputs c)
          b.elseifCount b.elseCount (b.nextCid + 2) := by
    refine Eq.trans ?_ (hins.trans ?_)
    · rfl
    · refine block_eq_of_parts _ _ _ _ _ ?_ rfl rfl rfl
      simp
  have hne1 : ¬(b.nextCid + 1 = b.nextCid) := by omega
  have hne2 : ¬(c.ifCid = b.nextCid) := by omega
  have hne3 : ¬(c.doCid = b.nextCid) := by omega
  have hne4 : ¬(c.ifCid = b.nextCid + 1) := by omega
  have hne5 : ¬(c.doCid = b.nextCid + 1) := by omega
  simp only [addCaseStep, hgIf, hgDo, hins0]
  rcases hIf : c.ifT with _ | t1 <;> rcases hDo : c.doT with _ | t2
  · refine block_eq_of_parts _ _ _ _ _ ?_ rfl rfl rfl
    simp [caseInputs, hIf, hDo]
  · refine block_eq_of_parts _ _ _ _ _ ?_ rfl rfl rfl
    simp [caseInputs, hIf, hDo, connectTarget, connectFun, hne1, hne2, hne3, hne4, hne5]
  · refine block_eq_of_parts _ _ _ _ _ ?_ rfl rfl rfl
    simp [caseInputs, hIf, hDo, connectTarget, connectFun, hne1, hne2, hne3, hne4, hne5]
  · have hne_tt : ¬(t2 = t1) := by
      intro h
      exact hTT t1 hIf (by rw [hDo, h])
    have hne_tt2 : ¬(t1 = t2) := fun h => hne_tt h.symm
    refine block_eq_of_parts _ _ _ _ _ ?_ rfl rfl rfl
    simp [caseInputs, hIf, hDo, connectTarget, connectFun, hne1, hne2, hne3, hne4, hne5, hne_tt, hne_tt2]

theorem pairTargets_cons (p : Option Target × Option Target)
    (C : List (Option Target × Option Target)) :
    pairTargets (p :: C) = (p.1.toList ++ p.2.toList) ++ pairTargets C := rfl

theorem pairNodup_fst_snd (p : Option Target × Option Target)
    (C : List (Option Target × Option Target))
    (h : (pairTargets (p :: C)).Nodup) :
    ∀ t, p.1 = some t → p.2 ≠ some t := by
  intro t h1 h2
  rw [pairTargets_cons, h1, h2] at h
  simp at h

theorem pairNodup_disj (p : Option Target × Option Target)
    (C : List (Option Target × Option Target))
    (h : (pairTargets (p :: C)).Nodup) :
    ∀ t ∈ pairTargets C, p.1 ≠ some t ∧ p.2 ≠ some t := by
  intro t ht
  rw [pairTargets_cons] at h
  have hd := (List.nodup_append.mp h).2.2
  constructor
  · intro h1
    exact hd (by simp [h1]) ht
  · intro h2
    exact hd (by simp [h2]) ht

theorem pairNodup_tail (p : Option Target × Option Target)
    (C : List (Option Target × Option Target))
    (h : (pairTargets (p :: C)).Nodup) : (pairTargets C).Nodup := by
  rw [pairTargets_cons] at h
  exact (List.nodup_append.mp h).2.1

theorem mem_pairTargets_head (p : Option Target × Option Target)
    (C : List (Option Target × Option Target)) :
    ∀ t, p.1 = some t ∨ p.2 = some t → t ∈ pairTargets (p :: C) := by
  intro t h
  rw [pairTargets_cons]
  rcases h with h | h <;> simp [h]

theorem pairTargets_append (A B : List (Option Target × Option Target)) :
    pairTargets (A ++ B) = pairTargets A ++ pairTargets B := by
  simp [pairTargets]

theorem populatedOf_cons_populated (c : CaseData) (cs : List CaseData)
    (h : ¬(c.ifT = none ∧ c.doT = none)) :
    populatedOf (c :: cs) = (c.ifT, c.doT) :: populatedOf cs := by
  simp only [populatedOf, List.filter_cons]
  rw [if_pos (by simp only [decide_eq_true_eq]; exact h)]
  simp

theorem populatedOf_cons_unpopulated (c : CaseData) (cs : List CaseData)
    (h : c.ifT = none ∧ c.doT = none) :
    populatedOf (c :: cs) = populatedOf cs := by
  simp only [populatedOf, List.filter_cons]
  rw [if_neg (by simp only [decide_eq_true_eq]; simpa using h)]

theorem populatedOf_populated (cs : List CaseData) :
    ∀ p ∈ populatedOf cs, ¬(p.1 = none ∧ p.2 = none) := by
  intro p hp
  simp only [populatedOf, List.mem_map] at hp
  obtain ⟨c, hc, rfl⟩ := hp
  have h2 := List.of_mem_filter hc
  exact of_decide_eq_true h2

theorem populatedOf_nil_head (c0 : CaseData) (cs' : List CaseData)
    (h : populatedOf (c0 :: cs') = []) : c0.ifT = none ∧ c0.doT = none := by
  by_contra hc
  rw [populatedOf_cons_populated c0 cs' hc] at h
  simp at h

theorem filterMap_casesToInputs (cs : List CaseData) (e : Option ElseData) :
    (casesToInputs cs e).filterMap (fun i => i.target)
      = pairTargets (populatedOf cs) ++ (elseInputs e).filterMap (fun i => i.target) := by
  induction cs with
  | nil =>
    rw [show casesToInputs [] e = elseInputs e from by simp [casesToInputs]]
    rfl
  | cons c rest ih =>
    rw [casesToInputs_cons]
    simp only [List.filterMap_cons]
    by_cases hp : c.ifT = none ∧ c.doT = none
    · rw [populatedOf_cons_unpopulated c rest hp, hp.1, hp.2, ih]
    · rw [populatedOf_cons_populated c rest hp, pairTargets_cons]
      cases hi : c.ifT with
      | none =>
        cases hdo : c.doT with
        | none => exact absurd ⟨hi, hdo⟩ hp
        | some t2 => simp [ih, hi, hdo]
      | some t1 =>
        cases hdo : c.doT with
        | none => simp [ih, hi, hdo]
        | some t2 => simp [ih, hi, hdo]

theorem filterMap_elseInputs (e : Option ElseData) :
    (elseInputs e).filterMap (fun i => i.target) = (e.bind (fun ed => ed.t)).toList := by
  cases e with
  | none => rfl
  | some ed => cases h : ed.t <;> simp [elseInputs, h]

theorem target_mem_pairTargets_of_mem_flatten {l : List CaseData} {x : Input} {tt : Target}
    (hx : x ∈ (l.map caseInputs).flatten) (ht : x.target = some tt) :
    tt ∈ pairTargets (l.map (fun c => (c.ifT, c.doT))) := by
  obtain ⟨c, hc, hcc⟩ := mem_flatten_caseInputs hx
  rcases hcc with rfl | rfl
  · refine List.mem_flatMap.mpr ⟨(c.ifT, c.doT), List.mem_map_of_mem _ hc, ?_⟩
    have h1 : c.ifT = some tt := ht
    simp [h1]
  · refine List.mem_flatMap.mpr ⟨(c.ifT, c.doT), List.mem_map_of_mem _ hc, ?_⟩
    have h1 : c.doT = some tt := ht
    simp [h1]

theorem flatten_caseInputs_map_names {l : List CaseData} {x : Input}
    (hx : x ∈ (l.map caseInputs).flatten) :
    ∃ c ∈ l, (x.name = SlotName.ifName c.d ∧ x.target = c.ifT) ∨
      (x.name = SlotName.doName c.d ∧ x.target = c.doT) := by
  obtain ⟨c, hc, hcc⟩ := mem_flatten_caseInputs hx
  rcases hcc with rfl | rfl
  · exact ⟨c, hc, Or.inl ⟨rfl, rfl⟩⟩
  · exact ⟨c, hc, Or.inr ⟨rfl, rfl⟩⟩

theorem cids_nodup_extend (pre rest : List Input) (n : Nat) (newIf newDo : Input)
    (hN : ((pre ++ rest).map (fun x => x.cid)).Nodup)
    (hLt : ∀ x ∈ pre ++ rest, x.cid < n)
    (hIf : newIf.cid = n) (hDo : newDo.cid = n + 1) :
    ((pre ++ newIf :: newDo :: rest).map (fun x => x.cid)).Nodup := by
  have hperm : (pre ++ newIf :: newDo :: rest).Perm (newIf :: newDo :: (pre ++ rest)) :=
    List.perm_middle.trans (List.Perm.cons newIf List.perm_middle)
  rw [(hperm.map (fun x => x.cid)).nodup_iff]
  simp only [List.map_cons, List.nodup_cons, List.mem_cons, List.mem_map]
  refine ⟨?_, ?_, hN⟩
  · rintro (h | ⟨x, hx, hcx⟩)
    · rw [hIf, hDo] at h
      omega
    · have := hLt x hx
      rw [hIf] at hcx
      omega
  · rintro ⟨x, hx, hcx⟩
    have := hLt x hx
    rw [hDo] at hcx
    omega

theorem cids_facts_of_append_pair (pre : List Input) (c : CaseData)
    (h : ((pre ++ caseInputs c).map (fun x => x.cid)).Nodup) :
    c.ifCid ≠ c.doCid ∧ (∀ x ∈ pre, x.cid ≠ c.ifCid ∧ x.cid ≠ c.doCid) := by
  rw [List.map_append, List.nodup_append] at h
  obtain ⟨h1, h2, h3⟩ := h
  refine ⟨?_, ?_⟩
  · have := h2
    simp [caseInputs] at this
    exact this
  · intro x hx
    constructor
    · intro he
      exact h3 (List.mem_map_of_mem _ hx) (by simp [caseInputs, he])
    · intro he
      exact h3 (List.mem_map_of_mem _ hx) (by simp [caseInputs, he])

theorem addCaseFrom_spec (C : List (Option Target × Option Target)) :
    ∀ (k : Nat) (b : Block) (pre : List Input) (ld : Option CaseData),
    b.inputList = pre ++ leftoverInputs ld →
    pre.length = 2 * k →
    (∀ c, ld = some c → c.ifT = none ∧ c.doT = none) →
    (∀ j, k ≤ j → ∀ x ∈ pre,
      x.name ≠ SlotName.ifName (decimalStr j) ∧ x.name ≠ SlotName.doName (decimalStr j)) →
    (∀ c, ld = some c → ∀ x ∈ pre,
      x.name ≠ SlotName.ifName c.d ∧ x.name ≠ SlotName.doName c.d) →
    (∀ t ∈ pairTargets C, ∀ x ∈ pre, x.target ≠ some t) →
    (pairTargets C).Nodup →
    ((b.inputList.map (fun x => x.cid)).Nodup) →
    (∀ x ∈ b.inputList, x.cid < b.nextCid) →
    ∃ ncs : List CaseData,
      (addCaseInputsFrom b k C).inputList
          = pre ++ (ncs.map caseInputs).flatten ++ leftoverOut k C.length ld ∧
        ncs.map (fun c => (c.ifT, c.doT)) = C ∧
        ncs.map (fun c => c.d) = (List.range C.length).map (fun j => decimalStr (k + j)) ∧
        (addCaseInputsFrom b k C).elseifCount = b.elseifCount ∧
        (addCaseInputsFrom b k C).elseCount = b.elseCount ∧
        b.nextCid ≤ (addCaseInputsFrom b k C).nextCid ∧
        (((addCaseInputsFrom b k C).inputList.map (fun x => x.cid)).Nodup) ∧
        (∀ x ∈ (addCaseInputsFrom b k C).inputList,
          x.cid < (addCaseInputsFrom b k C).nextCid) := by
  induction C with
  | nil =>
    intro k b pre ld hsplit hlen hldT hpreN hldpre hTdisj hTnd hcidN hcidLt
    refine ⟨[], ?_, rfl, rfl, rfl, rfl, Nat.le_refl _, hcidN, hcidLt⟩
    simp only [addCaseInputsFrom, List.map_nil, List.flatten_nil, List.append_nil]
    rw [hsplit]
    have hlo : leftoverOut k ([] : List (Option Target × Option Target)).length ld
        = leftoverInputs ld := by
      cases ld with
      | none => rfl
      | some c =>
        show leftoverOut k 0 (some c) = _
        simp [leftoverOut, leftoverInputs, dInRangeK_zero]
    rw [hlo]
  | cons p C' ih =>
    intro k b pre ld hsplit hlen hldT hpreN hldpre hTdisj hTnd hcidN hcidLt
    have hp12 : ∀ t, p.1 = some t → p.2 ≠ some t := pairNodup_fst_snd p C' hTnd
    have hdisjC : ∀ t ∈ pairTargets C', p.1 ≠ some t ∧ p.2 ≠ some t := pairNodup_disj p C' hTnd
    have hTndC : (pairTargets C').Nodup := pairNodup_tail p C' hTnd
    have hpreT : ∀ t, p.1 = some t ∨ p.2 = some t → ∀ x ∈ pre, x.target ≠ some t :=
      fun t h x hx => hTdisj t (mem_pairTargets_head p C' t h) x hx
    simp only [addCaseInputsFrom]
    cases ld with
    | none =>
      simp only [leftoverInputs] at hsplit
      have hIFb : ∀ x ∈ b.inputList, x.name ≠ SlotName.ifName (decimalStr k) := by
        intro x hx
        rw [hsplit] at hx
        exact (hpreN k (Nat.le_refl k) x (by simpa using hx)).1
      have hDOb : ∀ x ∈ b.inputList, x.name ≠ SlotName.doName (decimalStr k) := by
        intro x hx
        rw [hsplit] at hx
        exact (hpreN k (Nat.le_refl k) x (by simpa using hx)).2
      have hstep := addCaseStep_insert b k p pre [] hsplit hlen hIFb hDOb
        (fun r hr => by simp at hr)
        hcidLt hpreT
        (fun t _ x hx => by simp at hx)
        hp12
      have hsplit' : (addCaseStep b k p).inputList
          = (pre ++ caseInputs (CaseData.mk (decimalStr k) b.nextCid (b.nextCid + 1) p.1 p.2)) ++ leftoverInputs none := by
        rw [hstep]
        simp [leftoverInputs]
      have hlen' : (pre ++ caseInputs (CaseData.mk (decimalStr k) b.nextCid (b.nextCid + 1) p.1 p.2)).length = 2 * (k + 1) := by
        simp [caseInputs]
        omega
      have hpreN' : ∀ j, k + 1 ≤ j → ∀ x ∈ pre ++ caseInputs (CaseData.mk (decimalStr k) b.nextCid (b.nextCid + 1) p.1 p.2),
          x.name ≠ SlotName.ifName (decimalStr j) ∧ x.name ≠ SlotName.doName (decimalStr j) := by
        intro j hj x hx
        rcases List.mem_append.mp hx with hx | hx
        · exact hpreN j (by omega) x hx
        · have hne : decimalStr k ≠ decimalStr j := fun he => by
            have := decimalStr_inj he
            omega
          simp [caseInputs] at hx
          rcases hx with rfl | rfl <;> simp [hne]
      have hTdisj' : ∀ t ∈ pairTargets C', ∀ x ∈ pre ++ caseInputs (CaseData.mk (decimalStr k) b.nextCid (b.nextCid + 1) p.1 p.2),
          x.target ≠ some t := by
        intro t ht x hx
        rcases List.mem_append.mp hx with hx | hx
        · exact hTdisj t (by rw [pairTargets_cons]; exact List.mem_append_right _ ht) x hx
        · simp [caseInputs] at hx
          rcases hx with rfl | rfl
          · exact (hdisjC t ht).1
          · exact (hdisjC t ht).2
      have hcidN' : (((addCaseStep b k p).inputList.map (fun x => x.cid)).Nodup) := by
        rw [hstep]
        have h0 : ((pre ++ ([] : List Input)).map (fun x => x.cid)).Nodup := by
          rw [← hsplit]
          exact hcidN
        have hLt0 : ∀ x ∈ pre ++ ([] : List Input), x.cid < b.nextCid := by
          rw [← hsplit]
          exact hcidLt
        have h1 := cids_nodup_extend pre [] b.nextCid
          (Input.mk (.ifName (decimalStr k)) .value b.nextCid p.1)
          (Input.mk (.doName (decimalStr k)) .statement (b.nextCid + 1) p.2)
          h0 hLt0 rfl rfl
        simpa [caseInputs] using h1
      have hcidLt' : ∀ x ∈ (addCaseStep b k p).inputList,
          x.cid < (addCaseStep b k p).nextCid := by
        rw [hstep]
        intro x hx
        show x.cid < b.nextCid + 2
        simp [caseInputs] at hx
        rcases hx with hx | rfl | rfl
        · have := hcidLt x (by rw [hsplit]; simpa using hx)
          omega
        · show b.nextCid < b.nextCid + 2
          omega
        · show b.nextCid + 1 < b.nextCid + 2
          omega
      obtain ⟨ncs', hA1, hA2, hA3, hA4, hA5, hA6, hA7, hA8⟩ :=
        ih (k + 1) (addCaseStep b k p) (pre ++ caseInputs (CaseData.mk (decimalStr k) b.nextCid (b.nextCid + 1) p.1 p.2)) none
          hsplit' hlen' (fun c h => Option.noConfusion h) hpreN'
          (fun c h => Option.noConfusion h) hTdisj' hTndC hcidN' hcidLt'
      refine ⟨CaseData.mk (decimalStr k) b.nextCid (b.nextCid + 1) p.1 p.2 :: ncs', ?_, ?_, ?_, ?_, ?_, ?_, hA7, hA8⟩
      · rw [hA1]
        simp [leftoverOut, List.append_assoc]
      · rw [List.map_cons, hA2]
      · simp only [List.map_cons, hA3, List.length_cons, range_map_decimal_succ]
      · rw [hA4, hstep]
      · rw [hA5, hstep]
      · refine Nat.le_trans ?_ hA6
        rw [hstep]
        exact Nat.le_add_right b.nextCid 2
    | some c =>
      obtain ⟨hcT1, hcT2⟩ := hldT c rfl
      simp only [leftoverInputs] at hsplit
      have hcidN2 : ((pre ++ caseInputs c).map (fun x => x.cid)).Nodup := by
        rw [← hsplit]
        exact hcidN
      have hciLt : c.ifCid < b.nextCid := by
        have h1 := hcidLt (Input.mk (.ifName c.d) .value c.ifCid c.ifT)
          (by rw [hsplit]; simp [caseInputs])
        exact h1
      have hcdoLt : c.doCid < b.nextCid := by
        have h1 := hcidLt (Input.mk (.doName c.d) .statement c.doCid c.doT)
          (by rw [hsplit]; simp [caseInputs])
        exact h1
      by_cases hcd : c.d = decimalStr k
      · have hsplit0 : b.inputList = pre ++ caseInputs c ++ [] := by
          rw [hsplit]
          simp
        obtain ⟨hIfDo, hpreC⟩ := cids_facts_of_append_pair pre c hcidN2
        have hstep := addCaseStep_reuse b k p pre [] c hsplit0 hcd
          (hpreN k (Nat.le_refl k))
          hIfDo hpreC
          (fun x hx => by simp at hx)
          hpreT
          (fun t _ x hx => by simp at hx)
          (Or.inl ⟨hcT1, hcT2⟩)
          hp12
        have hsplit' : (addCaseStep b k p).inputList
            = (pre ++ caseInputs (CaseData.mk (decimalStr k) c.ifCid c.doCid p.1 p.2)) ++ leftoverInputs none := by
          rw [hstep]
          simp [leftoverInputs]
        have hlen' : (pre ++ caseInputs (CaseData.mk (decimalStr k) c.ifCid c.doCid p.1 p.2)).length = 2 * (k + 1) := by
          simp [caseInputs]
          omega
        have hpreN' : ∀ j, k + 1 ≤ j → ∀ x ∈ pre ++ caseInputs (CaseData.mk (decimalStr k) c.ifCid c.doCid p.1 p.2),
            x.name ≠ SlotName.ifName (decimalStr j) ∧ x.name ≠ SlotName.doName (decimalStr j) := by
          intro j hj x hx
          rcases List.mem_append.mp hx with hx | hx
          · exact hpreN j (by omega) x hx
          · have hne : decimalStr k ≠ decimalStr j := fun he => by
              have := decimalStr_inj he
              omega
            simp [caseInputs] at hx
            rcases hx with rfl | rfl <;> simp [hne]
        have hTdisj' : ∀ t ∈ pairTargets C', ∀ x ∈ pre ++ caseInputs (CaseData.mk (decimalStr k) c.ifCid c.doCid p.1 p.2),
            x.target ≠ some t := by
          intro t ht x hx
          rcases List.mem_append.mp hx with hx | hx
          · exact hTdisj t (by rw [pairTargets_cons]; exact List.mem_append_right _ ht) x hx
          · simp [caseInputs] at hx
            rcases hx with rfl | rfl
            · exact (hdisjC t ht).1
            · exact (hdisjC t ht).2
        have hcidN' : (((addCaseStep b k p).inputList.map (fun x => x.cid)).Nodup) := by
          rw [hstep]
          have h1 : ((pre ++ caseInputs (CaseData.mk (decimalStr k) c.ifCid c.doCid p.1 p.2) ++ [] : List Input).map (fun x => x.cid))
              = (pre ++ caseInputs c).map (fun x => x.cid) := by
            simp [caseInputs]
          rw [h1]
          exact hcidN2
        have hcidLt' : ∀ x ∈ (addCaseStep b k p).inputList,
            x.cid < (addCaseStep b k p).nextCid := by
          rw [hstep]
          intro x hx
          show x.cid < b.nextCid
          simp [caseInputs] at hx
          rcases hx with hx | rfl | rfl
          · exact hcidLt x (by rw [hsplit]; exact List.mem_append_left _ hx)
          · exact hciLt
          · exact hcdoLt
        obtain ⟨ncs', hA1, hA2, hA3, hA4, hA5, hA6, hA7, hA8⟩ :=
          ih (k + 1) (addCaseStep b k p) (pre ++ caseInputs (CaseData.mk (decimalStr k) c.ifCid c.doCid p.1 p.2)) none
            hsplit' hlen' (fun c' h => Option.noConfusion h) hpreN'
            (fun c' h => Option.noConfusion h) hTdisj' hTndC hcidN' hcidLt'
        refine ⟨CaseData.mk (decimalStr k) c.ifCid c.doCid p.1 p.2 :: ncs', ?_, ?_, ?_, ?_, ?_, ?_, hA7, hA8⟩
        · rw [hA1]
          have hlo : leftoverOut k ((p :: C').length) (some c) = [] := by
            simp [leftoverOut, hcd, dInRangeK_head]
          rw [hlo]
          simp [leftoverOut, List.append_assoc]
        · rw [List.map_cons, hA2]
        · simp only [List.map_cons, hA3, List.length_cons, range_map_decimal_succ]
        · rw [hA4, hstep]
        · rw [hA5, hstep]
        · refine Nat.le_trans ?_ hA6
          rw [hstep]
      · have hIFb : ∀ x ∈ b.inputList, x.name ≠ SlotName.ifName (decimalStr k) := by
          intro x hx
          rw [hsplit] at hx
          rcases List.mem_append.mp hx with hx | hx
          · exact (hpreN k (Nat.le_refl k) x hx).1
          · simp [caseInputs] at hx
            rcases hx with rfl | rfl
            · simpa using hcd
            · simp
        have hDOb : ∀ x ∈ b.inputList, x.name ≠ SlotName.doName (decimalStr k) := by
          intro x hx
          rw [hsplit] at hx
          rcases List.mem_append.mp hx with hx | hx
          · exact (hpreN k (Nat.le_refl k) x hx).2
          · simp [caseInputs] at hx
            rcases hx with rfl | rfl
            · simp
            · simpa using hcd
        have hfirst : ∀ r ∈ (caseInputs c).head?, ∀ x ∈ pre, x.name ≠ r.name := by
          intro r hr x hx
          simp [caseInputs] at hr
          subst hr
          exact (hldpre c rfl x hx).1
        have hrestT : ∀ t, p.1 = some t ∨ p.2 = some t → ∀ x ∈ caseInputs c,
            x.target ≠ some t := by
          intro t _ x hx
          simp [caseInputs] at hx
          rcases hx with rfl | rfl
          · show c.ifT ≠ some t
            rw [hcT1]
            simp
          · show c.doT ≠ some t
            rw [hcT2]
            simp
        have hstep := addCaseStep_insert b k p pre (caseInputs c) hsplit hlen hIFb hDOb
          hfirst hcidLt hpreT hrestT hp12
        have hsplit' : (addCaseStep b k p).inputList
            = (pre ++ caseInputs (CaseData.mk (decimalStr k) b.nextCid (b.nextCid + 1) p.1 p.2)) ++ leftoverInputs (some c) := by
          rw [hstep]
          simp [leftoverInputs]
        have hlen' : (pre ++ caseInputs (CaseData.mk (decimalStr k) b.nextCid (b.nextCid + 1) p.1 p.2)).length = 2 * (k + 1) := by
          simp [caseInputs]
          omega
        have hldT' : ∀ c', some c = some c' → c'.ifT = none ∧ c'.doT = none := by
          intro c' h
          injection h with h
          subst h
          exact ⟨hcT1, hcT2⟩
        have hpreN' : ∀ j, k + 1 ≤ j → ∀ x ∈ pre ++ caseInputs (CaseData.mk (decimalStr k) b.nextCid (b.nextCid + 1) p.1 p.2),
            x.name ≠ SlotName.ifName (decimalStr j) ∧ x.name ≠ SlotName.doName (decimalStr j) := by
          intro j hj x hx
          rcases List.mem_append.mp hx with hx | hx
          · exact hpreN j (by omega) x hx
          · have hne : decimalStr k ≠ decimalStr j := fun he => by
              have := decimalStr_inj he
              omega
            simp [caseInputs] at hx
            rcases hx with rfl | rfl <;> simp [hne]
        have hldpre' : ∀ c', some c = some c' → ∀ x ∈ pre ++ caseInputs (CaseData.mk (decimalStr k) b.nextCid (b.nextCid + 1) p.1 p.2),
            x.name ≠ SlotName.ifName c'.d ∧ x.name ≠ SlotName.doName c'.d := by
          intro c' h x hx
          injection h with h
          subst h
          rcases List.mem_append.mp hx with hx | hx
          · exact hldpre c rfl x hx
          · have hne : decimalStr k ≠ c.d := fun he => hcd he.symm
            simp [caseInputs] at hx
            rcases hx with rfl | rfl <;> simp [hne]
        have hTdisj' : ∀ t ∈ pairTargets C', ∀ x ∈ pre ++ caseInputs (CaseData.mk (decimalStr k) b.nextCid (b.nextCid + 1) p.1 p.2),
            x.target ≠ some t := by
          intro t ht x hx
          rcases List.mem_append.mp hx with hx | hx
          · exact hTdisj t (by rw [pairTargets_cons]; exact List.mem_append_right _ ht) x hx
          · simp [caseInputs] at hx
            rcases hx with rfl | rfl
            · exact (hdisjC t ht).1
            · exact (hdisjC t ht).2
        have hcidN' : (((addCaseStep b k p).inputList.map (fun x => x.cid)).Nodup) := by
          rw [hstep]
          have hLt0 : ∀ x ∈ pre ++ caseInputs c, x.cid < b.nextCid := by
            rw [← hsplit]
            exact hcidLt
          have h1 := cids_nodup_extend pre (caseInputs c) b.nextCid
            (Input.mk (.ifName (decimalStr k)) .value b.nextCid p.1)
            (Input.mk (.doName (decimalStr k)) .statement (b.nextCid + 1) p.2)
            hcidN2 hLt0 rfl rfl
          simpa [caseInputs] using h1
        have hcidLt' : ∀ x ∈ (addCaseStep b k p).inputList,
            x.cid < (addCaseStep b k p).nextCid := by
          rw [hstep]
          intro x hx
          show x.cid < b.nextCid + 2
          simp [caseInputs] at hx
          rcases hx with hx | rfl | rfl | rfl | rfl
          · have := hcidLt x (by rw [hsplit]; exact List.mem_append_left _ hx)
            omega
          · show b.nextCid < b.nextCid + 2
            omega
          · show b.nextCid + 1 < b.nextCid + 2
            omega
          · show c.ifCid < b.nextCid + 2
            omega
          · show c.doCid < b.nextCid + 2
            omega
        obtain ⟨ncs', hA1, hA2, hA3, hA4, hA5, hA6, hA7, hA8⟩ :=
          ih (k + 1) (addCaseStep b k p) (pre ++ caseInputs (CaseData.mk (decimalStr k) b.nextCid (b.nextCid + 1) p.1 p.2)) (some c)
            hsplit' hlen' hldT' hpreN' hldpre' hTdisj' hTndC hcidN' hcidLt'
        refine ⟨CaseData.mk (decimalStr k) b.nextCid (b.nextCid + 1) p.1 p.2 :: ncs', ?_, ?_, ?_, ?_, ?_, ?_, hA7, hA8⟩
        · rw [hA1]
          have hlo : leftoverOut (k + 1) C'.length (some c)
              = leftoverOut k ((p :: C').length) (some c) := by
            simp only [leftoverOut, List.length_cons, dInRangeK_succ c.d k C'.length hcd]
          rw [hlo]
          simp [List.append_assoc]
        · rw [List.map_cons, hA2]
        · simp only [List.map_cons, hA3, List.length_cons, range_map_decimal_succ]
        · rw [hA4, hstep]
        · rw [hA5, hstep]
        · refine Nat.le_trans ?_ hA6
          rw [hstep]
          exact Nat.le_add_right b.nextCid 2

theorem addCase_phase (b1 : Block) (c0 : CaseData)
    (P : List (Option Target × Option Target))
    (hsplit : b1.inputList = caseInputs c0)
    (hc0P : (c0.ifT = none ∧ c0.doT = none) ∨ P.head? = some (c0.ifT, c0.doT))
    (hTnd : (pairTargets P).Nodup)
    (hT1 : (b1.inputList.filterMap (fun i => i.target)).Nodup)
    (hcidN1 : ((b1.inputList.map (fun x => x.cid)).Nodup))
    (hcidLt1 : ∀ x ∈ b1.inputList, x.cid < b1.nextCid) :
    ∃ ncs : List CaseData,
      (addCaseInputsFrom b1 0 P).inputList = (ncs.map caseInputs).flatten ∧
      ncs.map (fun c => (c.ifT, c.doT))
        = P ++ (if dInRangeK c0.d 0 P.length then []
                else [((none : Option Target), (none : Option Target))]) ∧
      ncs.map (fun c => c.d)
        = (List.range P.length).map decimalStr
            ++ (if dInRangeK c0.d 0 P.length then [] else [c0.d]) ∧
      (addCaseInputsFrom b1 0 P).elseifCount = b1.elseifCount ∧
      (addCaseInputsFrom b1 0 P).elseCount = b1.elseCount ∧
      b1.nextCid ≤ (addCaseInputsFrom b1 0 P).nextCid ∧
      (((addCaseInputsFrom b1 0 P).inputList.map (fun x => x.cid)).Nodup) ∧
      (∀ x ∈ (addCaseInputsFrom b1 0 P).inputList,
        x.cid < (addCaseInputsFrom b1 0 P).nextCid) := by
  have hci : c0.ifCid < b1.nextCid :=
    hcidLt1 (Input.mk (.ifName c0.d) .value c0.ifCid c0.ifT) (by rw [hsplit]; simp [caseInputs])
  have hcdo : c0.doCid < b1.nextCid :=
    hcidLt1 (Input.mk (.doName c0.d) .statement c0.doCid c0.doT) (by rw [hsplit]; simp [caseInputs])
  cases P with
  | nil =>
    have hc0 : c0.ifT = none ∧ c0.doT = none := by
      rcases hc0P with h | h
      · exact h
      · simp at h
    refine ⟨[CaseData.mk c0.d c0.ifCid c0.doCid none none], ?_, ?_, ?_, rfl, rfl,
      Nat.le_refl _, hcidN1, hcidLt1⟩
    · show b1.inputList = _
      rw [hsplit]
      simp [caseInputs, hc0.1, hc0.2]
    · simp [dInRangeK]
    · simp [dInRangeK]
  | cons p0 P' =>
    have hp12 := pairNodup_fst_snd p0 P' hTnd
    have hdisjC := pairNodup_disj p0 P' hTnd
    have hTndC := pairNodup_tail p0 P' hTnd
    have hrange0 : (List.range (P'.length + 1)).map decimalStr
        = decimalStr 0 :: (List.range P'.length).map (fun j => decimalStr (1 + j)) := by
      have h0 : (List.range (P'.length + 1)).map decimalStr
          = (List.range (P'.length + 1)).map (fun j => decimalStr (0 + j)) := by
        apply List.map_congr_left
        intro j _
        rw [Nat.zero_add]
      rw [h0, range_map_decimal_succ]
    simp only [addCaseInputsFrom]
    by_cases hd0 : c0.d = decimalStr 0
    · have hcT : (c0.ifT = none ∧ c0.doT = none) ∨ (c0.ifT = p0.1 ∧ c0.doT = p0.2) := by
        rcases hc0P with h | h
        · exact Or.inl h
        · have hp : p0 = (c0.ifT, c0.doT) := by simpa using h
          exact Or.inr ⟨by rw [hp], by rw [hp]⟩
      have hcidN2 : ((([] : List Input) ++ caseInputs c0).map (fun x => x.cid)).Nodup := by
        rw [List.nil_append, ← hsplit]
        exact hcidN1
      obtain ⟨hIfDo, -⟩ := cids_facts_of_append_pair [] c0 hcidN2
      have hstep := addCaseStep_reuse b1 0 p0 [] [] c0
        (by rw [hsplit]; simp) hd0
        (fun x hx => by simp at hx)
        hIfDo
        (fun x hx => by simp at hx)
        (fun x hx => by simp at hx)
        (fun t _ x hx => by simp at hx)
        (fun t _ x hx => by simp at hx)
        hcT hp12
      have hsplitL : (addCaseStep b1 0 p0).inputList
          = caseInputs (CaseData.mk (decimalStr 0) c0.ifCid c0.doCid p0.1 p0.2) ++ leftoverInputs none := by
        rw [hstep]
        simp [leftoverInputs]
      have hpreNL : ∀ j, 1 ≤ j → ∀ x ∈ caseInputs (CaseData.mk (decimalStr 0) c0.ifCid c0.doCid p0.1 p0.2),
          x.name ≠ SlotName.ifName (decimalStr j) ∧ x.name ≠ SlotName.doName (decimalStr j) := by
        intro j hj x hx
        have hne : decimalStr 0 ≠ decimalStr j := fun he => by
          have := decimalStr_inj he
          omega
        simp [caseInputs] at hx
        rcases hx with rfl | rfl <;> simp [hne]
      have hTdisjL : ∀ t ∈ pairTargets P', ∀ x ∈ caseInputs (CaseData.mk (decimalStr 0) c0.ifCid c0.doCid p0.1 p0.2),
          x.target ≠ some t := by
        intro t ht x hx
        simp [caseInputs] at hx
        rcases hx with rfl | rfl
        · exact (hdisjC t ht).1
        · exact (hdisjC t ht).2
      have hcidNL : (((addCaseStep b1 0 p0).inputList.map (fun x => x.cid)).Nodup) := by
        rw [hstep]
        have h1 : (([] ++ caseInputs (CaseData.mk (decimalStr 0) c0.ifCid c0.doCid p0.1 p0.2) ++ [] : List Input).map (fun x => x.cid))
            = (caseInputs c0).map (fun x => x.cid) := by
          simp [caseInputs]
        rw [h1, ← hsplit]
        exact hcidN1
      have hcidLtL : ∀ x ∈ (addCaseStep b1 0 p0).inputList,
          x.cid < (addCaseStep b1 0 p0).nextCid := by
        rw [hstep]
        intro x hx
        show x.cid < b1.nextCid
        simp [caseInputs] at hx
        rcases hx with rfl | rfl
        · exact hci
        · exact hcdo
      obtain ⟨ncs', hA1, hA2, hA3, hA4, hA5, hA6, hA7, hA8⟩ :=
        addCaseFrom_spec P' 1 (addCaseStep b1 0 p0) (caseInputs (CaseData.mk (decimalStr 0) c0.ifCid c0.doCid p0.1 p0.2)) none
          hsplitL (by simp [caseInputs]) (fun c h => Option.noConfusion h) hpreNL
          (fun c h => Option.noConfusion h) hTdisjL hTndC hcidNL hcidLtL
      have hin : dInRangeK c0.d 0 ((p0 :: P').length) = true := by
        rw [hd0, List.length_cons]
        exact dInRangeK_head 0 P'.length
      refine ⟨CaseData.mk (decimalStr 0) c0.ifCid c0.doCid p0.1 p0.2 :: ncs', ?_, ?_, ?_, ?_, ?_, ?_, hA7, hA8⟩
      · rw [hA1]
        simp [leftoverOut]
      · rw [List.map_cons, hA2, hin]
        simp
      · rw [List.map_cons, hA3, hin]
        simp only [if_true, List.append_nil, List.length_cons, hrange0]
      · rw [hA4, hstep]
      · rw [hA5, hstep]
      · refine Nat.le_trans ?_ hA6
        rw [hstep]
    · have hstep : addCaseStep b1 0 p0
          = Block.mk (caseInputs (CaseData.mk (decimalStr 0) b1.nextCid (b1.nextCid + 1) p0.1 p0.2) ++ caseInputs (CaseData.mk c0.d c0.ifCid c0.doCid none none))
              b1.elseifCount b1.elseCount (b1.nextCid + 2) := by
        rcases hc0P with hc0 | hhead
        · have hIFb : ∀ x ∈ b1.inputList, x.name ≠ SlotName.ifName (decimalStr 0) := by
            intro x hx
            rw [hsplit] at hx
            simp [caseInputs] at hx
            rcases hx with rfl | rfl <;> simp [hd0]
          have hDOb : ∀ x ∈ b1.inputList, x.name ≠ SlotName.doName (decimalStr 0) := by
            intro x hx
            rw [hsplit] at hx
            simp [caseInputs] at hx
            rcases hx with rfl | rfl <;> simp [hd0]
          have h := addCaseStep_insert b1 0 p0 [] (caseInputs c0)
            (by rw [hsplit]; simp) (by simp)
            hIFb hDOb
            (fun r hr x hx => by simp at hx)
            hcidLt1
            (fun t _ x hx => by simp at hx)
            (fun t _ x hx => by
              simp [caseInputs] at hx
              rcases hx with rfl | rfl
              · show c0.ifT ≠ some t
                rw [hc0.1]
                simp
              · show c0.doT ≠ some t
                rw [hc0.2]
                simp)
            hp12
          rw [h]
          refine block_eq_of_parts _ _ _ _ _ ?_ rfl rfl rfl
          simp [caseInputs, hc0.1, hc0.2]
        · have hp : p0 = (c0.ifT, c0.doT) := by simpa using hhead
          have h := addCaseStep_insert_steal b1 c0 hsplit hd0 hcidLt1 hT1
          rw [hp]
          exact h
      have hsplitL : (addCaseStep b1 0 p0).inputList
          = caseInputs (CaseData.mk (decimalStr 0) b1.nextCid (b1.nextCid + 1) p0.1 p0.2) ++ leftoverInputs (some (CaseData.mk c0.d c0.ifCid c0.doCid none none)) := by
        rw [hstep]
        rfl
      have hpreNL : ∀ j, 1 ≤ j → ∀ x ∈ caseInputs (CaseData.mk (decimalStr 0) b1.nextCid (b1.nextCid + 1) p0.1 p0.2),
          x.name ≠ SlotName.ifName (decimalStr j) ∧ x.name ≠ SlotName.doName (decimalStr j) := by
        intro j hj x hx
        have hne : decimalStr 0 ≠ decimalStr j := fun he => by
          have := decimalStr_inj he
          omega
        simp [caseInputs] at hx
        rcases hx with rfl | rfl <;> simp [hne]
      have hldpreL : ∀ c', some (CaseData.mk c0.d c0.ifCid c0.doCid none none) = some c' → ∀ x ∈ caseInputs (CaseData.mk (decimalStr 0) b1.nextCid (b1.nextCid + 1) p0.1 p0.2),
          x.name ≠ SlotName.ifName c'.d ∧ x.name ≠ SlotName.doName c'.d := by
        intro c' h x hx
        injection h with h
        subst h
        have hne : decimalStr 0 ≠ c0.d := fun he => hd0 he.symm
        simp [caseInputs] at hx
        rcases hx with rfl | rfl <;> simp [hne]
      have hTdisjL : ∀ t ∈ pairTargets P', ∀ x ∈ caseInputs (CaseData.mk (decimalStr 0) b1.nextCid (b1.nextCid + 1) p0.1 p0.2),
          x.target ≠ some t := by
        intro t ht x hx
        simp [caseInputs] at hx
        rcases hx with rfl | rfl
        · exact (hdisjC t ht).1
        · exact (hdisjC t ht).2
      have hcidNL : (((addCaseStep b1 0 p0).inputList.map (fun x => x.cid)).Nodup) := by
        rw [hstep]
        have h0 : ((([] : List Input) ++ caseInputs (CaseData.mk c0.d c0.ifCid c0.doCid none none)).map (fun x => x.cid)).Nodup := by
          have h1 : (([] : List Input) ++ caseInputs (CaseData.mk c0.d c0.ifCid c0.doCid none none)).map (fun x => x.cid)
              = b1.inputList.map (fun x => x.cid) := by
            rw [hsplit]
            simp [caseInputs]
          rw [h1]
          exact hcidN1
        have hLt0 : ∀ x ∈ ([] : List Input) ++ caseInputs (CaseData.mk c0.d c0.ifCid c0.doCid none none), x.cid < b1.nextCid := by
          intro x hx
          simp [caseInputs] at hx
          rcases hx with rfl | rfl
          · exact hci
          · exact hcdo
        have h1 := cids_nodup_extend [] (caseInputs (CaseData.mk c0.d c0.ifCid c0.doCid none none)) b1.nextCid
          (Input.mk (.ifName (decimalStr 0)) .value b1.nextCid p0.1)
          (Input.mk (.doName (decimalStr 0)) .statement (b1.nextCid + 1) p0.2)
          h0 hLt0 rfl rfl
        simpa [caseInputs] using h1
      have hcidLtL : ∀ x ∈ (addCaseStep b1 0 p0).inputList,
          x.cid < (addCaseStep b1 0 p0).nextCid := by
        rw [hstep]
        intro x hx
        show x.cid < b1.nextCid + 2
        simp [caseInputs] at hx
        rcases hx with rfl | rfl | rfl | rfl
        · show b1.nextCid < b1.nextCid + 2
          omega
        · show b1.nextCid + 1 < b1.nextCid + 2
          omega
        · show c0.ifCid < b1.nextCid + 2
          omega
        · show c0.doCid < b1.nextCid + 2
          omega
      obtain ⟨ncs', hA1, hA2, hA3, hA4, hA5, hA6, hA7, hA8⟩ :=
        addCaseFrom_spec P' 1 (addCaseStep b1 0 p0) (caseInputs (CaseData.mk (decimalStr 0) b1.nextCid (b1.nextCid + 1) p0.1 p0.2)) (some (CaseData.mk c0.d c0.ifCid c0.doCid none none))
          hsplitL (by simp [caseInputs]) (fun c' h => by injection h with h; subst h; exact ⟨rfl, rfl⟩)
          hpreNL hldpreL hTdisjL hTndC hcidNL hcidLtL
      have hd01 : dInRangeK c0.d 0 (P'.length + 1) = dInRangeK c0.d 1 P'.length :=
        dInRangeK_succ c0.d 0 P'.length hd0
      by_cases hr : dInRangeK c0.d 1 P'.length = true
      · refine ⟨CaseData.mk (decimalStr 0) b1.nextCid (b1.nextCid + 1) p0.1 p0.2 :: ncs', ?_, ?_, ?_, ?_, ?_, ?_, hA7, hA8⟩
        · rw [hA1]
          have hlo : leftoverOut 1 P'.length (some (CaseData.mk c0.d c0.ifCid c0.doCid none none)) = [] := by
            simp [leftoverOut, hr]
          rw [hlo]
          simp
        · rw [List.map_cons, hA2, List.length_cons, hd01, hr]
          simp
        · rw [List.map_cons, hA3, List.length_cons, hd01, hr]
          simp only [if_true, List.append_nil, hrange0]
        · rw [hA4, hstep]
        · rw [hA5, hstep]
        · refine Nat.le_trans ?_ hA6
          rw [hstep]
          exact Nat.le_add_right b1.nextCid 2
      · refine ⟨CaseData.mk (decimalStr 0) b1.nextCid (b1.nextCid + 1) p0.1 p0.2 :: (ncs' ++ [CaseData.mk c0.d c0.ifCid c0.doCid none none]), ?_, ?_, ?_, ?_, ?_, ?_, hA7, hA8⟩
        · rw [hA1]
          have hlo : leftoverOut 1 P'.length (some (CaseData.mk c0.d c0.ifCid c0.doCid none none)) = caseInputs (CaseData.mk c0.d c0.ifCid c0.doCid none none) := by
            simp [leftoverOut, hr]
          rw [hlo]
          simp
        · rw [List.map_cons, List.map_append, hA2, List.length_cons, hd01,
            if_neg (by simpa using hr)]
          simp
        · rw [List.map_cons, List.map_append, hA3, List.length_cons, hd01,
            if_neg (by simpa using hr)]
          simp [hrange0]
        · rw [hA4, hstep]
        · rw [hA5, hstep]
        · refine Nat.le_trans ?_ hA6
          rw [hstep]
          exact Nat.le_add_right b1.nextCid 2

theorem finalize_struct (b : Block) (c0 : CaseData) (cs' : List CaseData) (e : Option ElseData)
    (W : WfBlock b (c0 :: cs') e) :
    ∃ (ncs : List CaseData) (ne : Option ElseData),
      (finalizeConnections b).inputList = casesToInputs ncs ne ∧
      ncs.map (fun c => (c.ifT, c.doT))
        = (populatedOf (c0 :: cs')) ++ (if dInRangeK c0.d 0 (populatedOf (c0 :: cs')).length then []
                else [((none : Option Target), (none : Option Target))]) ∧
      ncs.map (fun c => c.d)
        = (List.range (populatedOf (c0 :: cs')).length).map decimalStr
            ++ (if dInRangeK c0.d 0 (populatedOf (c0 :: cs')).length then [] else [c0.d]) ∧
      (elseInputs ne).map (fun i => (i.name, i.kind, i.target))
        = elseTShape (e.bind (fun ed => ed.t)) ∧
      (finalizeConnections b).elseifCount = max (((populatedOf (c0 :: cs')).length : Int) - 1) 0 ∧
      (finalizeConnections b).elseCount
        = (if (e.bind (fun ed => ed.t)).isSome then 1 else 0) ∧
      (((finalizeConnections b).inputList.map (fun i => i.cid)).Nodup) ∧
      (∀ i ∈ (finalizeConnections b).inputList, i.cid < (finalizeConnections b).nextCid) := by
  obtain ⟨hList, hNe, hD, hT, hC, hLt⟩ := W
  have hlen2 : 2 ≤ b.inputList.length := by
    rw [hList, len_casesToInputs]
    simp only [List.length_cons]
    omega
  have hnames : (b.inputList.map (fun x => x.name)).Nodup := by
    rw [hList]
    exact names_nodup_cases _ _ hD
  have htake : b.inputList.take 2 = caseInputs c0 := by
    rw [hList]
    exact take2_casesToInputs c0 cs' e
  have hdel : deleteDynamicInputs b
      = Block.mk (caseInputs c0) b.elseifCount b.elseCount b.nextCid := by
    rw [deleteDynamicInputs_spec b hlen2 hnames, htake]
  have hcoll : collectTargetCaseConns b = (populatedOf (c0 :: cs')) := by
    simp only [collectTargetCaseConns]
    rw [hList, collect_cases]
  have helse : (getInput b SlotName.elseName).bind (fun i => i.target)
      = e.bind (fun ed => ed.t) := getInput_else_cases b _ e hList
  have hfm : b.inputList.filterMap (fun i => i.target)
      = pairTargets (populatedOf (c0 :: cs')) ++ (e.bind (fun ed => ed.t)).toList := by
    rw [hList, filterMap_casesToInputs, filterMap_elseInputs]
  have hTnd : (pairTargets (populatedOf (c0 :: cs'))).Nodup := by
    have h2 := hT
    rw [hfm] at h2
    exact (List.nodup_append.mp h2).1
  have hEdisj : ∀ t, e.bind (fun ed => ed.t) = some t
      → t ∉ pairTargets (populatedOf (c0 :: cs')) := by
    intro t het hmem
    have h2 := hT
    rw [hfm, het] at h2
    have hd := (List.nodup_append.mp h2).2.2
    exact hd hmem (by simp)
  have hsplit0 : b.inputList = caseInputs c0 ++ casesToInputs cs' e := by
    rw [hList, casesToInputs_cons]
    simp [caseInputs]
  have hT1 : ((caseInputs c0).filterMap (fun i => i.target)).Nodup := by
    have h2 := hT
    rw [hsplit0, List.filterMap_append] at h2
    exact (List.nodup_append.mp h2).1
  have hcidN1 : ((caseInputs c0).map (fun x => x.cid)).Nodup := by
    have h2 := hC
    rw [hsplit0, List.map_append] at h2
    exact (List.nodup_append.mp h2).1
  have hcidLt1 : ∀ x ∈ caseInputs c0, x.cid < b.nextCid := fun x hx =>
    hLt x (by rw [hsplit0]; exact List.mem_append_left _ hx)
  have hc0P : (c0.ifT = none ∧ c0.doT = none)
      ∨ (populatedOf (c0 :: cs')).head? = some (c0.ifT, c0.doT) := by
    by_cases hp : c0.ifT = none ∧ c0.doT = none
    · exact Or.inl hp
    · right
      rw [populatedOf_cons_populated c0 cs' hp]
      rfl
  obtain ⟨ncs0, hB1, hB2, hB3, hB4, hB5, hB6, hB7, hB8⟩ :=
    addCase_phase (Block.mk (caseInputs c0) b.elseifCount b.elseCount b.nextCid) c0 (populatedOf (c0 :: cs')) rfl hc0P hTnd hT1 hcidN1 hcidLt1
  cases he : e.bind (fun ed => ed.t) with
  | none =>
    have hfin : finalizeConnections b
        = Block.mk
            ((addCaseInputsFrom (Block.mk (caseInputs c0) b.elseifCount b.elseCount b.nextCid) 0 (populatedOf (c0 :: cs'))).inputList)
            (max (((populatedOf (c0 :: cs')).length : Int) - 1) 0)
            0
            ((addCaseInputsFrom (Block.mk (caseInputs c0) b.elseifCount b.elseCount b.nextCid) 0 (populatedOf (c0 :: cs'))).nextCid) := by
      simp only [finalizeConnections, addCaseInputs]
      rw [hcoll, helse, he, hdel]
      simp
    refine ⟨ncs0, none, ?_, hB2, hB3, by simp [elseInputs, elseTShape], ?_, ?_, ?_, ?_⟩
    · rw [hfin]
      show (addCaseInputsFrom (Block.mk (caseInputs c0) b.elseifCount b.elseCount b.nextCid) 0 (populatedOf (c0 :: cs'))).inputList = _
      rw [hB1]
      simp [casesToInputs, elseInputs]
    · rw [hfin]
    · rw [hfin]
      simp
    · rw [hfin]
      exact hB7
    · rw [hfin]
      exact hB8
  | some t =>
    have hb2T : ∀ x ∈ (addCaseInputsFrom (Block.mk (caseInputs c0) b.elseifCount b.elseCount b.nextCid) 0 (populatedOf (c0 :: cs'))).inputList, x.target ≠ some t := by
      intro x hx hxt
      rw [hB1] at hx
      have h3 := target_mem_pairTargets_of_mem_flatten hx hxt
      rw [hB2, pairTargets_append] at h3
      have h2 : t ∈ pairTargets (populatedOf (c0 :: cs')) := by
        rcases List.mem_append.mp h3 with h | h
        · exact h
        · by_cases hq : dInRangeK c0.d 0 (populatedOf (c0 :: cs')).length
          · rw [if_pos hq] at h
            simp [pairTargets] at h
          · rw [if_neg hq] at h
            simp [pairTargets] at h
      exact hEdisj t he h2
    have helseeq := addElseInput_eq (addCaseInputsFrom (Block.mk (caseInputs c0) b.elseifCount b.elseCount b.nextCid) 0 (populatedOf (c0 :: cs'))) t hB8 hb2T
    have hfin : finalizeConnections b
        = Block.mk
            ((addCaseInputsFrom (Block.mk (caseInputs c0) b.elseifCount b.elseCount b.nextCid) 0 (populatedOf (c0 :: cs'))).inputList
              ++ [Input.mk .elseName .statement (addCaseInputsFrom (Block.mk (caseInputs c0) b.elseifCount b.elseCount b.nextCid) 0 (populatedOf (c0 :: cs'))).nextCid (some t)])
            (max (((populatedOf (c0 :: cs')).length : Int) - 1) 0)
            1
            ((addCaseInputsFrom (Block.mk (caseInputs c0) b.elseifCount b.elseCount b.nextCid) 0 (populatedOf (c0 :: cs'))).nextCid + 1) := by
      simp only [finalizeConnections, addCaseInputs]
      rw [hcoll, helse, he, hdel]
      simp only []
      rw [helseeq]
      rfl
    refine ⟨ncs0, some (ElseData.mk ((addCaseInputsFrom (Block.mk (caseInputs c0) b.elseifCount b.elseCount b.nextCid) 0 (populatedOf (c0 :: cs'))).nextCid) (some t)),
      ?_, hB2, hB3, by simp [elseInputs, elseTShape], ?_, ?_, ?_, ?_⟩
    · rw [hfin]
      show (addCaseInputsFrom (Block.mk (caseInputs c0) b.elseifCount b.elseCount b.nextCid) 0 (populatedOf (c0 :: cs'))).inputList ++ _ = _
      rw [hB1]
      simp [casesToInputs, elseInputs]
    · rw [hfin]
    · rw [hfin]
      simp
    · rw [hfin]
      show (((addCaseInputsFrom (Block.mk (caseInputs c0) b.elseifCount b.elseCount b.nextCid) 0 (populatedOf (c0 :: cs'))).inputList
          ++ [Input.mk .elseName .statement (addCaseInputsFrom (Block.mk (caseInputs c0) b.elseifCount b.elseCount b.nextCid) 0 (populatedOf (c0 :: cs'))).nextCid (some t)]).map
            (fun i => i.cid)).Nodup
      rw [List.map_append, List.nodup_append]
      refine ⟨hB7, by simp, ?_⟩
      intro a ha hb
      simp only [List.map_cons, List.map_nil, List.mem_singleton] at hb
      obtain ⟨y, hy, hya⟩ := List.mem_map.mp ha
      have := hB8 y hy
      subst hb
      omega
    · rw [hfin]
      intro i hi
      show i.cid < (addCaseInputsFrom (Block.mk (caseInputs c0) b.elseifCount b.elseCount b.nextCid) 0 (populatedOf (c0 :: cs'))).nextCid + 1
      rcases List.mem_append.mp hi with h | h
      · have := hB8 i h
        omega
      · simp at h
        subst h
        simp

theorem populatedOf_of_pairs : ∀ (ncs : List CaseData)
    (L L' : List (Option Target × Option Target)),
    ncs.map (fun c => (c.ifT, c.doT)) = L ++ L' →
    (∀ p ∈ L, ¬(p.1 = none ∧ p.2 = none)) →
    (∀ p ∈ L', p.1 = none ∧ p.2 = none) →
    populatedOf ncs = L := by
  intro ncs
  induction ncs with
  | nil =>
    intro L L' h hL hL'
    have : L = [] := (List.append_eq_nil.mp h.symm).1
    rw [this]
    rfl
  | cons c rest ih =>
    intro L L' h hL hL'
    rw [List.map_cons] at h
    cases L with
    | nil =>
      have hc : (c.ifT, c.doT) ∈ L' := by
        rw [List.nil_append] at h
        rw [← h]
        simp
      have hc2 := hL' _ hc
      rw [populatedOf_cons_unpopulated c rest ⟨hc2.1, hc2.2⟩]
      cases L'2 : L' with
      | nil =>
        rw [L'2, List.nil_append] at h
        simp at h
      | cons q L'' =>
        rw [L'2, List.nil_append] at h
        injection h with h1 h2
        exact ih [] L'' (by rw [List.nil_append]; exact h2) (fun p hp => by simp at hp)
          (fun p hp => hL' p (by rw [L'2]; exact List.mem_cons_of_mem q hp))
    | cons p Lt =>
      rw [List.cons_append] at h
      injection h with h1 h2
      have hpop : ¬(c.ifT = none ∧ c.doT = none) := by
        have := hL p (List.mem_cons_self p Lt)
        rw [← h1] at this
        exact this
      rw [populatedOf_cons_populated c rest hpop, h1]
      rw [ih Lt L' h2 (fun q hq => hL q (List.mem_cons_of_mem p hq)) hL']

theorem elseBind_of_shape (ne : Option ElseData) (eT : Option Target)
    (h : (elseInputs ne).map (fun i => (i.name, i.kind, i.target)) = elseTShape eT) :
    ne.bind (fun ed => ed.t) = eT := by
  cases ne with
  | none =>
    cases eT with
    | none => rfl
    | some t => simp [elseInputs, elseTShape] at h
  | some ed =>
    cases eT with
    | none => simp [elseInputs, elseTShape] at h
    | some t =>
      simp [elseInputs, elseTShape] at h
      simp [h]

theorem elseInputs_names_of_shape (ne : Option ElseData) (eT : Option Target)
    (h : (elseInputs ne).map (fun i => (i.name, i.kind, i.target)) = elseTShape eT) :
    (elseInputs ne).map (fun i => i.name)
      = (if eT.isSome then [SlotName.elseName] else []) := by
  cases ne with
  | none =>
    cases eT with
    | none => rfl
    | some t => simp [elseInputs, elseTShape] at h
  | some ed =>
    cases eT with
    | none => simp [elseInputs, elseTShape] at h
    | some t => simp [elseInputs]

theorem names_casesToInputs (l : List CaseData) (e' : Option ElseData) :
    (casesToInputs l e').map (fun i => i.name)
      = (l.map (fun c => c.d)).flatMap (fun d => [SlotName.ifName d, SlotName.doName d])
        ++ (elseInputs e').map (fun i => i.name) := by
  induction l with
  | nil => simp [casesToInputs]
  | cons c rest ih =>
    rw [casesToInputs_cons]
    simp only [List.map_cons, List.flatMap_cons, List.cons_append]
    rw [ih]
    rfl

theorem shape_casesToInputs (l : List CaseData) (e' : Option ElseData) :
    (casesToInputs l e').map (fun i => (i.name, i.kind, i.target))
      = ((l.map (fun c => c.d)).zip (l.map (fun c => (c.ifT, c.doT)))).flatMap
          (fun x => [(SlotName.ifName x.1, InputKind.value, x.2.1),
                     (SlotName.doName x.1, InputKind.statement, x.2.2)])
        ++ (elseInputs e').map (fun i => (i.name, i.kind, i.target)) := by
  induction l with
  | nil => simp [casesToInputs]
  | cons c rest ih =>
    rw [casesToInputs_cons]
    simp only [List.map_cons, List.zip_cons_cons, List.flatMap_cons, List.cons_append]
    rw [ih]
    rfl

theorem range_map_decimal_nodup (n : Nat) : ((List.range n).map decimalStr).Nodup :=
  (List.nodup_range n).map (fun a b h => decimalStr_inj h)

theorem not_mem_range_map_of_dInRangeK_false {d : String} {n : Nat}
    (h : ¬dInRangeK d 0 n = true) : d ∉ (List.range n).map decimalStr := by
  intro hmem
  obtain ⟨j, hj, rfl⟩ := List.mem_map.mp hmem
  rw [List.mem_range] at hj
  exact h ((dInRangeK_iff _ 0 n).mpr ⟨j, Nat.zero_le j, by omega, rfl⟩)

/-- C2: for every well-formed pre-finalize state, `finalizeConnections`
preserves every recorded attachment: the list of populated case pairs
collected after the rebuild (Condition-side and Branch-side attachments,
in order) is exactly the list collected before it — each attachment stays
on its side, paired with the same opposite-side attachment, and the
populated cases keep their relative order. -/
theorem c2_finalize_preserves_attachments (b : Block) (c0 : CaseData) (cs' : List CaseData)
    (e : Option ElseData) (W : WfBlock b (c0 :: cs') e) :
    collectTargetCaseConns (finalizeConnections b) = collectTargetCaseConns b := by
  obtain ⟨ncs, ne, h1, h2, h3, h4, h5, h6, h7, h8⟩ := finalize_struct b c0 cs' e W
  have hcoll : collectTargetCaseConns b = populatedOf (c0 :: cs') := by
    simp only [collectTargetCaseConns]
    rw [W.hList, collect_cases]
  have hpop : populatedOf ncs = populatedOf (c0 :: cs') := by
    refine populatedOf_of_pairs ncs _ _ h2 (populatedOf_populated _) ?_
    intro p hp
    by_cases hq : dInRangeK c0.d 0 (populatedOf (c0 :: cs')).length = true
    · rw [if_pos hq] at hp
      simp at hp
    · rw [if_neg hq] at hp
      simp at hp
      rw [hp]
      exact ⟨rfl, rfl⟩
  rw [hcoll]
  show collectAux (finalizeConnections b).inputList = populatedOf (c0 :: cs')
  rw [h1, collect_cases, hpop]

theorem c2_witness :
    collectTargetCaseConns (finalizeConnections (Block.mk (casesToInputs
      [CaseData.mk "5" 0 1 (some (Target.mk 10 false)) none,
       CaseData.mk "2" 2 3 none (some (Target.mk 11 false))]
      (some (ElseData.mk 4 (some (Target.mk 12 false))))) 1 0 5)) = collectTargetCaseConns (Block.mk (casesToInputs
      [CaseData.mk "5" 0 1 (some (Target.mk 10 false)) none,
       CaseData.mk "2" 2 3 none (some (Target.mk 11 false))]
      (some (ElseData.mk 4 (some (Target.mk 12 false))))) 1 0 5) :=
  c2_finalize_preserves_attachments (Block.mk (casesToInputs
      [CaseData.mk "5" 0 1 (some (Target.mk 10 false)) none,
       CaseData.mk "2" 2 3 none (some (Target.mk 11 false))]
      (some (ElseData.mk 4 (some (Target.mk 12 false))))) 1 0 5)
    (CaseData.mk "5" 0 1 (some (Target.mk 10 false)) none)
    [CaseData.mk "2" 2 3 none (some (Target.mk 11 false))]
    (some (ElseData.mk 4 (some (Target.mk 12 false))))
    ⟨rfl, by decide, by decide, by decide, by decide, by decide⟩

theorem populatedOf_result (ncs : List CaseData) (P : List (Option Target × Option Target))
    (cond : Bool)
    (h2 : ncs.map (fun c => (c.ifT, c.doT))
      = P ++ (if cond = true then [] else [((none : Option Target), (none : Option Target))]))
    (hP : ∀ p ∈ P, ¬(p.1 = none ∧ p.2 = none)) :
    populatedOf ncs = P := by
  refine populatedOf_of_pairs ncs _ _ h2 hP ?_
  intro p hp
  cases cond with
  | true =>
    simp at hp
  | false =>
    simp at hp
    rw [hp]
    exact ⟨rfl, rfl⟩

/-- C3 (counterexample): a state produced by the legacy `inputs` decoder
(`inputs="3,7"` on a fresh block) still violates the claim after
`finalizeConnections`: the rebuilt block's only case pair keeps the stale
name `IF3`/`DO3`, not the gap-free ascending discriminator `0` that the
claim requires for every run of finalize. -/
theorem c3_counterexample :
    inputNames (finalizeConnections
        (domToMutation initBlock (MutationDom.mk (some "3,7") none none)))
      = [SlotName.ifName "3", SlotName.doName "3"]
    ∧ ("3" : String) ≠ decimalStr 0 := by
  decide

/-- C3 (amended): for well-formed states whose first pair's discriminator is
the canonical `"0"` (every state built by `init` or by a previous
finalize), `finalizeConnections` yields exactly the case pairs named with
the ascending gap-free discriminators `0..n-1` — each Condition slot
immediately followed by its Branch slot, `n = max(#populated cases, 1)` —
optionally followed by one final Else slot, and no leftover stale-named
slots.  (States decoded from the legacy `inputs` attribute can have a
different first discriminator, and then the first pair survives under its
old name; see the counterexample.) -/
theorem c3_amended_canonical_names (b : Block) (c0 : CaseData) (cs' : List CaseData)
    (e : Option ElseData) (W : WfBlock b (c0 :: cs') e) (hd0 : c0.d = decimalStr 0) :
    inputNames (finalizeConnections b)
      = (List.range (max (populatedOf (c0 :: cs')).length 1)).flatMap
          (fun j => [SlotName.ifName (decimalStr j), SlotName.doName (decimalStr j)])
        ++ (if (e.bind (fun ed => ed.t)).isSome then [SlotName.elseName] else []) := by
  obtain ⟨ncs, ne, h1, h2, h3, h4, h5, h6, h7, h8⟩ := finalize_struct b c0 cs' e W
  show (finalizeConnections b).inputList.map (fun i => i.name) = _
  rw [h1, names_casesToInputs, h3, elseInputs_names_of_shape ne _ h4]
  congr 1
  rcases hn : (populatedOf (c0 :: cs')).length with _ | m
  · rw [show dInRangeK c0.d 0 0 = false from rfl]
    simp only [List.range_zero, List.map_nil, List.nil_append, hd0]
    decide
  · rw [show dInRangeK c0.d 0 (m + 1) = true from by rw [hd0]; exact dInRangeK_head 0 m]
    have hmax : max (m + 1) 1 = m + 1 := by omega
    rw [hmax]
    simp [List.flatMap_map]

theorem c3_amended_witness :
    inputNames (finalizeConnections
        (Block.mk (casesToInputs
          [CaseData.mk "0" 0 1 (some (Target.mk 10 false)) none,
           CaseData.mk "7" 2 3 none (some (Target.mk 11 false))] none) 1 0 4))
      = (List.range (max (populatedOf
            [CaseData.mk "0" 0 1 (some (Target.mk 10 false)) none,
             CaseData.mk "7" 2 3 none (some (Target.mk 11 false))]).length 1)).flatMap
          (fun j => [SlotName.ifName (decimalStr j), SlotName.doName (decimalStr j)])
        ++ (if ((none : Option ElseData).bind (fun ed => ed.t)).isSome
            then [SlotName.elseName] else []) :=
  c3_amended_canonical_names _
    (CaseData.mk "0" 0 1 (some (Target.mk 10 false)) none)
    [CaseData.mk "7" 2 3 none (some (Target.mk 11 false))]
    none
    ⟨rfl, by decide, by decide, by decide, by decide, by decide⟩
    (by decide)

/-- C4 (counterexample): in the state `[IF3, DO3, IF7(attached), DO7]` the
first case pair has both slots unattached, yet after `finalizeConnections`
both of its slots (`IF3`, `DO3`) are still present — the rebuild inserted
the renumbered populated case before it and kept the stale first pair,
refuting "finalizeConnections removes every case pair whose Condition and
Branch slots are both unattached". -/
theorem c4_counterexample :
    ((getInput (Block.mk
      [Input.mk (SlotName.ifName "3") InputKind.value 0 none,
       Input.mk (SlotName.doName "3") InputKind.statement 1 none,
       Input.mk (SlotName.ifName "7") InputKind.value 2 (some (Target.mk 20 false)),
       Input.mk (SlotName.doName "7") InputKind.statement 3 none] 1 0 4) (SlotName.ifName "3")).bind (fun i => i.target) = none
      ∧ (getInput (Block.mk
      [Input.mk (SlotName.ifName "3") InputKind.value 0 none,
       Input.mk (SlotName.doName "3") InputKind.statement 1 none,
       Input.mk (SlotName.ifName "7") InputKind.value 2 (some (Target.mk 20 false)),
       Input.mk (SlotName.doName "7") InputKind.statement 3 none] 1 0 4) (SlotName.doName "3")).bind (fun i => i.target) = none)
    ∧ SlotName.ifName "3" ∈ inputNames (finalizeConnections (Block.mk
      [Input.mk (SlotName.ifName "3") InputKind.value 0 none,
       Input.mk (SlotName.doName "3") InputKind.statement 1 none,
       Input.mk (SlotName.ifName "7") InputKind.value 2 (some (Target.mk 20 false)),
       Input.mk (SlotName.doName "7") InputKind.statement 3 none] 1 0 4))
    ∧ SlotName.doName "3" ∈ inputNames (finalizeConnections (Block.mk
      [Input.mk (SlotName.ifName "3") InputKind.value 0 none,
       Input.mk (SlotName.doName "3") InputKind.statement 1 none,
       Input.mk (SlotName.ifName "7") InputKind.value 2 (some (Target.mk 20 false)),
       Input.mk (SlotName.doName "7") InputKind.statement 3 none] 1 0 4)) := by
  decide

/-- C4 (amended): for well-formed states whose first pair's discriminator is
the canonical `"0"`, the rebuilt case pairs are exactly the populated pairs
(in order, one-sided attachments kept with the other side empty) renumbered
`0..n-1` — every case pair with both sides unattached is removed — except
that when no case is populated the single mandatory pair `0` is kept with
both sides empty.  (If the first pair has a stale discriminator, it can
survive the rebuild even when unattached; see the counterexample.) -/
theorem c4_amended_pruning (b : Block) (c0 : CaseData) (cs' : List CaseData)
    (e : Option ElseData) (W : WfBlock b (c0 :: cs') e) (hd0 : c0.d = decimalStr 0) :
    ∃ (ncs : List CaseData) (ne : Option ElseData),
      (finalizeConnections b).inputList = casesToInputs ncs ne ∧
      ncs.map (fun c => (c.ifT, c.doT))
        = (if populatedOf (c0 :: cs') = []
           then [((none : Option Target), (none : Option Target))]
           else populatedOf (c0 :: cs')) ∧
      ncs.map (fun c => c.d)
        = (List.range (max (populatedOf (c0 :: cs')).length 1)).map decimalStr ∧
      1 ≤ ncs.length := by
  obtain ⟨ncs, ne, h1, h2, h3, h4, h5, h6, h7, h8⟩ := finalize_struct b c0 cs' e W
  refine ⟨ncs, ne, h1, ?_, ?_, ?_⟩
  · cases hP : populatedOf (c0 :: cs') with
    | nil =>
      rw [hP] at h2
      rw [h2, show dInRangeK c0.d 0 ([] : List (Option Target × Option Target)).length = false
        from rfl]
      simp
    | cons p0 P' =>
      rw [hP] at h2
      rw [h2, show dInRangeK c0.d 0 ((p0 :: P').length) = true from by
        rw [hd0, List.length_cons]; exact dInRangeK_head 0 P'.length]
      simp
  · cases hP : populatedOf (c0 :: cs') with
    | nil =>
      rw [hP] at h3
      rw [h3, show dInRangeK c0.d 0 ([] : List (Option Target × Option Target)).length = false
        from rfl]
      simp [hd0]
      decide
    | cons p0 P' =>
      rw [hP] at h3
      rw [h3, show dInRangeK c0.d 0 ((p0 :: P').length) = true from by
        rw [hd0, List.length_cons]; exact dInRangeK_head 0 P'.length]
      have hmax : max (p0 :: P').length 1 = (p0 :: P').length := by
        simp only [List.length_cons]
        omega
      rw [hmax]
      simp
  · have hlen := congrArg List.length h3
    rw [List.length_map, List.length_append, List.length_map, List.length_range] at hlen
    by_cases hq : dInRangeK c0.d 0 (populatedOf (c0 :: cs')).length = true
    · rw [if_pos hq] at hlen
      rcases hn : (populatedOf (c0 :: cs')).length with _ | m
      · rw [hn] at hq
        simp [dInRangeK] at hq
      · omega
    · rw [if_neg hq] at hlen
      simp at hlen
      omega

theorem c4_amended_witness :
    ∃ (ncs : List CaseData) (ne : Option ElseData),
      (finalizeConnections (Block.mk (casesToInputs
          [CaseData.mk "0" 0 1 none none,
           CaseData.mk "4" 2 3 (some (Target.mk 21 false)) none] none) 1 0 4)).inputList
        = casesToInputs ncs ne ∧
      ncs.map (fun c => (c.ifT, c.doT))
        = (if populatedOf
              [CaseData.mk "0" 0 1 none none,
               CaseData.mk "4" 2 3 (some (Target.mk 21 false)) none] = []
           then [((none : Option Target), (none : Option Target))]
           else populatedOf
              [CaseData.mk "0" 0 1 none none,
               CaseData.mk "4" 2 3 (some (Target.mk 21 false)) none]) ∧
      ncs.map (fun c => c.d)
        = (List.range (max (populatedOf
              [CaseData.mk "0" 0 1 none none,
               CaseData.mk "4" 2 3 (some (Target.mk 21 false)) none]).length 1)).map decimalStr ∧
      1 ≤ ncs.length :=
  c4_amended_pruning _
    (CaseData.mk "0" 0 1 none none)
    [CaseData.mk "4" 2 3 (some (Target.mk 21 false)) none]
    none
    ⟨rfl, by decide, by decide, by decide, by decide, by decide⟩
    (by decide)

/-- C10 (counterexample): `finalizeConnections` is not idempotent.  On the
legacy-named state `[IF3(attached), DO3]`, one run yields four slots
(`IF0(attached), DO0, IF3, DO3` — the stale first pair survives empty), and
a second run collapses the now-unattached stale pair, yielding two slots, so
the slot lists differ. -/
theorem c10_counterexample :
    shapeOf (finalizeConnections (finalizeConnections
        (Block.mk
          [Input.mk (SlotName.ifName "3") InputKind.value 0 (some (Target.mk 30 false)),
           Input.mk (SlotName.doName "3") InputKind.statement 1 none] 0 0 2)))
      ≠ shapeOf (finalizeConnections
        (Block.mk
          [Input.mk (SlotName.ifName "3") InputKind.value 0 (some (Target.mk 30 false)),
           Input.mk (SlotName.doName "3") InputKind.statement 1 none] 0 0 2)) := by
  decide

/-- C10 (amended): on well-formed states whose first pair's discriminator is
the canonical `"0"` (every state built by `init` or by a previous finalize),
`finalizeConnections` is idempotent on the observable state: a second run
reproduces the same slot list (names, kinds and attachments) and the same
`elseifCount`/`elseCount`.  On legacy-named states a first run can leave a
stale empty pair that the second run removes; see the counterexample. -/
theorem c10_amended_idempotent_canonical (b : Block) (c0 : CaseData) (cs' : List CaseData)
    (e : Option ElseData) (W : WfBlock b (c0 :: cs') e) (hd0 : c0.d = decimalStr 0) :
    shapeOf (finalizeConnections (finalizeConnections b)) = shapeOf (finalizeConnections b)
    ∧ (finalizeConnections (finalizeConnections b)).elseifCount
        = (finalizeConnections b).elseifCount
    ∧ (finalizeConnections (finalizeConnections b)).elseCount
        = (finalizeConnections b).elseCount := by
  obtain ⟨ncs, ne, h1, h2, h3, h4, h5, h6, h7, h8⟩ := finalize_struct b c0 cs' e W
  have heT : ne.bind (fun ed => ed.t) = e.bind (fun ed => ed.t) := elseBind_of_shape ne _ h4
  have hpop : populatedOf ncs = populatedOf (c0 :: cs') :=
    populatedOf_result ncs _ _ h2 (populatedOf_populated _)
  have hfm : b.inputList.filterMap (fun i => i.target)
      = pairTargets (populatedOf (c0 :: cs')) ++ (e.bind (fun ed => ed.t)).toList := by
    rw [W.hList, filterMap_casesToInputs, filterMap_elseInputs]
  have hTres : ((finalizeConnections b).inputList.filterMap (fun i => i.target)).Nodup := by
    rw [h1, filterMap_casesToInputs, filterMap_elseInputs, hpop, heT, ← hfm]
    exact W.hT
  have hds : ncs.map (fun c => c.d)
      = (List.range (max (populatedOf (c0 :: cs')).length 1)).map decimalStr := by
    rcases hn : (populatedOf (c0 :: cs')).length with _ | m
    · rw [hn] at h3
      rw [h3, show dInRangeK c0.d 0 0 = false from rfl]
      simp [hd0]
      rfl
    · rw [hn] at h3
      rw [h3, show dInRangeK c0.d 0 (m + 1) = true from by rw [hd0]; exact dInRangeK_head 0 m]
      have hmax : max (m + 1) 1 = m + 1 := by omega
      rw [hmax]
      simp
  have hNe2 : ncs ≠ [] := by
    intro hcon
    rw [hcon] at hds
    have hlen := congrArg List.length hds
    simp at hlen
    omega
  cases ncs with
  | nil => exact absurd rfl hNe2
  | cons c0p ncs2 =>
    have hd0p : c0p.d = decimalStr 0 := by
      have hh := congrArg List.head? hds
      simp only [List.map_cons, List.head?_cons] at hh
      rcases hmax : max (populatedOf (c0 :: cs')).length 1 with _ | m2
      · have hge : 1 ≤ max (populatedOf (c0 :: cs')).length 1 := le_max_right _ _
        omega
      · rw [hmax, List.range_succ_eq_map] at hh
        simp only [List.map_cons, List.head?_cons] at hh
        exact Option.some.inj hh
    have hD2 : ((c0p :: ncs2).map (fun c => c.d)).Nodup := by
      rw [hds]
      exact range_map_decimal_nodup _
    have W2 : WfBlock (finalizeConnections b) (c0p :: ncs2) ne :=
      ⟨h1, by simp, hD2, hTres, h7, h8⟩
    obtain ⟨mcs, me, g1, g2, g3, g4, g5, g6, g7, g8⟩ :=
      finalize_struct (finalizeConnections b) c0p ncs2 ne W2
    refine ⟨?_, ?_, ?_⟩
    · show (finalizeConnections (finalizeConnections b)).inputList.map _
        = (finalizeConnections b).inputList.map _
      rw [g1, h1, shape_casesToInputs, shape_casesToInputs, g2, g3, g4, h2, h3, h4,
        hpop, heT, hd0p, hd0]
    · rw [g5, h5, hpop]
    · rw [g6, h6, heT]

theorem c10_amended_witness :
    shapeOf (finalizeConnections (finalizeConnections
        (Block.mk (casesToInputs
          [CaseData.mk "0" 0 1 (some (Target.mk 40 false)) none] none) 0 0 2)))
      = shapeOf (finalizeConnections
        (Block.mk (casesToInputs
          [CaseData.mk "0" 0 1 (some (Target.mk 40 false)) none] none) 0 0 2))
    ∧ (finalizeConnections (finalizeConnections
        (Block.mk (casesToInputs
          [CaseData.mk "0" 0 1 (some (Target.mk 40 false)) none] none) 0 0 2))).elseifCount
        = (finalizeConnections
        (Block.mk (casesToInputs
          [CaseData.mk "0" 0 1 (some (Target.mk 40 false)) none] none) 0 0 2)).elseifCount
    ∧ (finalizeConnections (finalizeConnections
        (Block.mk (casesToInputs
          [CaseData.mk "0" 0 1 (some (Target.mk 40 false)) none] none) 0 0 2))).elseCount
        = (finalizeConnections
        (Block.mk (casesToInputs
          [CaseData.mk "0" 0 1 (some (Target.mk 40 false)) none] none) 0 0 2)).elseCount :=
  c10_amended_idempotent_canonical _
    (CaseData.mk "0" 0 1 (some (Target.mk 40 false)) none) [] none
    ⟨rfl, by decide, by decide, by decide, by decide, by decide⟩
    (by decide)

/-- C9: encoding a fully populated canonical block (every case pair
attached, `k` else-if cases) with `mutationToDom` and decoding the emitted
mutation into a freshly constructed block with `domToMutation` reproduces
an equivalent shape — the same number of case pairs and the same presence
of an Else slot — for every `elseif` count in `{0, 1, 2, 5}` combined with
else present or absent.  (The built-in finalize prunes unattached case
pairs at export, so equivalence is stated for populated canonical
blocks.) -/
theorem c9_roundtrip_enumerated :
    ∀ pr ∈ [(0, false), (0, true), (1, false), (1, true),
            (2, false), (2, true), (5, false), (5, true)],
      caseCountOf (match (mutationToDom (mkCanon pr.1 pr.2)).2 with
          | some m => domToMutation initBlock m
          | none => initBlock)
        = caseCountOf (mkCanon pr.1 pr.2)
      ∧ hasElseOf (match (mutationToDom (mkCanon pr.1 pr.2)).2 with
          | some m => domToMutation initBlock m
          | none => initBlock)
        = hasElseOf (mkCanon pr.1 pr.2) := by
  decide

theorem c9_witness :
    caseCountOf (match (mutationToDom (mkCanon 5 true)).2 with
        | some m => domToMutation initBlock m
        | none => initBlock)
      = caseCountOf (mkCanon 5 true)
    ∧ hasElseOf (match (mutationToDom (mkCanon 5 true)).2 with
        | some m => domToMutation initBlock m
        | none => initBlock)
      = hasElseOf (mkCanon 5 true) :=
  c9_roundtrip_enumerated (5, true) (by decide)
